import Mathlib

/-!
# Torb ticket seller: in-memory event and reservation ledgers

A shallow embedding of `webapp/go/src/torb/app.go`: the seat catalog
(`SheetConfigs`, `DefaultSheets`), the two in-memory stores (`eventStore`,
`reservationStore`), the read-side projection `fillEventOtherFields`, and the
handlers that reserve a seat, cancel a reservation, create an event and edit an
event's visibility.

Conventions of the embedding.
* Go `int64` and `int` values are `Int`; every value the handlers compute from a
  valid rank stays far inside the 64-bit range, so no wrap-around is modelled.
* `time.Time` is an `Int` (an instant); `*time.Time` is `Option Time`.
* A slice of pointers (`[]*Reservation`, `[]*Event`) is a `List` of records: every
  element of the stores is a separate allocation, so writing through one pointer
  is `List.set` at its position.
* The handlers take the stores as arguments and return the response together
  with the store they leave behind.
* The outcomes of `rand.Intn` are an argument: the list of values returned by
  the successive calls, in call order.
-/

namespace Torb

/-! ## Data model -/

/-- An instant (`time.Time`), counted in nanoseconds since the Unix epoch. -/
abbrev Time := Int

/-- Go `func (t Time) Unix() int64`: whole seconds since the epoch. -/
def Time.Unix (t : Time) : Int := t / 1000000000

/-- Go `type User struct`; only the fields the handlers read. -/
structure User where
  ID : Int
  Nickname : String
  deriving DecidableEq, Repr

/-- Go `type Sheet struct`. -/
structure Sheet where
  ID : Int
  Rank : String
  Num : Int
  Price : Int
  Mine : Bool := false
  Reserved : Bool := false
  ReservedAtUnix : Int := 0
  deriving DecidableEq, Repr

/-- Go `type Sheets struct`. -/
structure Sheets where
  Total : Int := 0
  Remains : Int := 0
  Detail : List Sheet := []
  Price : Int := 0
  deriving DecidableEq, Repr

/-- Go `type Event struct`; `Sheets` is the `map[string]*Sheets`, kept as an
association list. -/
structure Event where
  ID : Int
  Title : String
  PublicFg : Bool
  ClosedFg : Bool
  Price : Int
  Total : Int := 0
  Remains : Int := 0
  Sheets : List (String × Sheets) := []
  deriving DecidableEq, Repr

/-- Go `type Reservation struct`; the fields the ledger stores. `ReservedAt` is
set by every path that creates a record (the `reserved_at` column read at boot and
`time.Now()` in the reserve handler), so the pointer is never nil and the field is
a plain `Time`; `CanceledAt` is the nullable pointer. -/
structure Reservation where
  ID : Int
  EventID : Int
  SheetID : Int
  UserID : Int
  ReservedAt : Time
  CanceledAt : Option Time
  deriving DecidableEq, Repr

/-- Go `type SheetConfig struct`. -/
structure SheetConfig where
  ID : Int
  Count : Int
  Price : Int
  deriving DecidableEq, Repr

/-! ## Seat catalog -/

/-- Go `var SheetConfigs map[string]SheetConfig`. -/
def SheetConfigs : List (String × SheetConfig) :=
  [("S", ⟨1, 50, 5000⟩), ("A", ⟨51, 150, 3000⟩), ("B", ⟨201, 300, 1000⟩), ("C", ⟨501, 500, 0⟩)]

/-- Map lookup `sc, ok := SheetConfigs[rank]`. -/
def sheetConfig? (rank : String) : Option SheetConfig :=
  SheetConfigs.lookup rank

/-- Map read `SheetConfigs[rank]`: the zero value when the key is absent. -/
def sheetConfig (rank : String) : SheetConfig :=
  (sheetConfig? rank).getD ⟨0, 0, 0⟩

/-- Go `func getSheetRange(rank string) (int64, int64)`. -/
def getSheetRange (rank : String) : Int × Int :=
  let sc := sheetConfig rank
  (sc.ID, sc.ID + sc.Count)

/-- Go `func validateRank(rank string) bool`. -/
def validateRank (rank : String) : Bool :=
  (sheetConfig? rank).isSome

/-- The inner loop of the `DefaultSheets` construction in `main`:
`for num := int64(1); num <= c.Count; num++`. -/
def rankSheets (rank : String) : List Sheet :=
  let c := sheetConfig rank
  (List.range c.Count.toNat).map fun (k : Nat) =>
    { ID := c.ID + ((k : Int) + 1) - 1, Rank := rank, Num := (k : Int) + 1, Price := c.Price }

/-- Go `var DefaultSheets []*Sheet`, as built at boot in `main`. -/
def DefaultSheets : List Sheet :=
  rankSheets "S" ++ rankSheets "A" ++ rankSheets "B" ++ rankSheets "C"

/-- Go `func getSheetFromId(id int64) *Sheet`: `DefaultSheets[id-1]`. An index
outside the slice makes Go panic; that is `none` here. -/
def getSheetFromId (id : Int) : Option Sheet :=
  if id - 1 < 0 then none else DefaultSheets[(id - 1).toNat]?

/-! ## The stores and the projection -/

/-- The `Where` filter shared by `fillEventOtherFields` and the reserve handler:
the reservations of the event that are not canceled. -/
def activeFor (reservationStore : List Reservation) (eventID : Int) : List Reservation :=
  reservationStore.filter fun r =>
    if r.EventID ≠ eventID then false
    else if r.CanceledAt ≠ none then false
    else true

/-- Write through the pointer `event.Sheets[rank]`: apply `f` to the entry under
`rank`. (Go panics on a missing key; the four keys are always present here.) -/
def sheetsModify (m : List (String × Sheets)) (rank : String) (f : Sheets → Sheets) :
    List (String × Sheets) :=
  m.map fun p => if p.1 = rank then (p.1, f p.2) else p

/-- The loop `for _, r := range reservations { reservationsMap[r.SheetID] = r }`:
a later assignment to a key shadows an earlier one. -/
def buildReservationsMap (reservations : List Reservation) : List (Int × Reservation) :=
  reservations.foldl (fun m r => (r.SheetID, r) :: m) []

/-- The body of `for rank, sc := range SheetConfigs` in `fillEventOtherFields`. -/
def initRank (event : Event) (p : String × SheetConfig) : Event :=
  { event with
    Sheets := sheetsModify event.Sheets p.1 fun ss =>
      { ss with Total := p.2.Count, Price := event.Price + p.2.Price, Remains := 0, Detail := [] } }

/-- The body of `for _, s := range DefaultSheets` in `fillEventOtherFields`. -/
def fillSheet (reservationsMap : List (Int × Reservation)) (loginUserID : Int)
    (event : Event) (s : Sheet) : Event :=
  let sheet : Sheet := { ID := s.ID, Rank := s.Rank, Num := s.Num, Price := s.Price }
  match reservationsMap.lookup s.ID with
  | none =>
    let event := { event with Remains := event.Remains + 1 }
    let event := { event with
      Sheets := sheetsModify event.Sheets sheet.Rank fun ss => { ss with Remains := ss.Remains + 1 } }
    { event with
      Sheets := sheetsModify event.Sheets sheet.Rank fun ss => { ss with Detail := ss.Detail ++ [sheet] } }
  | some reservation =>
    let sheet := { sheet with
      Mine := decide (reservation.UserID = loginUserID)
      Reserved := true
      ReservedAtUnix := Time.Unix reservation.ReservedAt }
    { event with
      Sheets := sheetsModify event.Sheets sheet.Rank fun ss => { ss with Detail := ss.Detail ++ [sheet] } }

/-- Go `func fillEventOtherFields(e *Event, loginUserID int64) *Event`; the global
`reservationStore` it reads is the first argument. -/
def fillEventOtherFields (reservationStore : List Reservation) (e : Event) (loginUserID : Int) :
    Event :=
  let event := e
  let event := { event with Sheets := [("S", {}), ("A", {}), ("B", {}), ("C", {})] }
  let reservations := activeFor reservationStore event.ID
  let reservationsMap := buildReservationsMap reservations
  let event := { event with Total := 1000, Remains := 0 }
  let event := SheetConfigs.foldl initRank event
  DefaultSheets.foldl (fillSheet reservationsMap loginUserID) event

/-- Go `func getEvent(eventID, loginUserID int64) (*Event, error)`; `none` is
`sql.ErrNoRows`. -/
def getEvent (eventStore : List Event) (reservationStore : List Reservation)
    (eventID loginUserID : Int) : Option Event :=
  if eventID ≤ 0 ∨ (eventStore.length : Int) ≤ eventID - 1 then none
  else
    match eventStore[(eventID - 1).toNat]? with
    | none => none
    | some e => some (fillEventOtherFields reservationStore e loginUserID)

/-- Go `func updateEvent(eventID int64, public bool, closed bool)`, returning the
event store it leaves. -/
def updateEvent (eventStore : List Event) (eventID : Int) (publicFg closedFg : Bool) :
    List Event :=
  if eventID ≤ 0 ∨ (eventStore.length : Int) ≤ eventID - 1 then eventStore
  else
    match eventStore[(eventID - 1).toNat]? with
    | none => eventStore
    | some e =>
      eventStore.set (eventID - 1).toNat { e with PublicFg := publicFg, ClosedFg := closedFg }

/-- The `Remains` counter of a rank in a projected event (`event.Sheets[rank].Remains`). -/
def rankRemains (event : Event) (rank : String) : Int :=
  match event.Sheets.lookup rank with
  | none => 0
  | some ss => ss.Remains

/-- The `Total` of a rank in a projected event (`event.Sheets[rank].Total`). -/
def rankTotal (event : Event) (rank : String) : Int :=
  match event.Sheets.lookup rank with
  | none => 0
  | some ss => ss.Total

/-- The seat list of a rank in a projected event (`event.Sheets[rank].Detail`). -/
def rankDetail (event : Event) (rank : String) : List Sheet :=
  match event.Sheets.lookup rank with
  | none => []
  | some ss => ss.Detail

/-! ## Handlers -/

/-- What a handler sends back. -/
inductive Response where
  /-- Go `resError(c, error, status)`. -/
  | resError (error : String) (status : Nat)
  /-- Go `c.JSON(202, echo.Map{"id", "sheet_rank", "sheet_num"})` of the reserve handler. -/
  | reserved (id : Int) (sheetRank : String) (sheetNum : Int)
  /-- Go `c.NoContent(204)`. -/
  | noContent
  /-- Go `c.JSON(200, event)`. -/
  | event (e : Event)
  /-- A runtime panic (index out of range). -/
  | panicked
  deriving DecidableEq, Repr

/-- The loop over the active reservations in the reserve handler:
`if sheetIdL <= sheetId && sheetId < sheetIdR { usedSheets[sheetId-sheetIdL] = true }`. -/
def markUsed (sheetIdL sheetIdR : Int) (usedSheets : List Bool) (reservations : List Reservation) :
    List Bool :=
  reservations.foldl (fun used reservation =>
    let sheetId := reservation.SheetID
    if sheetIdL ≤ sheetId ∧ sheetId < sheetIdR then used.set (sheetId - sheetIdL).toNat true
    else used) usedSheets

/-- The loop `for i := 0; i < len(idxes); i++ { idxes[i] = int64(i) + sheetIdL }`. -/
def initIdxes (sheetIdL sheetIdR : Int) : List Int :=
  (List.range (sheetIdR - sheetIdL).toNat).map fun (i : Nat) => (i : Int) + sheetIdL

/-- Go `idxes[i], idxes[j] = idxes[j], idxes[i]`. -/
def swap (idxes : List Int) (i j : Nat) : List Int :=
  (idxes.set i (idxes.getD j 0)).set j (idxes.getD i 0)

/-- The loop `for i := len(idxes) - 1; i >= 0; i-- { j := rand.Intn(i + 1); swap }`
with `i + 1` iterations left; `rnd` holds the values `rand.Intn` returns, in call
order. -/
def shuffleLoop : Nat → List Nat → List Int → List Int
  | 0, _, idxes => idxes
  | i + 1, rnd, idxes => shuffleLoop i rnd.tail (swap idxes i (rnd.headD 0))

/-- The contract of `rand.Intn`: the call `rand.Intn(i + 1)` returns a value in
`[0, i]`. `validRand n rnd` says `rnd` lists the outcomes of the `n` calls of the
shuffle loop over `n` seats. -/
def validRand : Nat → List Nat → Bool
  | 0, _ => true
  | _ + 1, [] => false
  | i + 1, j :: rnd => decide (j < i + 1) && validRand i rnd

/-- The loop that picks the seat: the first `id` of `idxes` with
`!usedSheets[id-sheetIdL]`, or the initial value `-1` of `useSheetId`. -/
def findFree (sheetIdL : Int) (usedSheets : List Bool) : List Int → Int
  | [] => -1
  | id :: rest =>
    if !usedSheets.getD (id - sheetIdL).toNat false then id
    else findFree sheetIdL usedSheets rest

/-- The seat selection of the reserve handler (its critical section up to
`useSheetId`): mark the occupied seats of the rank, shuffle the ids of the rank
and take the first free one. -/
def allocate (reservationStore : List Reservation) (eventID : Int) (rank : String)
    (rnd : List Nat) : Int :=
  let (sheetIdL, sheetIdR) := getSheetRange rank
  let usedSheets := List.replicate (sheetIdR - sheetIdL).toNat false
  let reservations := activeFor reservationStore eventID
  let usedSheets := markUsed sheetIdL sheetIdR usedSheets reservations
  let idxes := initIdxes sheetIdL sheetIdR
  let idxes := shuffleLoop idxes.length rnd idxes
  findFree sheetIdL usedSheets idxes

/-- The handler of `POST /api/events/:id/actions/reserve` behind `loginRequired`.
`sess` is the user of the session (`none`: not logged in), `idParam` the result of
`strconv.ParseInt` on `:id` (`none`: parse error), `now` the value of `time.Now()`.
Returns the response and the reservation store left behind. -/
def reserveHandler (eventStore : List Event) (reservationStore : List Reservation)
    (sess : Option User) (idParam : Option Int) (rank : String) (rnd : List Nat) (now : Time) :
    Response × List Reservation :=
  match sess with
  | none => (.resError "login_required" 401, reservationStore)
  | some user =>
    match idParam with
    | none => (.resError "not_found" 404, reservationStore)
    | some eventID =>
      match getEvent eventStore reservationStore eventID user.ID with
      | none => (.resError "invalid_event" 404, reservationStore)
      | some event =>
        if !event.PublicFg then (.resError "invalid_event" 404, reservationStore)
        else if !validateRank rank then (.resError "invalid_rank" 400, reservationStore)
        else
          let useSheetId := allocate reservationStore event.ID rank rnd
          if useSheetId = -1 then (.resError "sold_out" 409, reservationStore)
          else
            match getSheetFromId useSheetId with
            | none => (.panicked, reservationStore)
            | some sheet =>
              let reservation : Reservation :=
                { ID := (reservationStore.length : Int) + 1
                  EventID := event.ID
                  SheetID := sheet.ID
                  UserID := user.ID
                  ReservedAt := now
                  CanceledAt := none }
              (.reserved reservation.ID rank sheet.Num, reservationStore ++ [reservation])

/-- The `Where` filter of the cancel handler: active reservations of the event on
the seat. -/
def cancelTarget (eventID sheetId : Int) (r : Reservation) : Bool :=
  if r.EventID ≠ eventID then false
  else if r.SheetID ≠ sheetId then false
  else if r.CanceledAt ≠ none then false
  else true

/-- The handler of `DELETE /api/events/:id/sheets/:rank/:num/reservation` behind
`loginRequired`. `intNum` is the value `strconv.ParseInt` leaves for `:num` (its
error is ignored). `reservations[0]` points at the first element of the store that
passes the filter; the write `reservation.CanceledAt = &canceledAt` goes to that
element. -/
def cancelHandler (eventStore : List Event) (reservationStore : List Reservation)
    (sess : Option User) (idParam : Option Int) (rank : String) (intNum : Int) (now : Time) :
    Response × List Reservation :=
  match sess with
  | none => (.resError "login_required" 401, reservationStore)
  | some user =>
    match idParam with
    | none => (.resError "not_found" 404, reservationStore)
    | some eventID =>
      match getEvent eventStore reservationStore eventID user.ID with
      | none => (.resError "invalid_event" 404, reservationStore)
      | some event =>
        if !event.PublicFg then (.resError "invalid_event" 404, reservationStore)
        else if !validateRank rank then (.resError "invalid_rank" 404, reservationStore)
        else
          match sheetConfig? rank with
          | none => (.resError "invalid_sheet" 404, reservationStore)
          | some sc =>
            if sc.Count < intNum then (.resError "invalid_sheet" 404, reservationStore)
            else
              let sheetId := sc.ID + intNum - 1
              match reservationStore.findIdx? (cancelTarget event.ID sheetId) with
              | none => (.resError "not_reserved" 400, reservationStore)
              | some i =>
                match reservationStore[i]? with
                | none => (.panicked, reservationStore)
                | some reservation =>
                  if reservation.UserID ≠ user.ID then
                    (.resError "not_permitted" 403, reservationStore)
                  else
                    let canceledAt := now
                    (.noContent,
                      reservationStore.set i { reservation with CanceledAt := some canceledAt })

/-- The handler of `POST /admin/api/events` behind `adminLoginRequired` (`admin`:
an administrator is logged in). Returns the response and the event store left
behind. -/
def createEventHandler (eventStore : List Event) (reservationStore : List Reservation)
    (admin : Bool) (title : String) (publicFg : Bool) (price : Int) : Response × List Event :=
  if !admin then (.resError "admin_login_required" 401, eventStore)
  else
    let event : Event :=
      { ID := (eventStore.length : Int) + 1
        Title := title
        PublicFg := publicFg
        ClosedFg := false
        Price := price }
    (.event (fillEventOtherFields reservationStore event (-1)), eventStore ++ [event])

/-- The handler of `POST /admin/api/events/:id/actions/edit` behind
`adminLoginRequired`. Returns the response and the event store left behind. -/
def editEventHandler (eventStore : List Event) (reservationStore : List Reservation)
    (admin : Bool) (idParam : Option Int) (publicFg closedFg : Bool) : Response × List Event :=
  if !admin then (.resError "admin_login_required" 401, eventStore)
  else
    match idParam with
    | none => (.resError "not_found" 404, eventStore)
    | some eventID =>
      let publicFg := if closedFg then false else publicFg
      match getEvent eventStore reservationStore eventID (-1) with
      | none => (.resError "not_found" 404, eventStore)
      | some event =>
        if event.ClosedFg then (.resError "cannot_edit_closed_event" 400, eventStore)
        else if event.PublicFg && closedFg then
          (.resError "cannot_close_public_event" 400, eventStore)
        else
          let event := { event with PublicFg := publicFg, ClosedFg := closedFg }
          (.event event, updateEvent eventStore eventID publicFg closedFg)

/-! ## Concurrent requests

Requests run as goroutines over the shared `reservationStore`. A request advances
in steps; a step is one access to the shared ledger or one operation on
`reservationMutex`, and the steps of different requests interleave in any order
that `reservationMutex` allows. The reserve handler calls `reservationMutex.Lock()`
before it reads the ledger and releases it through the deferred `Unlock()` when it
returns; the cancel handler contains no call on `reservationMutex`. -/

/-- The part of the reserve handler before `reservationMutex.Lock()`: the guards.
`ok (event.ID, user.ID)` when they pass. -/
def reserveGuard (eventStore : List Event) (reservationStore : List Reservation)
    (sess : Option User) (idParam : Option Int) (rank : String) : Except Response (Int × Int) :=
  match sess with
  | none => .error (.resError "login_required" 401)
  | some user =>
    match idParam with
    | none => .error (.resError "not_found" 404)
    | some eventID =>
      match getEvent eventStore reservationStore eventID user.ID with
      | none => .error (.resError "invalid_event" 404)
      | some event =>
        if !event.PublicFg then .error (.resError "invalid_event" 404)
        else if !validateRank rank then .error (.resError "invalid_rank" 400)
        else .ok (event.ID, user.ID)

/-- The read-and-decide part of the cancel handler: everything up to the owner
check. `ok i` when `reservations[0]` points at `reservationStore[i]` and the
request may cancel it. -/
def cancelRead (eventStore : List Event) (reservationStore : List Reservation)
    (sess : Option User) (idParam : Option Int) (rank : String) (intNum : Int) :
    Except Response Nat :=
  match sess with
  | none => .error (.resError "login_required" 401)
  | some user =>
    match idParam with
    | none => .error (.resError "not_found" 404)
    | some eventID =>
      match getEvent eventStore reservationStore eventID user.ID with
      | none => .error (.resError "invalid_event" 404)
      | some event =>
        if !event.PublicFg then .error (.resError "invalid_event" 404)
        else if !validateRank rank then .error (.resError "invalid_rank" 404)
        else
          match sheetConfig? rank with
          | none => .error (.resError "invalid_sheet" 404)
          | some sc =>
            if sc.Count < intNum then .error (.resError "invalid_sheet" 404)
            else
              let sheetId := sc.ID + intNum - 1
              match reservationStore.findIdx? (cancelTarget event.ID sheetId) with
              | none => .error (.resError "not_reserved" 400)
              | some i =>
                match reservationStore[i]? with
                | none => .error .panicked
                | some reservation =>
                  if reservation.UserID ≠ user.ID then .error (.resError "not_permitted" 403)
                  else .ok i

/-- The write of the cancel handler, `reservation.CanceledAt = &canceledAt`, through
the pointer to `reservationStore[i]` taken by the read. -/
def cancelWrite (reservationStore : List Reservation) (i : Nat) (canceledAt : Time) :
    List Reservation :=
  match reservationStore[i]? with
  | none => reservationStore
  | some reservation => reservationStore.set i { reservation with CanceledAt := some canceledAt }

/-- A request in flight. -/
inductive Request where
  | reserve (sess : Option User) (idParam : Option Int) (rank : String) (rnd : List Nat)
      (now : Time)
  | cancel (sess : Option User) (idParam : Option Int) (rank : String) (intNum : Int)
      (now : Time)
  deriving DecidableEq, Repr

/-- Where a request stands. -/
inductive Pc where
  /-- Not started. -/
  | start
  /-- Reserve: guards passed, blocked in `reservationMutex.Lock()`. -/
  | waiting (eventID userID : Int)
  /-- Reserve: guards passed and `reservationMutex` locked. -/
  | holding (eventID userID : Int)
  /-- Reserve: seat selected, `reservationMutex` still locked. -/
  | chosen (eventID userID : Int) (sheet : Sheet)
  /-- Reserve: about to return, the deferred `Unlock()` pending. -/
  | leaving (resp : Response)
  /-- Cancel: the read found `reservationStore[i]` and the owner check passed. -/
  | target (i : Nat)
  /-- Returned with this response. -/
  | done (resp : Response)
  deriving DecidableEq, Repr

/-- The shared state and the position of every request. -/
structure World where
  reservationStore : List Reservation
  mutexLocked : Bool
  pcs : List Pc
  deriving DecidableEq, Repr

/-- One step of one request on the shared ledger and mutex; returns the ledger,
the mutex and the request's new position. A reserve request that finds the mutex
locked waits. -/
def stepRequest (eventStore : List Event) (req : Request) (reservationStore : List Reservation)
    (mutexLocked : Bool) (pc : Pc) : List Reservation × Bool × Pc :=
  match req, pc with
  | .reserve sess idParam rank _ _, .start =>
    match reserveGuard eventStore reservationStore sess idParam rank with
    | .error resp => (reservationStore, mutexLocked, .done resp)
    | .ok (eventID, userID) =>
      if mutexLocked then (reservationStore, mutexLocked, .waiting eventID userID)
      else (reservationStore, true, .holding eventID userID)
  | .reserve _ _ _ _ _, .waiting eventID userID =>
    if mutexLocked then (reservationStore, mutexLocked, .waiting eventID userID)
    else (reservationStore, true, .holding eventID userID)
  | .reserve _ _ rank rnd _, .holding eventID userID =>
    let useSheetId := allocate reservationStore eventID rank rnd
    if useSheetId = -1 then (reservationStore, mutexLocked, .leaving (.resError "sold_out" 409))
    else
      match getSheetFromId useSheetId with
      | none => (reservationStore, mutexLocked, .leaving .panicked)
      | some sheet => (reservationStore, mutexLocked, .chosen eventID userID sheet)
  | .reserve _ _ rank _ now, .chosen eventID userID sheet =>
    let reservation : Reservation :=
      { ID := (reservationStore.length : Int) + 1
        EventID := eventID
        SheetID := sheet.ID
        UserID := userID
        ReservedAt := now
        CanceledAt := none }
    (reservationStore ++ [reservation], mutexLocked,
      .leaving (.reserved reservation.ID rank sheet.Num))
  | .reserve _ _ _ _ _, .leaving resp => (reservationStore, false, .done resp)
  | .cancel sess idParam rank intNum _, .start =>
    match cancelRead eventStore reservationStore sess idParam rank intNum with
    | .error resp => (reservationStore, mutexLocked, .done resp)
    | .ok i => (reservationStore, mutexLocked, .target i)
  | .cancel _ _ _ _ now, .target i =>
    (cancelWrite reservationStore i now, mutexLocked, .done .noContent)
  | _, pc => (reservationStore, mutexLocked, pc)

/-- Request number `t` takes one step. -/
def step (eventStore : List Event) (reqs : List Request) (w : World) (t : Nat) : World :=
  match reqs[t]?, w.pcs[t]? with
  | some req, some pc =>
    let (store, locked, pc2) := stepRequest eventStore req w.reservationStore w.mutexLocked pc
    { reservationStore := store, mutexLocked := locked, pcs := w.pcs.set t pc2 }
  | _, _ => w

/-- An interleaving: the requests step in the order the schedule lists them. -/
def run (eventStore : List Event) (reqs : List Request) (schedule : List Nat) (w : World) :
    World :=
  schedule.foldl (step eventStore reqs) w

/-- The world in which no request has started. -/
def initWorld (reservationStore : List Reservation) (reqs : List Request) : World :=
  { reservationStore := reservationStore, mutexLocked := false,
    pcs := reqs.map fun _ => Pc.start }

/-- The request is between `reservationMutex.Lock()` and the deferred `Unlock()`. -/
def Pc.critical : Pc → Bool
  | .holding _ _ => true
  | .chosen _ _ _ => true
  | .leaving _ => true
  | _ => false

/-! ## Vocabulary of the properties -/

/-- The reservation is active (not canceled) for the event on the seat. -/
def activeOn (eventID sheetID : Int) (r : Reservation) : Bool :=
  decide (r.EventID = eventID) && decide (r.SheetID = sheetID) && r.CanceledAt.isNone

/-- Seat-occupancy invariant: every (event id, seat id) pair has at most one
reservation with `CanceledAt == nil`. -/
def seatOccupancyInv (reservationStore : List Reservation) : Prop :=
  ∀ e s : Int, reservationStore.countP (activeOn e s) ≤ 1

/-- No two positions of the ledger hold active reservations of the same event on
the same seat (a decidable form of the seat-occupancy invariant). -/
def noDoubleBooking (reservationStore : List Reservation) : Prop :=
  reservationStore.Pairwise fun a b =>
    ¬ (a.CanceledAt = none ∧ b.CanceledAt = none ∧ a.EventID = b.EventID ∧ a.SheetID = b.SheetID)

instance (reservationStore : List Reservation) : Decidable (noDoubleBooking reservationStore) := by
  unfold noDoubleBooking; infer_instance

/-- Dense reservation ids: `store[i].ID == i + 1` for every index. -/
def denseIds (reservationStore : List Reservation) : Prop :=
  ∀ (i : Nat) (h : i < reservationStore.length), reservationStore[i].ID = (i : Int) + 1

/-- The seat is free for the event: no active reservation of the event holds it. -/
def seatFree (reservationStore : List Reservation) (eventID sheetID : Int) : Prop :=
  ∀ r ∈ reservationStore, activeOn eventID sheetID r = false

instance (reservationStore : List Reservation) (eventID sheetID : Int) :
    Decidable (seatFree reservationStore eventID sheetID) := by
  unfold seatFree; infer_instance

/-- The number of seats of the rank that are free for the event. -/
def freeSeatCount (reservationStore : List Reservation) (eventID : Int) (rank : String) : Nat :=
  (initIdxes (getSheetRange rank).1 (getSheetRange rank).2).countP fun id =>
    decide (seatFree reservationStore eventID id)

/-- The seat as the walk of `fillEventOtherFields` appends it to its rank's
`Detail`: the catalog seat with the flags read off the reservation map. -/
def seatView (reservationsMap : List (Int × Reservation)) (loginUserID : Int) (s : Sheet) : Sheet :=
  match reservationsMap.lookup s.ID with
  | none => { ID := s.ID, Rank := s.Rank, Num := s.Num, Price := s.Price }
  | some reservation =>
    { ID := s.ID, Rank := s.Rank, Num := s.Num, Price := s.Price
      Mine := decide (reservation.UserID = loginUserID)
      Reserved := true
      ReservedAtUnix := Time.Unix reservation.ReservedAt }

/-- Dense event ids: `eventStore[i].ID == i + 1` for every index. -/
def denseEventIds (eventStore : List Event) : Prop :=
  ∀ (i : Nat) (h : i < eventStore.length), eventStore[i].ID = (i : Int) + 1

/-- What every reachable world of concurrent requests satisfies: the ledger keeps
the seat-occupancy invariant and dense ids, at most one request is inside the
critical section and the mutex is locked while one is, and the seat a reserve
request has selected is still free. -/
structure Safe (w : World) : Prop where
  inv : seatOccupancyInv w.reservationStore
  dense : denseIds w.reservationStore
  excl : ∀ (t u : Nat) (pt pu : Pc), w.pcs[t]? = some pt → w.pcs[u]? = some pu →
    pt.critical = true → pu.critical = true → t = u
  held : ∀ (t : Nat) (pt : Pc), w.pcs[t]? = some pt → pt.critical = true → w.mutexLocked = true
  free : ∀ (t : Nat) (e u : Int) (sheet : Sheet), w.pcs[t]? = some (.chosen e u sheet) →
    seatFree w.reservationStore e sheet.ID

/-- Every reserve request carries outcomes within the contract of `rand.Intn`. -/
def validRequests (reqs : List Request) : Prop :=
  ∀ (sess : Option User) (idParam : Option Int) (rank : String) (rnd : List Nat) (now : Time),
    Request.reserve sess idParam rank rnd now ∈ reqs →
      validRand (sheetConfig rank).Count.toNat rnd = true

/-- One edit request as it reaches `editEventHandler`, with the reservation ledger
at that moment. -/
structure EditRequest where
  reservationStore : List Reservation
  admin : Bool
  idParam : Option Int
  publicFg : Bool
  closedFg : Bool

/-- The event store after a sequence of edit requests. -/
def editRun (eventStore : List Event) (reqs : List EditRequest) : List Event :=
  reqs.foldl (fun es rq =>
    (editEventHandler es rq.reservationStore rq.admin rq.idParam rq.publicFg rq.closedFg).2)
    eventStore

/-- All sequences of shuffle choices for `n` seats, in call order: the first entry
is the outcome of `rand.Intn(n)` (loop index `n - 1`), the last the outcome of
`rand.Intn(1)` (loop index `0`). -/
def choiceSeqs : Nat → List (List Nat)
  | 0 => [[]]
  | n + 1 => (List.range (n + 1)).flatMap fun j => (choiceSeqs n).map fun c => j :: c

/-- The number of choice sequences that lead the shuffle-and-pick loops to one
given free seat, among `n` seats of which `k` are free, by the first iteration of
the shuffle: the seat moved to the last position is occupied (`n + 1 - k` outcomes),
another free seat (`k - 1` outcomes), or the given seat itself (one outcome, which
selects it only when no other seat is free). -/
def pickCount : Nat → Nat → Nat
  | 0, _ => 0
  | n + 1, k =>
    (n + 1 - k) * pickCount n k + (k - 1) * pickCount n (k - 1) +
      (if k = 1 then n.factorial else 0)

/-- The number of choice sequences for which the reserve handler's selection picks
seat `s`. -/
def selectCount (reservationStore : List Reservation) (eventID : Int) (rank : String) (s : Int) :
    Nat :=
  (choiceSeqs (sheetConfig rank).Count.toNat).countP fun c =>
    decide (allocate reservationStore eventID rank c = s)

/-! ## Concrete inputs used by the examples -/

/-- A stored event that is closed. -/
def exClosedEvent : Event :=
  { ID := 1, Title := "gala", PublicFg := false, ClosedFg := true, Price := 3000 }

/-- A stored event that is public and open. -/
def exEvent : Event :=
  { ID := 1, Title := "live", PublicFg := true, ClosedFg := false, Price := 3000 }

/-- A logged-in user. -/
def exUser : User := { ID := 7, Nickname := "nana" }

/-- A ledger with one active reservation: user 7 holds seat 3 of event 1. -/
def exLedger : List Reservation := [⟨1, 1, 3, 7, 5, none⟩]

/-- Outcomes of `rand.Intn` for the 50 seats of rank S: every call returns 0. -/
def exRnd : List Nat := List.replicate 50 0

/-- A ledger that breaks the seat-occupancy invariant: two active reservations of
user 7 on seat 3 of event 1. -/
def exDupLedger : List Reservation := [⟨1, 1, 3, 7, 5, none⟩, ⟨2, 1, 3, 7, 6, none⟩]

/-- A ledger in which user 7 holds seat 50 of event 1, the last seat of rank S. -/
def exLedgerS50 : List Reservation := [⟨1, 1, 50, 7, 5, none⟩]

/-- Two cancel requests of user 7 for seat 3 of rank S of event 1, sent at times 9
and 10. -/
def exTwoCancels : List Request :=
  [.cancel (some exUser) (some 1) "S" 3 9, .cancel (some exUser) (some 1) "S" 3 10]

/-- Two reserve requests for rank S of event 1, by users 7 and 8. -/
def exTwoReserves : List Request :=
  [.reserve (some exUser) (some 1) "S" exRnd 9,
   .reserve (some { ID := 8, Nickname := "yaya" }) (some 1) "S" exRnd 10]

/-! ## Theorems -/

set_option maxRecDepth 100000

theorem initRank_fields (event : Event) (p : String × SheetConfig) :
    (initRank event p).ID = event.ID ∧ (initRank event p).Title = event.Title ∧
    (initRank event p).PublicFg = event.PublicFg ∧ (initRank event p).ClosedFg = event.ClosedFg ∧
    (initRank event p).Price = event.Price ∧ (initRank event p).Total = event.Total ∧
    (initRank event p).Remains = event.Remains := by
  simp [initRank]

theorem fillSheet_fields (m : List (Int × Reservation)) (u : Int) (event : Event) (s : Sheet) :
    (fillSheet m u event s).ID = event.ID ∧ (fillSheet m u event s).Title = event.Title ∧
    (fillSheet m u event s).PublicFg = event.PublicFg ∧
    (fillSheet m u event s).ClosedFg = event.ClosedFg ∧
    (fillSheet m u event s).Price = event.Price ∧ (fillSheet m u event s).Total = event.Total := by
  unfold fillSheet
  cases List.lookup s.ID m <;> simp

theorem foldl_initRank_fields (l : List (String × SheetConfig)) (event : Event) :
    (l.foldl initRank event).ID = event.ID ∧ (l.foldl initRank event).Title = event.Title ∧
    (l.foldl initRank event).PublicFg = event.PublicFg ∧
    (l.foldl initRank event).ClosedFg = event.ClosedFg ∧
    (l.foldl initRank event).Price = event.Price ∧ (l.foldl initRank event).Total = event.Total ∧
    (l.foldl initRank event).Remains = event.Remains := by
  induction l generalizing event with
  | nil => simp
  | cons p l ih =>
    have h := initRank_fields event p
    have h2 := ih (initRank event p)
    simp only [List.foldl_cons]
    refine ⟨h2.1.trans h.1, h2.2.1.trans h.2.1, h2.2.2.1.trans h.2.2.1, h2.2.2.2.1.trans h.2.2.2.1,
      h2.2.2.2.2.1.trans h.2.2.2.2.1, h2.2.2.2.2.2.1.trans h.2.2.2.2.2.1,
      h2.2.2.2.2.2.2.trans h.2.2.2.2.2.2⟩

theorem foldl_fillSheet_fields (m : List (Int × Reservation)) (u : Int) (l : List Sheet)
    (event : Event) :
    (l.foldl (fillSheet m u) event).ID = event.ID ∧
    (l.foldl (fillSheet m u) event).Title = event.Title ∧
    (l.foldl (fillSheet m u) event).PublicFg = event.PublicFg ∧
    (l.foldl (fillSheet m u) event).ClosedFg = event.ClosedFg ∧
    (l.foldl (fillSheet m u) event).Price = event.Price ∧
    (l.foldl (fillSheet m u) event).Total = event.Total := by
  induction l generalizing event with
  | nil => simp
  | cons s l ih =>
    have h := fillSheet_fields m u event s
    have h2 := ih (fillSheet m u event s)
    simp only [List.foldl_cons]
    refine ⟨h2.1.trans h.1, h2.2.1.trans h.2.1, h2.2.2.1.trans h.2.2.1, h2.2.2.2.1.trans h.2.2.2.1,
      h2.2.2.2.2.1.trans h.2.2.2.2.1, h2.2.2.2.2.2.trans h.2.2.2.2.2⟩

/-- The projection copies the stored event's own fields. -/
theorem fillEventOtherFields_fields (S : List Reservation) (e : Event) (u : Int) :
    (fillEventOtherFields S e u).ID = e.ID ∧ (fillEventOtherFields S e u).Title = e.Title ∧
    (fillEventOtherFields S e u).PublicFg = e.PublicFg ∧
    (fillEventOtherFields S e u).ClosedFg = e.ClosedFg ∧
    (fillEventOtherFields S e u).Price = e.Price ∧ (fillEventOtherFields S e u).Total = 1000 := by
  unfold fillEventOtherFields
  simp only []
  have h1 := foldl_fillSheet_fields (buildReservationsMap (activeFor S e.ID)) u DefaultSheets
    (SheetConfigs.foldl initRank
      { e with Sheets := [("S", {}), ("A", {}), ("B", {}), ("C", {})], Total := 1000, Remains := 0 })
  have h2 := foldl_initRank_fields SheetConfigs
    { e with Sheets := [("S", {}), ("A", {}), ("B", {}), ("C", {})], Total := 1000, Remains := 0 }
  refine ⟨h1.1.trans h2.1, h1.2.1.trans h2.2.1, h1.2.2.1.trans h2.2.2.1,
    h1.2.2.2.1.trans h2.2.2.2.1, h1.2.2.2.2.1.trans h2.2.2.2.2.1, h1.2.2.2.2.2.trans h2.2.2.2.2.2.1⟩

/-- When the id addresses a stored event, `getEvent` returns its projection. -/
theorem getEvent_of_stored (ES : List Event) (S : List Reservation) (eventID u : Int) (e : Event)
    (hpos : 0 < eventID) (he : ES[(eventID - 1).toNat]? = some e) :
    getEvent ES S eventID u = some (fillEventOtherFields S e u) := by
  have hlt : (eventID - 1).toNat < ES.length := by
    rcases Nat.lt_or_ge (eventID - 1).toNat ES.length with h | h
    · exact h
    · rw [List.getElem?_eq_none h] at he; cases he
  unfold getEvent
  have hg : ¬ (eventID ≤ 0 ∨ (ES.length : Int) ≤ eventID - 1) := by omega
  simp only [if_neg hg, he]

/-- What `getEvent` returns is the projection of the event stored at index `id - 1`. -/
theorem getEvent_eq_some (ES : List Event) (S : List Reservation) (eventID u : Int) (event : Event)
    (h : getEvent ES S eventID u = some event) :
    0 < eventID ∧ ∃ e, ES[(eventID - 1).toNat]? = some e ∧ event = fillEventOtherFields S e u := by
  unfold getEvent at h
  split at h
  · cases h
  · rename_i hg
    split at h
    · cases h
    · rename_i e he
      exact ⟨by omega, e, he, (Option.some.inj h).symm⟩

/-- The edit handler either leaves the event store alone or found an event that
is not closed and wrote the flags at its index. -/
theorem editEventHandler_store (ES : List Event) (S : List Reservation) (admin : Bool)
    (idParam : Option Int) (publicFg closedFg : Bool) :
    (editEventHandler ES S admin idParam publicFg closedFg).2 = ES ∨
    ∃ (eventID : Int) (e : Event), 0 < eventID ∧ ES[(eventID - 1).toNat]? = some e ∧
      e.ClosedFg = false ∧
      (editEventHandler ES S admin idParam publicFg closedFg).2 =
        ES.set (eventID - 1).toNat
          { e with PublicFg := (if closedFg then false else publicFg), ClosedFg := closedFg } := by
  unfold editEventHandler
  cases admin
  · left; rfl
  · cases idParam with
    | none => left; rfl
    | some eventID =>
      simp only [Bool.not_true, Bool.false_eq_true, if_false]
      cases hg : getEvent ES S eventID (-1) with
      | none => left; rfl
      | some event =>
        obtain ⟨hpos, e, he, hev⟩ := getEvent_eq_some ES S eventID (-1) event hg
        have hf := fillEventOtherFields_fields S e (-1)
        simp only []
        by_cases hc : event.ClosedFg = true
        · left; simp [hc]
        · by_cases hp : (event.PublicFg && closedFg) = true
          · left; simp [hc, hp]
          · right
            refine ⟨eventID, e, hpos, he, ?_, ?_⟩
            · rw [← hf.2.2.2.1, ← hev]; simpa using hc
            · have hlt : (eventID - 1).toNat < ES.length := by
                rcases Nat.lt_or_ge (eventID - 1).toNat ES.length with h | h
                · exact h
                · rw [List.getElem?_eq_none h] at he; cases he
              have hg2 : ¬ (eventID ≤ 0 ∨ (ES.length : Int) ≤ eventID - 1) := by omega
              simp only [hc, hp, if_false, updateEvent, if_neg hg2, he]
              simp

/-- An edit request leaves every closed stored event as it is. -/
theorem editEventHandler_keeps_closed (ES : List Event) (S : List Reservation) (admin : Bool)
    (idParam : Option Int) (publicFg closedFg : Bool) (k : Nat) (ev : Event)
    (hk : ES[k]? = some ev) (hc : ev.ClosedFg = true) :
    (editEventHandler ES S admin idParam publicFg closedFg).2[k]? = some ev := by
  rcases editEventHandler_store ES S admin idParam publicFg closedFg with h | ⟨eventID, e, _, he, hec, h⟩
  · rw [h]; exact hk
  · rw [h]
    have hne : (eventID - 1).toNat ≠ k := by
      intro heq
      rw [heq, hk] at he
      have : ev = e := Option.some.inj he
      rw [this, hec] at hc
      cases hc
    rw [List.getElem?_set_ne hne]
    exact hk

/-- A sequence of edit requests leaves every closed stored event as it is. -/
theorem editRun_keeps_closed (reqs : List EditRequest) (ES : List Event) (k : Nat) (ev : Event)
    (hk : ES[k]? = some ev) (hc : ev.ClosedFg = true) : (editRun ES reqs)[k]? = some ev := by
  induction reqs generalizing ES with
  | nil => exact hk
  | cons rq reqs ih =>
    unfold editRun
    simp only [List.foldl_cons]
    exact ih _ (editEventHandler_keeps_closed ES rq.reservationStore rq.admin rq.idParam
      rq.publicFg rq.closedFg k ev hk hc)

/-- C9. Event visibility state machine: an edit request addressed to a stored
event that is closed is rejected with `cannot_edit_closed_event`; one addressed to a
stored event that is public and asking `closed = true` is rejected (with
`cannot_close_public_event` when the event is not closed, the closed check coming
first); both leave the event store unchanged; and a stored event whose `ClosedFg`
is true stays exactly as it is through every sequence of edit requests. -/
theorem edit_rejects_closed_and_closing_public (ES : List Event) (S : List Reservation)
    (eventID : Int) (publicFg closedFg : Bool) (e : Event)
    (hpos : 0 < eventID) (he : ES[(eventID - 1).toNat]? = some e) :
    (e.ClosedFg = true →
      editEventHandler ES S true (some eventID) publicFg closedFg =
        (.resError "cannot_edit_closed_event" 400, ES)) ∧
    (e.PublicFg = true → closedFg = true →
      (editEventHandler ES S true (some eventID) publicFg closedFg).2 = ES ∧
      (∃ msg, (editEventHandler ES S true (some eventID) publicFg closedFg).1 =
        .resError msg 400) ∧
      (e.ClosedFg = false →
        (editEventHandler ES S true (some eventID) publicFg closedFg).1 =
          .resError "cannot_close_public_event" 400)) ∧
    (∀ (reqs : List EditRequest) (k : Nat) (ev : Event), ES[k]? = some ev → ev.ClosedFg = true →
      (editRun ES reqs)[k]? = some ev ∧
      ∀ ev2, (editRun ES reqs)[k]? = some ev2 →
        ev2.PublicFg = ev.PublicFg ∧ ev2.ClosedFg = ev.ClosedFg) := by
  have hg := getEvent_of_stored ES S eventID (-1) e hpos he
  have hf := fillEventOtherFields_fields S e (-1)
  refine ⟨?_, ?_, ?_⟩
  · intro hc
    unfold editEventHandler
    simp [hg, hf.2.2.2.1, hc]
  · intro hp hcl
    by_cases hc : e.ClosedFg = true
    · unfold editEventHandler
      simp [hg, hf.2.2.2.1, hc]
    · unfold editEventHandler
      simp [hg, hf.2.2.2.1, hf.2.2.1, hc, hp, hcl]
  · intro reqs k ev hk hc
    have h := editRun_keeps_closed reqs ES k ev hk hc
    refine ⟨h, ?_⟩
    intro ev2 h2
    rw [h] at h2
    have : ev = ev2 := Option.some.inj h2
    rw [this]; exact ⟨rfl, rfl⟩

/-- Creating an event with `public = false` and then sending one edit request with
`public = true, closed = true` for the new id: the request is accepted, the public
flag is normalised to false and the stored event becomes closed. -/
theorem edit_after_create (ES : List Event) (S S2 : List Reservation) (title : String)
    (price : Int) :
    ∃ ev,
      editEventHandler (createEventHandler ES S true title false price).2 S2 true
          (some ((ES.length : Int) + 1)) true true =
        (.event ev, ES ++ [⟨(ES.length : Int) + 1, title, false, true, price, 0, 0, []⟩]) ∧
      ev.PublicFg = false ∧ ev.ClosedFg = true := by
  have hcreate : (createEventHandler ES S true title false price).2 =
      ES ++ [⟨(ES.length : Int) + 1, title, false, false, price, 0, 0, []⟩] := by
    simp [createEventHandler]
  rw [hcreate]
  have hidx : (((ES.length : Int) + 1) - 1).toNat = ES.length := by omega
  have he : (ES ++ [(⟨(ES.length : Int) + 1, title, false, false, price, 0, 0, []⟩ : Event)])[
      (((ES.length : Int) + 1) - 1).toNat]? =
      some ⟨(ES.length : Int) + 1, title, false, false, price, 0, 0, []⟩ := by
    rw [hidx]; simp
  have hg := getEvent_of_stored _ S2 ((ES.length : Int) + 1) (-1) _ (by omega) he
  have hf := fillEventOtherFields_fields S2
    (⟨(ES.length : Int) + 1, title, false, false, price, 0, 0, []⟩ : Event) (-1)
  have hguard : ¬ ((ES.length : Int) + 1 ≤ 0 ∨
      (((ES ++ [(⟨(ES.length : Int) + 1, title, false, false, price, 0, 0, []⟩ :
        Event)]).length : Nat) : Int) ≤ (ES.length : Int) + 1 - 1) := by
    simp only [List.length_append, List.length_singleton]; push_cast; omega
  refine ⟨{ fillEventOtherFields S2
      (⟨(ES.length : Int) + 1, title, false, false, price, 0, 0, []⟩ : Event) (-1) with
      PublicFg := false, ClosedFg := true }, ?_, rfl, rfl⟩
  unfold editEventHandler
  simp only [Bool.not_true, Bool.false_eq_true, if_false, if_true, hg, hf.2.2.2.1, hf.2.2.1,
    Bool.false_and, updateEvent, if_neg hguard, he, hidx]
  simp

/-- C10 (as amended). For every event created with `public = false`, an edit
request with `public = true` and `closed = true` in one call is accepted: the
handler first resets `public` to false because `closed` is set, the event is
neither closed nor public, so no rejection applies, and the stored event ends with
`PublicFg = false` and `ClosedFg = true`. -/
theorem edit_public_closed_on_draft_closes (ES : List Event) (S S2 : List Reservation)
    (title : String) (price : Int) :
    (∃ ev, (editEventHandler (createEventHandler ES S true title false price).2 S2 true
        (some ((ES.length : Int) + 1)) true true).1 = .event ev ∧
      ev.PublicFg = false ∧ ev.ClosedFg = true) ∧
    ∃ stored, (editEventHandler (createEventHandler ES S true title false price).2 S2 true
        (some ((ES.length : Int) + 1)) true true).2[ES.length]? = some stored ∧
      stored.ID = (ES.length : Int) + 1 ∧ stored.PublicFg = false ∧ stored.ClosedFg = true := by
  obtain ⟨ev, h, hp, hc⟩ := edit_after_create ES S S2 title price
  rw [h]
  exact ⟨⟨ev, rfl, hp, hc⟩, ⟨⟨(ES.length : Int) + 1, title, false, true, price, 0, 0, []⟩, by simp, rfl, rfl, rfl⟩⟩

/-- C10 (counterexample). On the empty stores, the event created with
`public = false` gets id 1; the edit request `public = true, closed = true` for id 1
is not rejected and the stored event's `ClosedFg` changes from false to true. -/
theorem edit_public_closed_on_draft_not_rejected :
    ¬ ((∃ msg st, (editEventHandler (createEventHandler [] [] true "live" false 3000).2 [] true
          (some 1) true true).1 = .resError msg st) ∧
        (editEventHandler (createEventHandler [] [] true "live" false 3000).2 [] true
          (some 1) true true).2 = (createEventHandler [] [] true "live" false 3000).2) := by
  obtain ⟨ev, h, _, _⟩ := edit_after_create [] [] [] "live" 3000
  have h1 : (editEventHandler (createEventHandler [] [] true "live" false 3000).2 [] true
      (some 1) true true) = _ := h
  rw [h1]
  rintro ⟨⟨msg, st, hm⟩, _⟩
  cases hm

/-- C9 (witness). A store holding one closed event, edit request for id 1. -/
theorem edit_rejects_closed_and_closing_public_witness :
    (0 : Int) < 1 ∧
    [exClosedEvent][((1 : Int) - 1).toNat]? = some exClosedEvent ∧
    (exClosedEvent.ClosedFg = true →
      editEventHandler [exClosedEvent] [] true (some 1) true false =
        (.resError "cannot_edit_closed_event" 400, [exClosedEvent])) :=
  ⟨by decide, by decide,
    (edit_rejects_closed_and_closing_public [exClosedEvent] [] 1 true false exClosedEvent
      (by decide) (by decide)).1⟩

/-- The filter of the cancel handler is "active for the event on the seat". -/
theorem cancelTarget_eq_activeOn (e s : Int) (r : Reservation) :
    cancelTarget e s r = activeOn e s r := by
  unfold cancelTarget activeOn
  by_cases h1 : r.EventID = e <;> by_cases h2 : r.SheetID = s <;>
    cases h3 : r.CanceledAt <;> simp [h1, h2, h3]

/-- The cancel handler either leaves the ledger alone and answers with an error
(or a panic), or it found the first active reservation of the looked-up event on
the addressed seat, owned by the session user, and stamped its `CanceledAt`. -/
theorem cancelHandler_cases (ES : List Event) (S : List Reservation) (sess : Option User)
    (idParam : Option Int) (rank : String) (intNum : Int) (now : Time) :
    ((cancelHandler ES S sess idParam rank intNum now).2 = S ∧
      (cancelHandler ES S sess idParam rank intNum now).1 ≠ .noContent) ∨
    ∃ (user : User) (eventID : Int) (e : Event) (sc : SheetConfig) (i : Nat) (r : Reservation),
      sess = some user ∧ idParam = some eventID ∧ 0 < eventID ∧
      ES[(eventID - 1).toNat]? = some e ∧ e.PublicFg = true ∧
      sheetConfig? rank = some sc ∧ ¬ sc.Count < intNum ∧
      S.findIdx? (cancelTarget e.ID (sc.ID + intNum - 1)) = some i ∧
      S[i]? = some r ∧ r.UserID = user.ID ∧
      cancelHandler ES S sess idParam rank intNum now =
        (.noContent, S.set i { r with CanceledAt := some now }) := by
  unfold cancelHandler
  cases sess with
  | none => left; exact ⟨rfl, by simp⟩
  | some user =>
    cases idParam with
    | none => left; exact ⟨rfl, by simp⟩
    | some eventID =>
      simp only []
      cases hg : getEvent ES S eventID user.ID with
      | none => left; exact ⟨rfl, by simp⟩
      | some event =>
        obtain ⟨hpos, e, he, hev⟩ := getEvent_eq_some ES S eventID user.ID event hg
        have hf := fillEventOtherFields_fields S e user.ID
        have hid : event.ID = e.ID := by rw [hev]; exact hf.1
        have hpub : event.PublicFg = e.PublicFg := by rw [hev]; exact hf.2.2.1
        simp only []
        by_cases hp : event.PublicFg = true
        · by_cases hv : validateRank rank = true
          · cases hsc : sheetConfig? rank with
            | none => left; simp [hp, hv]
            | some sc =>
              by_cases hcount : sc.Count < intNum
              · left; simp [hp, hv, hcount]
              · cases hfi : S.findIdx? (cancelTarget event.ID (sc.ID + intNum - 1)) with
                | none => left; simp [hp, hv, hcount, hfi]
                | some i =>
                  cases hi : S[i]? with
                  | none => left; simp [hp, hv, hcount, hfi, hi]
                  | some r =>
                    by_cases hu : r.UserID = user.ID
                    · right
                      refine ⟨user, eventID, e, sc, i, r, rfl, rfl, hpos, he, hpub ▸ hp, rfl,
                        hcount, hid ▸ hfi, hi, hu, ?_⟩
                      simp [hp, hv, hcount, hfi, hi, hu]
                    · left; simp [hp, hv, hcount, hfi, hi, hu]
          · left; simp [hp, hv]
        · left; simp [hp]

/-- Overwriting position `i` by an element that fails `q` removes the old element's
contribution to the count. -/
theorem countP_set_of_false {α : Type} (q : α → Bool) (l : List α) (i : Nat) (r r2 : α)
    (hi : l[i]? = some r) (h2 : q r2 = false) :
    (l.set i r2).countP q + (if q r then 1 else 0) = l.countP q := by
  induction l generalizing i with
  | nil => simp at hi
  | cons a l ih =>
    cases i with
    | zero =>
      simp only [List.getElem?_cons_zero, Option.some.injEq] at hi
      subst hi
      simp only [List.set_cons_zero, List.countP_cons, h2]
      simp
    | succ i =>
      simp only [List.getElem?_cons_succ] at hi
      have := ih i hi
      simp only [List.set_cons_succ, List.countP_cons]
      omega

/-- A canceled reservation is active on no seat. -/
theorem activeOn_canceled (e s : Int) (r : Reservation) (t : Time) :
    activeOn e s { r with CanceledAt := some t } = false := by
  simp [activeOn]

/-- Stamping `CanceledAt` on one record never raises the number of active
reservations of any (event, seat) pair. -/
theorem seatOccupancyInv_set_canceled (S : List Reservation) (i : Nat) (r : Reservation)
    (t : Time) (hi : S[i]? = some r) (hinv : seatOccupancyInv S) :
    seatOccupancyInv (S.set i { r with CanceledAt := some t }) := by
  intro e s
  have h := countP_set_of_false (activeOn e s) S i r { r with CanceledAt := some t } hi
    (activeOn_canceled e s r t)
  have := hinv e s
  omega

/-- C7. Cancel frame: a successful cancel rewrites exactly one position `i` of the
ledger; the record there was active for the looked-up event on the addressed seat
and is owned by the session user; only its `CanceledAt` changes, from nil to the
cancel timestamp; the length, the order and every other record are unchanged. A
request answered with an error (`not_reserved`, `not_permitted` or any other)
leaves the ledger unchanged. -/
theorem cancel_frame (ES : List Event) (S : List Reservation) (sess : Option User)
    (idParam : Option Int) (rank : String) (intNum : Int) (now : Time) :
    ((cancelHandler ES S sess idParam rank intNum now).1 = .noContent →
      ∃ (user : User) (eventID : Int) (e : Event) (sc : SheetConfig) (i : Nat) (r : Reservation),
        sess = some user ∧ idParam = some eventID ∧ 0 < eventID ∧
        ES[(eventID - 1).toNat]? = some e ∧ sheetConfig? rank = some sc ∧
        S[i]? = some r ∧
        r.EventID = e.ID ∧ r.SheetID = sc.ID + intNum - 1 ∧ r.CanceledAt = none ∧
        r.UserID = user.ID ∧
        (cancelHandler ES S sess idParam rank intNum now).2 =
          S.set i { r with CanceledAt := some now } ∧
        (cancelHandler ES S sess idParam rank intNum now).2[i]? =
          some ⟨r.ID, r.EventID, r.SheetID, r.UserID, r.ReservedAt, some now⟩ ∧
        (cancelHandler ES S sess idParam rank intNum now).2.length = S.length ∧
        ∀ j, j ≠ i → (cancelHandler ES S sess idParam rank intNum now).2[j]? = S[j]?) ∧
    (∀ msg st, (cancelHandler ES S sess idParam rank intNum now).1 = .resError msg st →
      (cancelHandler ES S sess idParam rank intNum now).2 = S) := by
  rcases cancelHandler_cases ES S sess idParam rank intNum now with
    ⟨h2, h1⟩ | ⟨user, eventID, e, sc, i, r, hs, hid, hpos, he, _, hsc, _, hfi, hi, hu, hout⟩
  · exact ⟨fun h => absurd h h1, fun _ _ _ => h2⟩
  · refine ⟨fun _ => ?_, fun msg st h => ?_⟩
    · have hlt : i < S.length := by
        rcases Nat.lt_or_ge i S.length with h | h
        · exact h
        · rw [List.getElem?_eq_none h] at hi; cases hi
      have hri : S[i] = r := by
        rw [List.getElem?_eq_getElem hlt] at hi
        exact Option.some.inj hi
      have hact : cancelTarget e.ID (sc.ID + intNum - 1) r = true := by
        have := (List.findIdx?_eq_some_iff_getElem.1 hfi)
        obtain ⟨h, hp, _⟩ := this
        rw [← hri]; exact hp
      rw [cancelTarget_eq_activeOn] at hact
      simp only [activeOn, Bool.and_eq_true, decide_eq_true_eq, Option.isNone_iff_eq_none] at hact
      refine ⟨user, eventID, e, sc, i, r, hs, hid, hpos, he, hsc, hi, hact.1.1, hact.1.2, hact.2,
        hu, by rw [hout], ?_, by rw [hout]; simp, ?_⟩
      · rw [hout]
        simp [List.getElem?_set_self, hlt]
      · intro j hj
        rw [hout]
        exact List.getElem?_set_ne (Ne.symm hj)
    · rw [hout] at h
      cases h

/-- C7 (witness). User 7 cancels seat 3 of rank S of event 1, which they hold. -/
theorem cancel_frame_witness :
    (cancelHandler [exEvent] exLedger (some exUser) (some 1) "S" 3 9).1 = .noContent ∧
    ∃ (user : User) (eventID : Int) (e : Event) (sc : SheetConfig) (i : Nat) (r : Reservation),
      some exUser = some user ∧ some (1 : Int) = some eventID ∧ 0 < eventID ∧
      [exEvent][(eventID - 1).toNat]? = some e ∧ sheetConfig? "S" = some sc ∧
      exLedger[i]? = some r ∧
      r.EventID = e.ID ∧ r.SheetID = sc.ID + 3 - 1 ∧ r.CanceledAt = none ∧
      r.UserID = user.ID ∧
      (cancelHandler [exEvent] exLedger (some exUser) (some 1) "S" 3 9).2 =
        exLedger.set i { r with CanceledAt := some 9 } ∧
      (cancelHandler [exEvent] exLedger (some exUser) (some 1) "S" 3 9).2[i]? =
        some ⟨r.ID, r.EventID, r.SheetID, r.UserID, r.ReservedAt, some 9⟩ ∧
      (cancelHandler [exEvent] exLedger (some exUser) (some 1) "S" 3 9).2.length =
        exLedger.length ∧
      ∀ j, j ≠ i →
        (cancelHandler [exEvent] exLedger (some exUser) (some 1) "S" 3 9).2[j]? = exLedger[j]? :=
  ⟨by decide, (cancel_frame [exEvent] exLedger (some exUser) (some 1) "S" 3 9).1 (by decide)⟩

/-- `validateRank` is the `ok` of the map lookup. -/
theorem validateRank_of_config {rank : String} {sc : SheetConfig}
    (h : sheetConfig? rank = some sc) : validateRank rank = true := by
  simp [validateRank, h]

/-- The second of two identical cancel requests, on a ledger where the first one
succeeded and the seat had at most one active reservation. -/
theorem cancel_again (ES : List Event) (S : List Reservation) (sess : Option User)
    (idParam : Option Int) (rank : String) (intNum : Int) (now now2 : Time)
    (hinv : seatOccupancyInv S)
    (h1 : (cancelHandler ES S sess idParam rank intNum now).1 = .noContent) :
    cancelHandler ES (cancelHandler ES S sess idParam rank intNum now).2 sess idParam rank
        intNum now2 =
      (.resError "not_reserved" 400, (cancelHandler ES S sess idParam rank intNum now).2) ∧
    ∃ (i : Nat) (r : Reservation), S[i]? = some r ∧ r.CanceledAt = none ∧
      (cancelHandler ES S sess idParam rank intNum now).2[i]? =
        some { r with CanceledAt := some now } := by
  rcases cancelHandler_cases ES S sess idParam rank intNum now with
    ⟨_, hne⟩ | ⟨user, eventID, e, sc, i, r, hs, hid, hpos, he, hpub, hsc, hcount, hfi, hi, hu, hout⟩
  · exact absurd h1 hne
  · rw [hout]
    simp only []
    have hlt : i < S.length := by
      rcases Nat.lt_or_ge i S.length with h | h
      · exact h
      · rw [List.getElem?_eq_none h] at hi; cases hi
    have hri : S[i] = r := by
      rw [List.getElem?_eq_getElem hlt] at hi
      exact Option.some.inj hi
    have hact : activeOn e.ID (sc.ID + intNum - 1) r = true := by
      obtain ⟨h, hp, _⟩ := List.findIdx?_eq_some_iff_getElem.1 hfi
      rw [← cancelTarget_eq_activeOn, ← hri]; exact hp
    have hcnt := countP_set_of_false (activeOn e.ID (sc.ID + intNum - 1)) S i r
      { r with CanceledAt := some now } hi (activeOn_canceled _ _ r now)
    have hle := hinv e.ID (sc.ID + intNum - 1)
    rw [hact] at hcnt
    have hzero : (S.set i { r with CanceledAt := some now }).countP
        (activeOn e.ID (sc.ID + intNum - 1)) = 0 := by
      simp only [if_true] at hcnt; omega
    have hnone : (S.set i { r with CanceledAt := some now }).findIdx?
        (cancelTarget e.ID (sc.ID + intNum - 1)) = none := by
      rw [List.findIdx?_eq_none_iff]
      intro x hx
      rw [cancelTarget_eq_activeOn]
      have := List.countP_eq_zero.1 hzero x hx
      simpa using this
    have hg := getEvent_of_stored ES (S.set i { r with CanceledAt := some now }) eventID user.ID e
      hpos he
    have hf := fillEventOtherFields_fields (S.set i { r with CanceledAt := some now }) e user.ID
    have hv := validateRank_of_config hsc
    refine ⟨?_, i, r, hi, ?_, ?_⟩
    · unfold cancelHandler
      rw [hs, hid]
      simp only [hg, hf.2.2.1, hf.1, hpub, hv, hsc, hcount, hnone, Bool.not_true,
        Bool.false_eq_true, if_false]
    · simp only [activeOn, Bool.and_eq_true, decide_eq_true_eq, Option.isNone_iff_eq_none] at hact
      exact hact.2
    · simp [List.getElem?_set_self, hlt]

/-- C6 (as amended). Double cancel on a ledger that satisfies the seat-occupancy
invariant: if a cancel request succeeds, the same request sent again right after
(at any later time) is rejected with `not_reserved`, and the ledger after the
rejected call is identical to the ledger before it; in particular the record the
first call canceled still carries the first call's timestamp. -/
theorem double_cancel_rejected (ES : List Event) (S : List Reservation) (sess : Option User)
    (idParam : Option Int) (rank : String) (intNum : Int) (now now2 : Time)
    (hinv : seatOccupancyInv S)
    (h1 : (cancelHandler ES S sess idParam rank intNum now).1 = .noContent) :
    (cancelHandler ES (cancelHandler ES S sess idParam rank intNum now).2 sess idParam rank
        intNum now2).1 = .resError "not_reserved" 400 ∧
    (cancelHandler ES (cancelHandler ES S sess idParam rank intNum now).2 sess idParam rank
        intNum now2).2 = (cancelHandler ES S sess idParam rank intNum now).2 ∧
    ∃ (i : Nat) (r : Reservation), S[i]? = some r ∧ r.CanceledAt = none ∧
      (cancelHandler ES (cancelHandler ES S sess idParam rank intNum now).2 sess idParam rank
        intNum now2).2[i]? = some { r with CanceledAt := some now } := by
  obtain ⟨h, i, r, hi, hc, hset⟩ := cancel_again ES S sess idParam rank intNum now now2 hinv h1
  rw [h]
  exact ⟨rfl, rfl, i, r, hi, hc, hset⟩

/-- A ledger in which no two positions hold active reservations of the same event
on the same seat satisfies the seat-occupancy invariant. -/
theorem seatOccupancyInv_of_noDoubleBooking (S : List Reservation) (h : noDoubleBooking S) :
    seatOccupancyInv S := by
  intro e s
  induction S with
  | nil => simp
  | cons a l ih =>
    unfold noDoubleBooking at h
    rw [List.pairwise_cons] at h
    rw [List.countP_cons]
    by_cases ha : activeOn e s a = true
    · have hz : l.countP (activeOn e s) = 0 := by
        rw [List.countP_eq_zero]
        intro b hb hab
        apply h.1 b hb
        simp only [activeOn, Bool.and_eq_true, decide_eq_true_eq,
          Option.isNone_iff_eq_none] at ha hab
        exact ⟨ha.2, hab.2, ha.1.1.trans hab.1.1.symm, ha.1.2.trans hab.1.2.symm⟩
      rw [hz]; simp [ha]
    · have := ih h.2
      simp only [ha, Bool.false_eq_true, if_false]
      omega

/-- C6 (witness). User 7 cancels seat 3 of rank S of event 1 at time 9 and sends the
same request again at time 10. -/
theorem double_cancel_rejected_witness :
    seatOccupancyInv exLedger ∧
    (cancelHandler [exEvent] exLedger (some exUser) (some 1) "S" 3 9).1 = .noContent ∧
    (cancelHandler [exEvent] (cancelHandler [exEvent] exLedger (some exUser) (some 1) "S" 3 9).2
        (some exUser) (some 1) "S" 3 10).1 = .resError "not_reserved" 400 ∧
    (cancelHandler [exEvent] (cancelHandler [exEvent] exLedger (some exUser) (some 1) "S" 3 9).2
        (some exUser) (some 1) "S" 3 10).2 =
      (cancelHandler [exEvent] exLedger (some exUser) (some 1) "S" 3 9).2 :=
  ⟨seatOccupancyInv_of_noDoubleBooking exLedger (by decide), by decide,
    (double_cancel_rejected [exEvent] exLedger (some exUser) (some 1) "S" 3 9 10
      (seatOccupancyInv_of_noDoubleBooking exLedger (by decide)) (by decide)).1,
    (double_cancel_rejected [exEvent] exLedger (some exUser) (some 1) "S" 3 9 10
      (seatOccupancyInv_of_noDoubleBooking exLedger (by decide)) (by decide)).2.1⟩

/-- C6 (counterexample). On a ledger with two active reservations of user 7 on seat
3 of event 1, the first cancel succeeds and the identical second cancel succeeds
too, changing the ledger again. -/
theorem double_cancel_second_succeeds :
    (cancelHandler [exEvent] exDupLedger (some exUser) (some 1) "S" 3 9).1 = .noContent ∧
    (cancelHandler [exEvent]
        (cancelHandler [exEvent] exDupLedger (some exUser) (some 1) "S" 3 9).2
        (some exUser) (some 1) "S" 3 10).1 = .noContent ∧
    (cancelHandler [exEvent]
        (cancelHandler [exEvent] exDupLedger (some exUser) (some 1) "S" 3 9).2
        (some exUser) (some 1) "S" 3 10).2 ≠
      (cancelHandler [exEvent] exDupLedger (some exUser) (some 1) "S" 3 9).2 := by
  decide

/-- The four entries of `SheetConfigs`. -/
theorem sheetConfig?_eq_some {rank : String} {sc : SheetConfig}
    (h : sheetConfig? rank = some sc) :
    (rank = "S" ∧ sc = ⟨1, 50, 5000⟩) ∨ (rank = "A" ∧ sc = ⟨51, 150, 3000⟩) ∨
    (rank = "B" ∧ sc = ⟨201, 300, 1000⟩) ∨ (rank = "C" ∧ sc = ⟨501, 500, 0⟩) := by
  unfold sheetConfig? SheetConfigs at h
  by_cases hS : rank = "S"
  · subst hS; left; exact ⟨rfl, by simpa [List.lookup] using h.symm⟩
  by_cases hA : rank = "A"
  · subst hA; right; left; exact ⟨rfl, by simpa [List.lookup] using h.symm⟩
  by_cases hB : rank = "B"
  · subst hB; right; right; left; exact ⟨rfl, by simpa [List.lookup] using h.symm⟩
  by_cases hC : rank = "C"
  · subst hC; right; right; right; exact ⟨rfl, by simpa [List.lookup] using h.symm⟩
  · have e1 : (rank == "S") = false := by simp [hS]
    have e2 : (rank == "A") = false := by simp [hA]
    have e3 : (rank == "B") = false := by simp [hB]
    have e4 : (rank == "C") = false := by simp [hC]
    simp only [List.lookup, e1, e2, e3, e4] at h
    cases h

/-- For a valid rank the zero-default read and the checked lookup agree. -/
theorem sheetConfig?_of_valid {rank : String} (h : validateRank rank = true) :
    sheetConfig? rank = some (sheetConfig rank) := by
  unfold validateRank at h
  unfold sheetConfig
  cases hsc : sheetConfig? rank with
  | none => rw [hsc] at h; cases h
  | some sc => rfl

/-- The range of a valid rank is a non-empty part of `[1, 1000]`. -/
theorem validRank_bounds {rank : String} (h : validateRank rank = true) :
    1 ≤ (sheetConfig rank).ID ∧ 0 < (sheetConfig rank).Count ∧
    (sheetConfig rank).ID + (sheetConfig rank).Count ≤ 1001 := by
  rcases sheetConfig?_eq_some (sheetConfig?_of_valid h) with
    ⟨_, h⟩ | ⟨_, h⟩ | ⟨_, h⟩ | ⟨_, h⟩ <;> rw [h] <;> decide

/-- The seat ids of `DefaultSheets` are `1, 2, ..., 1000` in order. -/
theorem DefaultSheets_ids :
    DefaultSheets.map (fun s => s.ID) = (List.range 1000).map fun (k : Nat) => (k : Int) + 1 := by
  decide

/-- For an id in `[1, 1000]` the lookup returns the seat with that id. -/
theorem getSheetFromId_of_mem (id : Int) (h1 : 1 ≤ id) (h2 : id ≤ 1000) :
    ∃ sheet, getSheetFromId id = some sheet ∧ sheet.ID = id := by
  have hk : (id - 1).toNat < 1000 := by omega
  have hlen : DefaultSheets.length = 1000 := by
    have := congrArg List.length DefaultSheets_ids
    simpa using this
  have hlt : (id - 1).toNat < DefaultSheets.length := by omega
  refine ⟨DefaultSheets[(id - 1).toNat], ?_, ?_⟩
  · unfold getSheetFromId
    rw [if_neg (by omega), List.getElem?_eq_getElem hlt]
  · have h := congrArg (fun l => l[(id - 1).toNat]?) DefaultSheets_ids
    simp only [List.getElem?_map, List.getElem?_eq_getElem hlt, Option.map_some',
      List.getElem?_range hk] at h
    have := Option.some.inj h
    omega

/-- Outside `[1, 1000]` the lookup has no seat to return. -/
theorem getSheetFromId_none (id : Int) (h : id < 1 ∨ 1000 < id) : getSheetFromId id = none := by
  have hlen : DefaultSheets.length = 1000 := by
    have := congrArg List.length DefaultSheets_ids
    simpa using this
  unfold getSheetFromId
  by_cases hneg : id - 1 < 0
  · rw [if_pos hneg]
  · rw [if_neg hneg]
    apply List.getElem?_eq_none
    omega

/-! ### The shuffle -/

/-- Swapping inside a prefix does not touch what follows it. -/
theorem swap_append (l q : List Int) (i j : Nat) (hi : i < l.length) (hj : j < l.length) :
    swap (l ++ q) i j = swap l i j ++ q := by
  unfold swap
  have h1 : (l ++ q).getD j 0 = l.getD j 0 := List.getD_append l q 0 j hj
  have h2 : (l ++ q).getD i 0 = l.getD i 0 := List.getD_append l q 0 i hi
  rw [h1, h2, List.set_append_left i _ hi, List.set_append_left j _ (by simpa using hj)]

/-- Swapping the last position with itself changes nothing. -/
theorem swap_snoc_self (p : List Int) (x : Int) : swap (p ++ [x]) p.length p.length = p ++ [x] := by
  unfold swap
  have h : (p ++ [x]).getD p.length 0 = x := by
    rw [List.getD_append_right p [x] 0 p.length (Nat.le_refl _)]; simp
  rw [h, List.set_append_right _ _ (Nat.le_refl _), List.set_append_right _ _ (Nat.le_refl _)]
  simp

/-- Swapping the last position with an earlier one: the last element moves to
position `j`, the element of position `j` becomes the last. -/
theorem swap_snoc_lt (p : List Int) (x : Int) (j : Nat) (hj : j < p.length) :
    swap (p ++ [x]) p.length j = p.set j x ++ [p.getD j 0] := by
  unfold swap
  have h1 : (p ++ [x]).getD j 0 = p.getD j 0 := List.getD_append p [x] 0 j hj
  have h2 : (p ++ [x]).getD p.length 0 = x := by
    rw [List.getD_append_right p [x] 0 p.length (Nat.le_refl _)]; simp
  rw [h1, h2, List.set_append_right _ _ (Nat.le_refl _)]
  simp only [Nat.sub_self, List.set_cons_zero]
  rw [List.set_append_left j _ hj]

/-- The prefix and the last element after the first iteration of the shuffle loop
on `p ++ [x]` with outcome `j`. -/
theorem swap_snoc (p : List Int) (x : Int) (j : Nat) (hj : j < p.length + 1) :
    swap (p ++ [x]) p.length j =
      (if j < p.length then p.set j x else p) ++ [if j < p.length then p.getD j 0 else x] := by
  by_cases h : j < p.length
  · simp only [h, if_true]; exact swap_snoc_lt p x j h
  · have : j = p.length := by omega
    subst this
    simp only [Nat.lt_irrefl, if_false]; exact swap_snoc_self p x

/-- The lists of `swap_snoc` are a rearrangement of `p ++ [x]`. -/
theorem set_snoc_perm (p : List Int) (x : Int) (j : Nat) (hj : j < p.length) :
    (p.set j x ++ [p.getD j 0]).Perm (p ++ [x]) := by
  induction p generalizing j with
  | nil => simp at hj
  | cons a p ih =>
    cases j with
    | zero =>
      simp only [List.set_cons_zero, List.getD_cons_zero, List.cons_append]
      have h1 : (x :: (p ++ [a])).Perm (x :: a :: p) :=
        List.Perm.cons x (List.perm_append_singleton a p)
      have h2 : (a :: (p ++ [x])).Perm (a :: x :: p) :=
        List.Perm.cons a (List.perm_append_singleton x p)
      exact h1.trans ((List.Perm.swap a x p).trans h2.symm)
    | succ j =>
      simp only [List.set_cons_succ, List.getD_cons_succ, List.cons_append]
      exact List.Perm.cons a (ih j (by simpa using hj))

/-- A list of positive length splits into a prefix and a last element. -/
theorem exists_snoc (l : List Int) (n : Nat) (h : l.length = n + 1) :
    ∃ p x, l = p ++ [x] ∧ p.length = n := by
  have hne : l ≠ [] := by intro h0; rw [h0] at h; simp at h
  refine ⟨l.dropLast, l.getLast hne, (List.dropLast_append_getLast hne).symm, ?_⟩
  simp [h]

/-- With outcomes inside `rand.Intn`'s contract, the loop over the first `n`
positions leaves the rest of the slice alone. -/
theorem shuffleLoop_append (n : Nat) (rnd : List Nat) (p q : List Int) (hp : p.length = n)
    (hv : validRand n rnd = true) : shuffleLoop n rnd (p ++ q) = shuffleLoop n rnd p ++ q := by
  induction n generalizing rnd p q with
  | zero => simp [shuffleLoop]
  | succ n ih =>
    cases rnd with
    | nil => simp [validRand] at hv
    | cons j rnd =>
      simp only [validRand, Bool.and_eq_true, decide_eq_true_eq] at hv
      obtain ⟨p1, x, rfl, hp1⟩ := exists_snoc p n hp
      simp only [shuffleLoop, List.headD_cons, List.tail_cons]
      rw [swap_append (p1 ++ [x]) q n j (by simp [hp1]) (by simp [hp1]; omega)]
      have hs := swap_snoc p1 x j (by omega)
      rw [hp1] at hs
      rw [hs]
      have hlen : (if j < n then p1.set j x else p1).length = n := by
        split <;> simp [hp1]
      rw [List.append_assoc, ih rnd _ _ hlen hv.2, ih rnd _ [_] hlen hv.2, List.append_assoc]

/-- One iteration of the shuffle loop on `p ++ [x]`: the outcome `j` decides the
last element, the remaining iterations shuffle the prefix. -/
theorem shuffleLoop_snoc (n : Nat) (j : Nat) (rnd : List Nat) (p : List Int) (x : Int)
    (hp : p.length = n) (hj : j < n + 1) (hv : validRand n rnd = true) :
    shuffleLoop (n + 1) (j :: rnd) (p ++ [x]) =
      shuffleLoop n rnd (if j < n then p.set j x else p) ++ [if j < n then p.getD j 0 else x] := by
  simp only [shuffleLoop, List.headD_cons, List.tail_cons]
  have hs := swap_snoc p x j (by omega)
  rw [hp] at hs
  rw [hs]
  have hlen : (if j < n then p.set j x else p).length = n := by
    split <;> simp [hp]
  exact shuffleLoop_append n rnd _ _ hlen hv

/-- The prefix and last element of `shuffleLoop_snoc` rearrange `p ++ [x]`. -/
theorem pick_perm (n : Nat) (j : Nat) (p : List Int) (x : Int) (hp : p.length = n) :
    ((if j < n then p.set j x else p) ++ [if j < n then p.getD j 0 else x]).Perm (p ++ [x]) := by
  by_cases h : j < n
  · simp only [h, if_true]; exact set_snoc_perm p x j (by omega)
  · simp only [h, if_false]; exact List.Perm.refl _

/-- The shuffle rearranges the slice: it is a permutation of its input. -/
theorem shuffleLoop_perm (n : Nat) (rnd : List Nat) (p : List Int) (hp : p.length = n)
    (hv : validRand n rnd = true) : (shuffleLoop n rnd p).Perm p := by
  induction n generalizing rnd p with
  | zero => simp [shuffleLoop]
  | succ n ih =>
    cases rnd with
    | nil => simp [validRand] at hv
    | cons j rnd =>
      simp only [validRand, Bool.and_eq_true, decide_eq_true_eq] at hv
      obtain ⟨p1, x, rfl, hp1⟩ := exists_snoc p n hp
      rw [shuffleLoop_snoc n j rnd p1 x hp1 hv.1 hv.2]
      have hlen : (if j < n then p1.set j x else p1).length = n := by
        split <;> simp [hp1]
      exact (List.Perm.append_right _ (ih rnd _ hlen hv.2)).trans (pick_perm n j p1 x hp1)

/-! ### The occupied-seat table and the selection -/

/-- Marking keeps the length of `usedSheets`. -/
theorem markUsed_length (L R : Int) (acts : List Reservation) (U : List Bool) :
    (markUsed L R U acts).length = U.length := by
  induction acts generalizing U with
  | nil => rfl
  | cons a acts ih =>
    simp only [markUsed, List.foldl_cons] at ih ⊢
    rw [ih]
    split <;> simp

/-- Entry `k` of `usedSheets` is set exactly when it was set before or one of the
reservations lies in the range at offset `k`. -/
theorem markUsed_getD (L R : Int) (acts : List Reservation) (U : List Bool) (k : Nat)
    (hk : k < U.length) :
    (markUsed L R U acts).getD k false = true ↔
      U.getD k false = true ∨
      ∃ r ∈ acts, L ≤ r.SheetID ∧ r.SheetID < R ∧ (r.SheetID - L).toNat = k := by
  induction acts generalizing U with
  | nil => simp [markUsed]
  | cons a acts ih =>
    simp only [markUsed, List.foldl_cons] at ih ⊢
    by_cases hc : L ≤ a.SheetID ∧ a.SheetID < R
    · rw [if_pos hc, ih _ (by simpa using hk)]
      by_cases hidx : (a.SheetID - L).toNat = k
      · constructor
        · intro _; right; exact ⟨a, List.mem_cons_self _ _, hc.1, hc.2, hidx⟩
        · intro _; left
          rw [List.getD_eq_getElem?_getD, hidx, List.getElem?_set_self hk]; rfl
      · have hget : (U.set (a.SheetID - L).toNat true).getD k false = U.getD k false := by
          rw [List.getD_eq_getElem?_getD, List.getD_eq_getElem?_getD, List.getElem?_set_ne hidx]
        rw [hget]
        constructor
        · rintro (h | ⟨r, hr, h⟩)
          · left; exact h
          · right; exact ⟨r, List.mem_cons_of_mem _ hr, h⟩
        · rintro (h | ⟨r, hr, h⟩)
          · left; exact h
          · rcases List.mem_cons.1 hr with rfl | hr
            · exact absurd h.2.2 hidx
            · right; exact ⟨r, hr, h⟩
    · rw [if_neg hc, ih _ hk]
      constructor
      · rintro (h | ⟨r, hr, h⟩)
        · left; exact h
        · right; exact ⟨r, List.mem_cons_of_mem _ hr, h⟩
      · rintro (h | ⟨r, hr, h⟩)
        · left; exact h
        · rcases List.mem_cons.1 hr with rfl | hr
          · exact absurd ⟨h.1, h.2.1⟩ hc
          · right; exact ⟨r, hr, h⟩

/-- Membership in the `Where` filter of the projection and the reserve handler. -/
theorem mem_activeFor (S : List Reservation) (e : Int) (r : Reservation) :
    r ∈ activeFor S e ↔ r ∈ S ∧ r.EventID = e ∧ r.CanceledAt = none := by
  unfold activeFor
  rw [List.mem_filter]
  by_cases h1 : r.EventID = e <;> by_cases h2 : r.CanceledAt = none <;> simp [h1, h2]

/-- The table built by the reserve handler marks a seat of the range exactly when
an active reservation of the event holds it. -/
theorem used_iff (S : List Reservation) (e L R id : Int) (hL : L ≤ id) (hR : id < R) :
    (markUsed L R (List.replicate (R - L).toNat false) (activeFor S e)).getD
        (id - L).toNat false = true ↔
      ∃ r ∈ S, activeOn e id r = true := by
  rw [markUsed_getD L R _ _ _ (by simp; omega)]
  constructor
  · rintro (h | ⟨r, hr, _, _, hidx⟩)
    · rw [List.getD_eq_getElem?_getD, List.getElem?_replicate] at h
      split at h
      · cases h
      · cases h
    · rw [mem_activeFor] at hr
      refine ⟨r, hr.1, ?_⟩
      have : r.SheetID = id := by omega
      simp [activeOn, hr.2.1, hr.2.2, this]
  · rintro ⟨r, hr, hact⟩
    simp only [activeOn, Bool.and_eq_true, decide_eq_true_eq, Option.isNone_iff_eq_none] at hact
    right
    exact ⟨r, (mem_activeFor S e r).2 ⟨hr, hact.1.1, hact.2⟩, by omega, by omega, by
      rw [hact.1.2]⟩

/-- The selection loop is a search for the first id that the table leaves free. -/
theorem findFree_eq_find (L : Int) (U : List Bool) (l : List Int) :
    findFree L U l = (l.find? fun id => !U.getD (id - L).toNat false).getD (-1) := by
  induction l with
  | nil => rfl
  | cons a l ih =>
    unfold findFree
    rw [List.find?_cons]
    by_cases h : (!U.getD (a - L).toNat false) = true
    · simp only [h, if_true]; rfl
    · simp only [h, if_false, Bool.false_eq_true]
      rw [ih]

/-- The ids the shuffle starts from are those of the range. -/
theorem mem_initIdxes (L R id : Int) : id ∈ initIdxes L R ↔ L ≤ id ∧ id < R := by
  unfold initIdxes
  rw [List.mem_map]
  constructor
  · rintro ⟨i, hi, rfl⟩
    rw [List.mem_range] at hi
    omega
  · intro h
    exact ⟨(id - L).toNat, List.mem_range.2 (by omega), by omega⟩

theorem initIdxes_length (L R : Int) : (initIdxes L R).length = (R - L).toNat := by
  simp [initIdxes]

theorem initIdxes_nodup (L R : Int) : (initIdxes L R).Nodup := by
  unfold initIdxes
  apply List.Nodup.map _ (List.nodup_range _)
  intro a b h
  simpa using h

/-- The selection of the reserve handler, stated through the search. -/
theorem allocate_eq (S : List Reservation) (e : Int) (rank : String) (rnd : List Nat) :
    allocate S e rank rnd =
      ((shuffleLoop ((sheetConfig rank).Count.toNat) rnd
          (initIdxes (sheetConfig rank).ID ((sheetConfig rank).ID + (sheetConfig rank).Count))).find?
        fun id => !(markUsed (sheetConfig rank).ID ((sheetConfig rank).ID + (sheetConfig rank).Count)
          (List.replicate ((sheetConfig rank).Count.toNat) false) (activeFor S e)).getD
            (id - (sheetConfig rank).ID).toNat false).getD (-1) := by
  unfold allocate getSheetRange
  simp only [findFree_eq_find, initIdxes_length]
  have : ((sheetConfig rank).ID + (sheetConfig rank).Count - (sheetConfig rank).ID).toNat =
      (sheetConfig rank).Count.toNat := by
    congr 1; omega
  rw [this]

/-- What the selection returns: `-1` exactly when every seat of the rank is held by
an active reservation of the event, and otherwise a free seat of the rank. -/
theorem allocate_spec (S : List Reservation) (e : Int) (rank : String) (rnd : List Nat)
    (hv : validateRank rank = true)
    (hr : validRand (sheetConfig rank).Count.toNat rnd = true) :
    (allocate S e rank rnd = -1 ∧
      ∀ id, (sheetConfig rank).ID ≤ id → id < (sheetConfig rank).ID + (sheetConfig rank).Count →
        ∃ r ∈ S, activeOn e id r = true) ∨
    ((sheetConfig rank).ID ≤ allocate S e rank rnd ∧
      allocate S e rank rnd < (sheetConfig rank).ID + (sheetConfig rank).Count ∧
      seatFree S e (allocate S e rank rnd)) := by
  obtain ⟨hb1, hb2, hb3⟩ := validRank_bounds hv
  rw [allocate_eq]
  have hperm := shuffleLoop_perm (sheetConfig rank).Count.toNat rnd
    (initIdxes (sheetConfig rank).ID ((sheetConfig rank).ID + (sheetConfig rank).Count))
    (by rw [initIdxes_length]; congr 1; omega) hr
  have hcnt : ((sheetConfig rank).ID + (sheetConfig rank).Count - (sheetConfig rank).ID).toNat =
      (sheetConfig rank).Count.toNat := by
    congr 1; omega
  cases hf : (shuffleLoop ((sheetConfig rank).Count.toNat) rnd
      (initIdxes (sheetConfig rank).ID ((sheetConfig rank).ID + (sheetConfig rank).Count))).find?
      fun id => !(markUsed (sheetConfig rank).ID ((sheetConfig rank).ID + (sheetConfig rank).Count)
        (List.replicate ((sheetConfig rank).Count.toNat) false) (activeFor S e)).getD
          (id - (sheetConfig rank).ID).toNat false with
  | none =>
    left
    refine ⟨rfl, ?_⟩
    intro id h1 h2
    rw [List.find?_eq_none] at hf
    have hmem : id ∈ shuffleLoop ((sheetConfig rank).Count.toNat) rnd
        (initIdxes (sheetConfig rank).ID ((sheetConfig rank).ID + (sheetConfig rank).Count)) :=
      hperm.mem_iff.2 ((mem_initIdxes _ _ _).2 ⟨h1, h2⟩)
    have := hf id hmem
    rw [← used_iff S e _ _ id h1 h2, hcnt]
    simpa using this
  | some a =>
    right
    have hfree := List.find?_some hf
    have hmem := hperm.mem_iff.1 (List.mem_of_find?_eq_some hf)
    rw [mem_initIdxes] at hmem
    simp only [Option.getD_some]
    refine ⟨hmem.1, hmem.2, ?_⟩
    intro r hr2
    by_contra hact
    have hused := (used_iff S e _ _ a hmem.1 hmem.2).2 ⟨r, hr2, by simpa using hact⟩
    rw [hcnt] at hused
    beta_reduce at hfree
    rw [hused] at hfree
    cases hfree

/-! ### The reserve handler -/

/-- Past its guards (logged in, event stored and public, rank valid) the reserve
handler is decided by the selection. -/
theorem reserveHandler_eq (ES : List Event) (S : List Reservation) (user : User) (eventID : Int)
    (e : Event) (rank : String) (rnd : List Nat) (now : Time)
    (hpos : 0 < eventID) (he : ES[(eventID - 1).toNat]? = some e) (hpub : e.PublicFg = true)
    (hv : validateRank rank = true) :
    reserveHandler ES S (some user) (some eventID) rank rnd now =
      if allocate S e.ID rank rnd = -1 then (.resError "sold_out" 409, S)
      else
        match getSheetFromId (allocate S e.ID rank rnd) with
        | none => (.panicked, S)
        | some sheet =>
          (.reserved ((S.length : Int) + 1) rank sheet.Num,
            S ++ [⟨(S.length : Int) + 1, e.ID, sheet.ID, user.ID, now, none⟩]) := by
  have hg := getEvent_of_stored ES S eventID user.ID e hpos he
  have hf := fillEventOtherFields_fields S e user.ID
  unfold reserveHandler
  simp only [hg, hf.2.2.1, hf.1, hpub, hv, Bool.not_true, Bool.false_eq_true, if_false]

/-- The reserve handler either leaves the ledger alone and does not answer with a
reservation, or it passed its guards, the selection returned a seat, and one active
record for that seat was appended. -/
theorem reserveHandler_cases (ES : List Event) (S : List Reservation) (sess : Option User)
    (idParam : Option Int) (rank : String) (rnd : List Nat) (now : Time) :
    ((reserveHandler ES S sess idParam rank rnd now).2 = S ∧
      ∀ id rk num, (reserveHandler ES S sess idParam rank rnd now).1 ≠ .reserved id rk num) ∨
    ∃ (user : User) (eventID : Int) (e : Event) (sheet : Sheet),
      sess = some user ∧ idParam = some eventID ∧ 0 < eventID ∧
      ES[(eventID - 1).toNat]? = some e ∧ e.PublicFg = true ∧ validateRank rank = true ∧
      allocate S e.ID rank rnd ≠ -1 ∧ getSheetFromId (allocate S e.ID rank rnd) = some sheet ∧
      reserveHandler ES S sess idParam rank rnd now =
        (.reserved ((S.length : Int) + 1) rank sheet.Num,
          S ++ [⟨(S.length : Int) + 1, e.ID, sheet.ID, user.ID, now, none⟩]) := by
  cases sess with
  | none => left; exact ⟨rfl, by intro _ _ _ h; cases h⟩
  | some user =>
    cases idParam with
    | none => left; exact ⟨rfl, by intro _ _ _ h; cases h⟩
    | some eventID =>
      cases hg : getEvent ES S eventID user.ID with
      | none =>
        left
        unfold reserveHandler
        simp only [hg]
        exact ⟨by first | rfl | trivial, by intro _ _ _ h; cases h⟩
      | some event =>
        obtain ⟨hpos, e, he, hev⟩ := getEvent_eq_some ES S eventID user.ID event hg
        have hf := fillEventOtherFields_fields S e user.ID
        have hpubeq : event.PublicFg = e.PublicFg := by rw [hev]; exact hf.2.2.1
        by_cases hp : e.PublicFg = true
        · by_cases hv : validateRank rank = true
          · rw [reserveHandler_eq ES S user eventID e rank rnd now hpos he hp hv]
            by_cases ha : allocate S e.ID rank rnd = -1
            · left
              rw [if_pos ha]
              exact ⟨rfl, by intro _ _ _ h; cases h⟩
            · rw [if_neg ha]
              cases hs : getSheetFromId (allocate S e.ID rank rnd) with
              | none => left; exact ⟨rfl, by intro _ _ _ h; cases h⟩
              | some sheet =>
                right
                exact ⟨user, eventID, e, sheet, rfl, rfl, hpos, he, hp, hv, ha, hs, rfl⟩
          · left
            unfold reserveHandler
            simp only [hg, hpubeq, hp, hv, Bool.not_true, Bool.false_eq_true, if_false,
              Bool.not_false, if_true]
            exact ⟨by first | rfl | trivial, by intro _ _ _ h; cases h⟩
        · left
          unfold reserveHandler
          have hp2 : e.PublicFg = false := by simpa using hp
          simp only [hg, hpubeq, hp2, Bool.not_false, if_true]
          exact ⟨by first | rfl | trivial, by intro _ _ _ h; cases h⟩

/-- When the selection returns a seat it is a seat of the catalog, and the lookup
returns the seat with that id. -/
theorem allocated_sheet (S : List Reservation) (e : Int) (rank : String) (rnd : List Nat)
    (sheet : Sheet) (hv : validateRank rank = true)
    (hr : validRand (sheetConfig rank).Count.toNat rnd = true)
    (ha : allocate S e rank rnd ≠ -1)
    (hs : getSheetFromId (allocate S e rank rnd) = some sheet) :
    sheet.ID = allocate S e rank rnd ∧
    (sheetConfig rank).ID ≤ sheet.ID ∧
    sheet.ID < (sheetConfig rank).ID + (sheetConfig rank).Count ∧
    seatFree S e sheet.ID := by
  obtain ⟨hb1, hb2, hb3⟩ := validRank_bounds hv
  rcases allocate_spec S e rank rnd hv hr with ⟨h, _⟩ | ⟨h1, h2, h3⟩
  · exact absurd h ha
  · obtain ⟨sh, hsh, hid⟩ := getSheetFromId_of_mem (allocate S e rank rnd) (by omega) (by omega)
    rw [hs] at hsh
    have : sheet = sh := Option.some.inj hsh
    rw [this, hid]
    exact ⟨rfl, h1, h2, h3⟩

/-- Appending an active record on a seat that is free for its event keeps the
seat-occupancy invariant. -/
theorem seatOccupancyInv_append (S : List Reservation) (r : Reservation)
    (hinv : seatOccupancyInv S) (hfree : seatFree S r.EventID r.SheetID) :
    seatOccupancyInv (S ++ [r]) := by
  intro e s
  rw [List.countP_append]
  by_cases h : activeOn e s r = true
  · simp only [activeOn, Bool.and_eq_true, decide_eq_true_eq, Option.isNone_iff_eq_none] at h
    have hz : S.countP (activeOn e s) = 0 := by
      rw [List.countP_eq_zero]
      intro x hx
      rw [← h.1.1, ← h.1.2]
      simpa using hfree x hx
    rw [hz]
    simp [List.countP_cons]
    split <;> omega
  · have := hinv e s
    simp only [List.countP_cons, List.countP_nil, h, Bool.false_eq_true, if_false]
    omega

/-- C1. Seat-occupancy invariant: if every (event id, seat id) pair has at most one
active reservation in the ledger, the same holds for the ledger left by any single
reserve request (any session, event id, rank, and any outcomes of `rand.Intn`
within its contract) and for the ledger left by any single cancel request (any
session, event id, rank and num). -/
theorem seat_occupancy_preserved (ES : List Event) (S : List Reservation) (sess : Option User)
    (idParam : Option Int) (rank : String) (rnd : List Nat) (intNum : Int) (now : Time)
    (hinv : seatOccupancyInv S)
    (hr : validRand (sheetConfig rank).Count.toNat rnd = true) :
    seatOccupancyInv (reserveHandler ES S sess idParam rank rnd now).2 ∧
    seatOccupancyInv (cancelHandler ES S sess idParam rank intNum now).2 := by
  constructor
  · rcases reserveHandler_cases ES S sess idParam rank rnd now with
      ⟨h, _⟩ | ⟨user, eventID, e, sheet, _, _, _, _, _, hv, ha, hs, hout⟩
    · rw [h]; exact hinv
    · rw [hout]
      obtain ⟨_, _, _, hfree⟩ := allocated_sheet S e.ID rank rnd sheet hv hr ha hs
      exact seatOccupancyInv_append S _ hinv hfree
  · rcases cancelHandler_cases ES S sess idParam rank intNum now with
      ⟨h, _⟩ | ⟨_, _, _, _, i, r, _, _, _, _, _, _, _, _, hi, _, hout⟩
    · rw [h]; exact hinv
    · rw [hout]
      exact seatOccupancyInv_set_canceled S i r now hi hinv

/-- C1 (witness). Seat 3 of event 1 is held by user 7; a reserve request for rank S
and a cancel request for seat 3. -/
theorem seat_occupancy_preserved_witness :
    seatOccupancyInv exLedger ∧ validRand (sheetConfig "S").Count.toNat exRnd = true ∧
    seatOccupancyInv (reserveHandler [exEvent] exLedger (some exUser) (some 1) "S" exRnd 9).2 ∧
    seatOccupancyInv (cancelHandler [exEvent] exLedger (some exUser) (some 1) "S" 3 9).2 :=
  ⟨seatOccupancyInv_of_noDoubleBooking exLedger (by decide), by decide,
    seat_occupancy_preserved [exEvent] exLedger (some exUser) (some 1) "S" exRnd 3 9
      (seatOccupancyInv_of_noDoubleBooking exLedger (by decide)) (by decide)⟩

/-- C2. Allocation postcondition: for a stored public event, a valid rank, any
ledger and any outcomes of `rand.Intn` within its contract, when the reserve handler
succeeds the seat id of the appended record lies in the rank's range
`[ID, ID + Count)` and no active reservation of that event held it before the
append; and when exactly one seat of the rank is free the handler succeeds with
that seat, whatever the outcomes were. -/
theorem allocation_postcondition (ES : List Event) (S : List Reservation) (user : User)
    (eventID : Int) (e : Event) (rank : String) (rnd : List Nat) (now : Time)
    (hpos : 0 < eventID) (he : ES[(eventID - 1).toNat]? = some e) (hpub : e.PublicFg = true)
    (hv : validateRank rank = true)
    (hr : validRand (sheetConfig rank).Count.toNat rnd = true) :
    (∀ id rk num,
      (reserveHandler ES S (some user) (some eventID) rank rnd now).1 = .reserved id rk num →
      ∃ seat : Int,
        (getSheetRange rank).1 ≤ seat ∧ seat < (getSheetRange rank).2 ∧
        seatFree S e.ID seat ∧
        allocate S e.ID rank rnd = seat ∧
        (reserveHandler ES S (some user) (some eventID) rank rnd now).2 =
          S ++ [⟨(S.length : Int) + 1, e.ID, seat, user.ID, now, none⟩]) ∧
    (∀ s : Int, (getSheetRange rank).1 ≤ s → s < (getSheetRange rank).2 → seatFree S e.ID s →
      (∀ t : Int, (getSheetRange rank).1 ≤ t → t < (getSheetRange rank).2 → t ≠ s →
        ¬ seatFree S e.ID t) →
      allocate S e.ID rank rnd = s ∧
      ∃ num, reserveHandler ES S (some user) (some eventID) rank rnd now =
        (.reserved ((S.length : Int) + 1) rank num,
          S ++ [⟨(S.length : Int) + 1, e.ID, s, user.ID, now, none⟩])) := by
  obtain ⟨hb1, hb2, hb3⟩ := validRank_bounds hv
  have heq := reserveHandler_eq ES S user eventID e rank rnd now hpos he hpub hv
  have hrange : getSheetRange rank =
      ((sheetConfig rank).ID, (sheetConfig rank).ID + (sheetConfig rank).Count) := rfl
  rw [hrange]
  simp only []
  constructor
  · intro id rk num hres
    rcases allocate_spec S e.ID rank rnd hv hr with ⟨h, _⟩ | ⟨h1, h2, h3⟩
    · rw [heq, if_pos h] at hres; cases hres
    · have ha : allocate S e.ID rank rnd ≠ -1 := by omega
      obtain ⟨sh, hsh, hid⟩ := getSheetFromId_of_mem (allocate S e.ID rank rnd) (by omega)
        (by omega)
      refine ⟨allocate S e.ID rank rnd, h1, h2, h3, rfl, ?_⟩
      rw [heq, if_neg ha, hsh]
      simp only [hid]
  · intro s hs1 hs2 hfree honly
    rcases allocate_spec S e.ID rank rnd hv hr with ⟨_, hall⟩ | ⟨h1, h2, h3⟩
    · obtain ⟨r, hr1, hr2⟩ := hall s hs1 hs2
      rw [hfree r hr1] at hr2; cases hr2
    · have has : allocate S e.ID rank rnd = s := by
        by_contra hne
        exact honly _ h1 h2 hne h3
      have ha : allocate S e.ID rank rnd ≠ -1 := by omega
      obtain ⟨sh, hsh, hid⟩ := getSheetFromId_of_mem (allocate S e.ID rank rnd) (by omega)
        (by omega)
      refine ⟨has, sh.Num, ?_⟩
      rw [heq, if_neg ha, hsh]
      simp only [hid, has]

/-- C2 (witness). Event 1 is public, rank S is valid, every `rand.Intn` call
returns 0. -/
theorem allocation_postcondition_witness :
    (0 : Int) < 1 ∧ [exEvent][((1 : Int) - 1).toNat]? = some exEvent ∧
    exEvent.PublicFg = true ∧ validateRank "S" = true ∧
    validRand (sheetConfig "S").Count.toNat exRnd = true ∧
    (∀ id rk num,
      (reserveHandler [exEvent] exLedger (some exUser) (some 1) "S" exRnd 9).1 =
        .reserved id rk num →
      ∃ seat : Int,
        (getSheetRange "S").1 ≤ seat ∧ seat < (getSheetRange "S").2 ∧
        seatFree exLedger exEvent.ID seat ∧
        allocate exLedger exEvent.ID "S" exRnd = seat ∧
        (reserveHandler [exEvent] exLedger (some exUser) (some 1) "S" exRnd 9).2 =
          exLedger ++ [⟨(exLedger.length : Int) + 1, exEvent.ID, seat, exUser.ID, 9, none⟩]) :=
  ⟨by decide, by decide, by decide, by decide, by decide,
    (allocation_postcondition [exEvent] exLedger exUser 1 exEvent "S" exRnd 9
      (by decide) (by decide) (by decide) (by decide) (by decide)).1⟩

/-- C3. Sold-out: for a stored public event, a valid rank, any ledger and any
outcomes of `rand.Intn` within its contract, the reserve handler answers
`sold_out` if and only if every seat id of the rank's range is held by an active
reservation of that event; and when it answers `sold_out` the ledger is the one it
was given. -/
theorem sold_out_iff_rank_full (ES : List Event) (S : List Reservation) (user : User)
    (eventID : Int) (e : Event) (rank : String) (rnd : List Nat) (now : Time)
    (hpos : 0 < eventID) (he : ES[(eventID - 1).toNat]? = some e) (hpub : e.PublicFg = true)
    (hv : validateRank rank = true)
    (hr : validRand (sheetConfig rank).Count.toNat rnd = true) :
    ((reserveHandler ES S (some user) (some eventID) rank rnd now).1 = .resError "sold_out" 409 ↔
      ∀ id : Int, (getSheetRange rank).1 ≤ id → id < (getSheetRange rank).2 →
        ∃ r ∈ S, activeOn e.ID id r = true) ∧
    ((reserveHandler ES S (some user) (some eventID) rank rnd now).1 = .resError "sold_out" 409 →
      (reserveHandler ES S (some user) (some eventID) rank rnd now).2 = S) := by
  obtain ⟨hb1, hb2, hb3⟩ := validRank_bounds hv
  have heq := reserveHandler_eq ES S user eventID e rank rnd now hpos he hpub hv
  have hrange : getSheetRange rank =
      ((sheetConfig rank).ID, (sheetConfig rank).ID + (sheetConfig rank).Count) := rfl
  rw [hrange]
  simp only []
  rcases allocate_spec S e.ID rank rnd hv hr with ⟨h, hall⟩ | ⟨h1, h2, h3⟩
  · rw [heq, if_pos h]
    exact ⟨⟨fun _ => hall, fun _ => rfl⟩, fun _ => rfl⟩
  · have ha : allocate S e.ID rank rnd ≠ -1 := by omega
    obtain ⟨sh, hsh, hid⟩ := getSheetFromId_of_mem (allocate S e.ID rank rnd) (by omega)
      (by omega)
    rw [heq, if_neg ha, hsh]
    have hno : ∀ x : Response × List Reservation,
        x = (.reserved ((S.length : Int) + 1) rank sh.Num,
          S ++ [⟨(S.length : Int) + 1, e.ID, sh.ID, user.ID, now, none⟩]) →
        x.1 ≠ .resError "sold_out" 409 := by
      intro x hx h; rw [hx] at h; cases h
    refine ⟨⟨fun h => absurd h (hno _ rfl), fun hall => ?_⟩, fun h => absurd h (hno _ rfl)⟩
    obtain ⟨r, hr1, hr2⟩ := hall _ h1 h2
    rw [h3 r hr1] at hr2; cases hr2

/-- C3 (witness). Event 1 is public, rank S is valid, every `rand.Intn` call
returns 0. -/
theorem sold_out_iff_rank_full_witness :
    (0 : Int) < 1 ∧ [exEvent][((1 : Int) - 1).toNat]? = some exEvent ∧
    exEvent.PublicFg = true ∧ validateRank "S" = true ∧
    validRand (sheetConfig "S").Count.toNat exRnd = true ∧
    ((reserveHandler [exEvent] exLedger (some exUser) (some 1) "S" exRnd 9).1 =
        .resError "sold_out" 409 ↔
      ∀ id : Int, (getSheetRange "S").1 ≤ id → id < (getSheetRange "S").2 →
        ∃ r ∈ exLedger, activeOn exEvent.ID id r = true) :=
  ⟨by decide, by decide, by decide, by decide, by decide,
    (sold_out_iff_rank_full [exEvent] exLedger exUser 1 exEvent "S" exRnd 9
      (by decide) (by decide) (by decide) (by decide) (by decide)).1⟩

/-- Appending a record whose id is the new length keeps the ids dense. -/
theorem denseIds_append (S : List Reservation) (r : Reservation) (hd : denseIds S)
    (hid : r.ID = (S.length : Int) + 1) : denseIds (S ++ [r]) := by
  intro i hi
  by_cases h : i < S.length
  · rw [List.getElem_append_left h]; exact hd i h
  · have hi2 : i = S.length := by
      simp only [List.length_append, List.length_singleton] at hi; omega
    subst hi2
    simp [hid]

/-- Rewriting a record without touching its id keeps the ids dense. -/
theorem denseIds_set (S : List Reservation) (i : Nat) (r r2 : Reservation) (hd : denseIds S)
    (hi : S[i]? = some r) (hid : r2.ID = r.ID) : denseIds (S.set i r2) := by
  intro j hj
  have hj2 : j < S.length := by simpa using hj
  by_cases h : i = j
  · subst h
    rw [List.getElem_set_self, hid]
    rw [List.getElem?_eq_getElem hj2] at hi
    rw [← Option.some.inj hi]
    exact hd i hj2
  · rw [List.getElem_set_ne h]
    exact hd j hj2

/-- C8. Dense reservation ids: if `store[i].ID == i + 1` for every index, then a
successful reserve request appends one record, last, with `ID == n + 1` (the id
it answers with) and `CanceledAt == nil`, and the extended ledger again has
`store[i].ID == i + 1`; a reserve request that does not succeed leaves the ledger as
it was; and the ledger left by a cancel request has dense ids as well. -/
theorem dense_ids_preserved (ES : List Event) (S : List Reservation) (sess : Option User)
    (idParam : Option Int) (rank : String) (rnd : List Nat) (intNum : Int) (now : Time)
    (hd : denseIds S) :
    (∀ id rk num, (reserveHandler ES S sess idParam rank rnd now).1 = .reserved id rk num →
      ∃ r : Reservation, (reserveHandler ES S sess idParam rank rnd now).2 = S ++ [r] ∧
        r.ID = (S.length : Int) + 1 ∧ id = (S.length : Int) + 1 ∧ r.CanceledAt = none) ∧
    ((∀ id rk num, (reserveHandler ES S sess idParam rank rnd now).1 ≠ .reserved id rk num) →
      (reserveHandler ES S sess idParam rank rnd now).2 = S) ∧
    denseIds (reserveHandler ES S sess idParam rank rnd now).2 ∧
    denseIds (cancelHandler ES S sess idParam rank intNum now).2 := by
  refine ⟨?_, ?_, ?_, ?_⟩
  · intro id rk num hres
    rcases reserveHandler_cases ES S sess idParam rank rnd now with
      ⟨_, h⟩ | ⟨user, eventID, e, sheet, _, _, _, _, _, _, _, _, hout⟩
    · exact absurd hres (h id rk num)
    · rw [hout] at hres ⊢
      refine ⟨_, rfl, rfl, ?_, rfl⟩
      simp only [Response.reserved.injEq] at hres
      exact hres.1.symm
  · intro hno
    rcases reserveHandler_cases ES S sess idParam rank rnd now with
      ⟨h, _⟩ | ⟨user, eventID, e, sheet, _, _, _, _, _, _, _, _, hout⟩
    · exact h
    · exact absurd (by rw [hout]) (hno ((S.length : Int) + 1) rank sheet.Num)
  · rcases reserveHandler_cases ES S sess idParam rank rnd now with
      ⟨h, _⟩ | ⟨user, eventID, e, sheet, _, _, _, _, _, _, _, _, hout⟩
    · rw [h]; exact hd
    · rw [hout]; exact denseIds_append S _ hd rfl
  · rcases cancelHandler_cases ES S sess idParam rank intNum now with
      ⟨h, _⟩ | ⟨_, _, _, _, i, r, _, _, _, _, _, _, _, _, hi, _, hout⟩
    · rw [h]; exact hd
    · rw [hout]; exact denseIds_set S i r _ hd hi rfl

/-- C8 (witness). The one-record ledger has dense ids; the reserve request succeeds
with id 2 and appends the record with id 2. -/
theorem dense_ids_preserved_witness :
    denseIds exLedger ∧
    (reserveHandler [exEvent] exLedger (some exUser) (some 1) "S" exRnd 9).1 =
      .reserved 2 "S" 2 ∧
    (∃ r : Reservation,
      (reserveHandler [exEvent] exLedger (some exUser) (some 1) "S" exRnd 9).2 = exLedger ++ [r] ∧
        r.ID = (exLedger.length : Int) + 1 ∧ (2 : Int) = (exLedger.length : Int) + 1 ∧
        r.CanceledAt = none) ∧
    denseIds (reserveHandler [exEvent] exLedger (some exUser) (some 1) "S" exRnd 9).2 ∧
    denseIds (cancelHandler [exEvent] exLedger (some exUser) (some 1) "S" 3 9).2 :=
  ⟨by unfold denseIds; decide, by decide,
    (dense_ids_preserved [exEvent] exLedger (some exUser) (some 1) "S" exRnd 3 9
      (by unfold denseIds; decide)).1 2 "S" 2 (by decide),
    (dense_ids_preserved [exEvent] exLedger (some exUser) (some 1) "S" exRnd 3 9
      (by unfold denseIds; decide)).2.2⟩

/-! ### The projection: counting the remaining seats -/

/-- Reading the map after a write through `event.Sheets[rank]`. -/
theorem lookup_sheetsModify (m : List (String × Sheets)) (rank k : String) (f : Sheets → Sheets) :
    (sheetsModify m rank f).lookup k =
      if k = rank then (m.lookup k).map f else m.lookup k := by
  induction m with
  | nil => simp [sheetsModify]
  | cons p m ih =>
    unfold sheetsModify at ih ⊢
    obtain ⟨pk, pv⟩ := p
    by_cases h1 : pk = rank
    · by_cases h2 : k = pk
      · subst h2; subst h1
        simp [List.lookup_cons]
      · have h3 : (k == pk) = false := by simpa using h2
        simp only [List.map_cons, h1, if_true, List.lookup_cons]
        have h4 : (k == rank) = false := by rw [← h1]; exact h3
        rw [h4, ih]
    · by_cases h2 : k = pk
      · subst h2
        simp [List.lookup_cons, h1]
      · have h3 : (k == pk) = false := by simpa using h2
        simp only [List.map_cons, h1, if_false, List.lookup_cons, h3]
        exact ih

/-- The keys of the reservation map are the seat ids of the reservations. -/
theorem lookup_foldl_none (acts : List Reservation) (m : List (Int × Reservation)) (id : Int) :
    (acts.foldl (fun m r => (r.SheetID, r) :: m) m).lookup id = none ↔
      m.lookup id = none ∧ ∀ r ∈ acts, r.SheetID ≠ id := by
  induction acts generalizing m with
  | nil => simp
  | cons a acts ih =>
    simp only [List.foldl_cons]
    rw [ih, List.lookup_cons]
    by_cases h : a.SheetID = id
    · have : (id == a.SheetID) = true := by simp [h]
      simp [this, h]
    · have : (id == a.SheetID) = false := by simpa using fun h2 => h h2.symm
      simp [this, h]

theorem lookup_buildReservationsMap_none (acts : List Reservation) (id : Int) :
    (buildReservationsMap acts).lookup id = none ↔ ∀ r ∈ acts, r.SheetID ≠ id := by
  unfold buildReservationsMap
  rw [lookup_foldl_none]
  simp

/-- One seat of the walk: the rank's `Remains` grows by one exactly when the seat
belongs to the rank and has no entry in the reservation map. -/
theorem fillSheet_rankRemains (m : List (Int × Reservation)) (u : Int) (ev : Event) (s : Sheet)
    (k : String) (hk : (ev.Sheets.lookup k).isSome = true) :
    ((fillSheet m u ev s).Sheets.lookup k).isSome = true ∧
    rankRemains (fillSheet m u ev s) k =
      rankRemains ev k + (if s.Rank = k ∧ m.lookup s.ID = none then 1 else 0) := by
  obtain ⟨ss, hss⟩ := Option.isSome_iff_exists.1 hk
  unfold fillSheet rankRemains
  cases hl : List.lookup s.ID m with
  | none =>
    simp only [lookup_sheetsModify, hss]
    by_cases h : k = s.Rank
    · simp [h]
    · have h2 : ¬ s.Rank = k := fun h3 => h h3.symm
      simp [h, h2]
  | some r =>
    simp only [lookup_sheetsModify, hss]
    by_cases h : k = s.Rank <;> simp [h]

/-- The walk over a list of seats adds to a rank's `Remains` the number of its seats
without an entry in the reservation map. -/
theorem foldl_fillSheet_rankRemains (m : List (Int × Reservation)) (u : Int) (l : List Sheet)
    (ev : Event) (k : String) (hk : (ev.Sheets.lookup k).isSome = true) :
    rankRemains (l.foldl (fillSheet m u) ev) k =
      rankRemains ev k +
        (l.countP fun s => decide (s.Rank = k) && (m.lookup s.ID).isNone : Nat) := by
  induction l generalizing ev with
  | nil => simp
  | cons s l ih =>
    obtain ⟨h1, h2⟩ := fillSheet_rankRemains m u ev s k hk
    simp only [List.foldl_cons, List.countP_cons]
    rw [ih _ h1, h2]
    by_cases hc : s.Rank = k ∧ List.lookup s.ID m = none
    · simp only [hc, and_self, if_true, decide_True, Option.isNone_none, Bool.and_self]
      push_cast; ring
    · simp only [hc, if_false]
      have : (decide (s.Rank = k) && (List.lookup s.ID m).isNone) = false := by
        by_cases h3 : s.Rank = k
        · have : List.lookup s.ID m ≠ none := fun h4 => hc ⟨h3, h4⟩
          cases h5 : List.lookup s.ID m with
          | none => exact absurd h5 this
          | some _ => simp
        · simp [h3]
      simp only [this, Bool.false_eq_true, if_false]
      push_cast; ring

/-- The walk adds to the event's `Remains` the number of seats without an entry in
the reservation map. -/
theorem foldl_fillSheet_Remains (m : List (Int × Reservation)) (u : Int) (l : List Sheet)
    (ev : Event) :
    (l.foldl (fillSheet m u) ev).Remains =
      ev.Remains + (l.countP fun s => (m.lookup s.ID).isNone : Nat) := by
  induction l generalizing ev with
  | nil => simp
  | cons s l ih =>
    simp only [List.foldl_cons, List.countP_cons]
    rw [ih]
    unfold fillSheet
    cases hl : List.lookup s.ID m with
    | none => simp only [Option.isNone_none, if_true]; push_cast; ring
    | some r => simp

/-- The event as the walk over `DefaultSheets` receives it: the four ranks are
present with `Remains = 0`, and the event's own `Remains` is 0. -/
theorem initRank_start (e : Event) (k : String)
    (hk : k = "S" ∨ k = "A" ∨ k = "B" ∨ k = "C") :
    ((SheetConfigs.foldl initRank
        { e with Sheets := [("S", {}), ("A", {}), ("B", {}), ("C", {})],
                 Total := 1000, Remains := 0 }).Sheets.lookup k).isSome = true ∧
    rankRemains (SheetConfigs.foldl initRank
        { e with Sheets := [("S", {}), ("A", {}), ("B", {}), ("C", {})],
                 Total := 1000, Remains := 0 }) k = 0 ∧
    (SheetConfigs.foldl initRank
        { e with Sheets := [("S", {}), ("A", {}), ("B", {}), ("C", {})],
                 Total := 1000, Remains := 0 }).Remains = 0 := by
  rcases hk with rfl | rfl | rfl | rfl <;> exact ⟨rfl, rfl, rfl⟩

/-- Every seat of the catalog carries one of the four ranks. -/
theorem rankSheets_rank (rank : String) : ∀ s ∈ rankSheets rank, s.Rank = rank := by
  intro s hs
  unfold rankSheets at hs
  simp only [List.mem_map] at hs
  obtain ⟨k, _, rfl⟩ := hs
  rfl

theorem DefaultSheets_ranks :
    ∀ s ∈ DefaultSheets, s.Rank = "S" ∨ s.Rank = "A" ∨ s.Rank = "B" ∨ s.Rank = "C" := by
  intro s hs
  unfold DefaultSheets at hs
  simp only [List.mem_append] at hs
  rcases hs with ((hs | hs) | hs) | hs
  · left; exact rankSheets_rank _ s hs
  · right; left; exact rankSheets_rank _ s hs
  · right; right; left; exact rankSheets_rank _ s hs
  · right; right; right; exact rankSheets_rank _ s hs

/-- Splitting a count over the seats by rank. -/
theorem countP_by_rank (l : List Sheet) (f : Sheet → Bool)
    (h : ∀ s ∈ l, s.Rank = "S" ∨ s.Rank = "A" ∨ s.Rank = "B" ∨ s.Rank = "C") :
    (l.countP fun s => decide (s.Rank = "S") && f s) +
      (l.countP fun s => decide (s.Rank = "A") && f s) +
      (l.countP fun s => decide (s.Rank = "B") && f s) +
      (l.countP fun s => decide (s.Rank = "C") && f s) = l.countP f := by
  induction l with
  | nil => simp
  | cons a l ih =>
    have ih2 := ih fun s hs => h s (List.mem_cons_of_mem _ hs)
    simp only [List.countP_cons]
    rcases h a (List.mem_cons_self _ _) with hr | hr | hr | hr <;> rw [hr] <;>
      cases hf : f a <;> simp <;> omega

/-- In a duplicate-free list that contains every element of a duplicate-free list
`B`, the elements of `B` are counted `B.length` times. -/
theorem countP_mem_of_nodup (A B : List Int) (hA : A.Nodup) (hB : B.Nodup)
    (hsub : ∀ b ∈ B, b ∈ A) : A.countP (fun a => decide (a ∈ B)) = B.length := by
  rw [List.countP_eq_length_filter]
  apply List.Perm.length_eq
  rw [List.perm_ext_iff_of_nodup (hA.filter _) hB]
  intro a
  simp only [List.mem_filter, decide_eq_true_eq]
  exact ⟨fun h => h.2, fun h => ⟨hsub a h, h⟩⟩

/-- Under the seat-occupancy invariant the active reservations of an event sit on
pairwise different seats. -/
theorem activeFor_seats_nodup (S : List Reservation) (e : Int) (hinv : seatOccupancyInv S) :
    ((activeFor S e).map fun r => r.SheetID).Nodup := by
  rw [List.nodup_iff_count_le_one]
  intro s
  have h := hinv e s
  have heq : List.count s ((activeFor S e).map fun r => r.SheetID) =
      S.countP (activeOn e s) := by
    rw [List.count_eq_countP, List.countP_map]
    unfold activeFor
    rw [List.countP_filter]
    apply List.countP_congr
    intro r _
    by_cases h1 : r.EventID = e <;> by_cases h2 : r.CanceledAt = none <;>
      by_cases h3 : r.SheetID = s <;> simp [activeOn, h1, h2, h3]
  omega

/-- The seats without an entry in the reservation map and the active reservations
of the event together number 1000, when the active reservations sit on pairwise
different seats of the catalog. -/
theorem free_plus_active (S : List Reservation) (e : Int) (hinv : seatOccupancyInv S)
    (hrange : ∀ r ∈ S, 1 ≤ r.SheetID ∧ r.SheetID ≤ 1000) :
    (DefaultSheets.countP fun s =>
        ((buildReservationsMap (activeFor S e)).lookup s.ID).isNone) +
      (activeFor S e).length = 1000 := by
  have hids := DefaultSheets_ids
  have hnodup := activeFor_seats_nodup S e hinv
  have hidsnodup : ((List.range 1000).map fun (k : Nat) => (k : Int) + 1).Nodup := by
    apply List.Nodup.map _ (List.nodup_range _)
    intro a b h
    simpa using h
  have hsub : ∀ b ∈ (activeFor S e).map (fun r => r.SheetID),
      b ∈ (List.range 1000).map fun (k : Nat) => (k : Int) + 1 := by
    intro b hb
    rw [List.mem_map] at hb
    obtain ⟨r, hr, rfl⟩ := hb
    have := hrange r ((mem_activeFor S e r).1 hr).1
    rw [List.mem_map]
    exact ⟨(r.SheetID - 1).toNat, List.mem_range.2 (by omega), by omega⟩
  have hcount := countP_mem_of_nodup _ _ hidsnodup hnodup hsub
  have hsplit := List.length_eq_countP_add_countP
    (fun a => decide (a ∈ (activeFor S e).map fun r => r.SheetID))
    ((List.range 1000).map fun (k : Nat) => (k : Int) + 1)
  have hrew : (DefaultSheets.countP fun s =>
      ((buildReservationsMap (activeFor S e)).lookup s.ID).isNone) =
      ((List.range 1000).map fun (k : Nat) => (k : Int) + 1).countP
        (fun a => decide ¬ (decide (a ∈ (activeFor S e).map fun r => r.SheetID) = true)) := by
    rw [← hids, List.countP_map]
    apply List.countP_congr
    intro s _
    simp only [Function.comp, Option.isNone_iff_eq_none, lookup_buildReservationsMap_none,
      decide_eq_true_eq, List.mem_map, not_exists, not_and]
  rw [hrew]
  simp only [List.length_map, List.length_range] at hsplit hcount
  omega

/-- C4. Seat conservation: for every event, viewer and reservation ledger that
satisfies the seat-occupancy invariant with all seat ids in `[1, 1000]`, the
projection's `Remains` of the four ranks sum, together with the number of active
reservations of the event, to the total seat count 1000 (the projection's `Total`);
the event-level `Remains` obeys the same equation. -/
theorem seat_conservation (S : List Reservation) (e : Event) (viewer : Int)
    (hinv : seatOccupancyInv S)
    (hrange : ∀ r ∈ S, 1 ≤ r.SheetID ∧ r.SheetID ≤ 1000) :
    rankRemains (fillEventOtherFields S e viewer) "S" +
        rankRemains (fillEventOtherFields S e viewer) "A" +
        rankRemains (fillEventOtherFields S e viewer) "B" +
        rankRemains (fillEventOtherFields S e viewer) "C" +
        ((activeFor S e.ID).length : Int) = 1000 ∧
    (fillEventOtherFields S e viewer).Total = 1000 ∧
    (fillEventOtherFields S e viewer).Remains + ((activeFor S e.ID).length : Int) = 1000 := by
  have hS := initRank_start e "S" (by simp)
  have hA := initRank_start e "A" (by simp)
  have hB := initRank_start e "B" (by simp)
  have hC := initRank_start e "C" (by simp)
  have hfa := free_plus_active S e.ID hinv hrange
  have hsum := countP_by_rank DefaultSheets
    (fun s => ((buildReservationsMap (activeFor S e.ID)).lookup s.ID).isNone) DefaultSheets_ranks
  beta_reduce at hsum
  refine ⟨?_, (fillEventOtherFields_fields S e viewer).2.2.2.2.2, ?_⟩
  · unfold fillEventOtherFields
    simp only []
    rw [foldl_fillSheet_rankRemains _ _ _ _ "S" hS.1, foldl_fillSheet_rankRemains _ _ _ _ "A" hA.1,
      foldl_fillSheet_rankRemains _ _ _ _ "B" hB.1, foldl_fillSheet_rankRemains _ _ _ _ "C" hC.1,
      hS.2.1, hA.2.1, hB.2.1, hC.2.1]
    omega
  · unfold fillEventOtherFields
    simp only []
    rw [foldl_fillSheet_Remains, hS.2.2]
    omega

/-- C4 (witness). The one-record ledger: 999 seats remain and one is held. -/
theorem seat_conservation_witness :
    seatOccupancyInv exLedger ∧ (∀ r ∈ exLedger, 1 ≤ r.SheetID ∧ r.SheetID ≤ 1000) ∧
    rankRemains (fillEventOtherFields exLedger exEvent 7) "S" +
        rankRemains (fillEventOtherFields exLedger exEvent 7) "A" +
        rankRemains (fillEventOtherFields exLedger exEvent 7) "B" +
        rankRemains (fillEventOtherFields exLedger exEvent 7) "C" +
        ((activeFor exLedger exEvent.ID).length : Int) = 1000 :=
  ⟨seatOccupancyInv_of_noDoubleBooking exLedger (by decide), by decide,
    (seat_conservation exLedger exEvent 7
      (seatOccupancyInv_of_noDoubleBooking exLedger (by decide)) (by decide)).1⟩

/-! ### Counting the choice sequences of the shuffle -/

/-- Every listed choice sequence respects the contract of `rand.Intn`. -/
theorem validRand_of_mem_choiceSeqs (n : Nat) (c : List Nat) (h : c ∈ choiceSeqs n) :
    validRand n c = true := by
  induction n generalizing c with
  | zero => simp [validRand]
  | succ n ih =>
    simp only [choiceSeqs, List.mem_flatMap, List.mem_range, List.mem_map] at h
    obtain ⟨j, hj, c2, hc2, rfl⟩ := h
    simp [validRand, hj, ih c2 hc2]

/-- There are `n!` choice sequences for `n` seats. -/
theorem length_choiceSeqs (n : Nat) : (choiceSeqs n).length = n.factorial := by
  induction n with
  | zero => rfl
  | succ n ih =>
    simp only [choiceSeqs, List.flatMap, List.length_flatten, List.map_map]
    have : (List.length ∘ fun j => List.map (fun c => j :: c) (choiceSeqs n)) =
        fun _ => n.factorial := by
      funext j; simp [ih]
    rw [this]
    simp [Nat.factorial_succ]

/-- Counting over the sequences for `n + 1` seats: split by the first outcome. -/
theorem countP_choiceSeqs_succ (n : Nat) (P : List Nat → Bool) :
    (choiceSeqs (n + 1)).countP P =
      ((List.range (n + 1)).map fun j => (choiceSeqs n).countP fun c => P (j :: c)).sum := by
  simp only [choiceSeqs, List.flatMap, List.countP_flatten, List.map_map]
  congr 1
  apply List.map_congr_left
  intro j _
  simp only [Function.comp, List.countP_map]
  rfl

/-- The search in the shuffled slice after one iteration: look in the shuffled
prefix first, then at the element the iteration put last. -/
theorem find_shuffle_snoc (f : Int → Bool) (n j : Nat) (c : List Nat) (p : List Int) (x : Int)
    (hp : p.length = n) (hj : j < n + 1) (hc : validRand n c = true) :
    (shuffleLoop (n + 1) (j :: c) (p ++ [x])).find? f =
      ((shuffleLoop n c (if j < n then p.set j x else p)).find? f).or
        (if f (if j < n then p.getD j 0 else x) = true
          then some (if j < n then p.getD j 0 else x) else none) := by
  rw [shuffleLoop_snoc n j c p x hp hj hc, List.find?_append, List.find?_singleton]

/-- The count for a slice whose last element `y` is already fixed, in terms of the
counts for the prefix: the three cases of `pickCount`. -/
theorem countP_pick_last (f : Int → Bool) (n : Nat) (p1 : List Int) (y s : Int)
    (IH : ∀ p : List Int, p.length = n → p.Nodup → ∀ s ∈ p, f s = true →
      (choiceSeqs n).countP (fun c => (shuffleLoop n c p).find? f == some s) =
        pickCount n (p.countP f))
    (hp : p1.length = n) (hnd : (p1 ++ [y]).Nodup) (hs : s ∈ p1 ++ [y]) (hfs : f s = true) :
    (choiceSeqs n).countP (fun c =>
        (((shuffleLoop n c p1).find? f).or (if f y = true then some y else none)) == some s) =
      if f y = true then
        (if y = s then (if (p1 ++ [y]).countP f = 1 then n.factorial else 0)
          else pickCount n ((p1 ++ [y]).countP f - 1))
      else pickCount n ((p1 ++ [y]).countP f) := by
  have hnd1 : p1.Nodup := (List.nodup_append.1 hnd).1
  have hy : y ∉ p1 := by
    intro h
    exact (List.nodup_append.1 hnd).2.2 h (List.mem_singleton_self y)
  by_cases hfy : f y = true
  · simp only [hfy, if_true]
    by_cases hys : y = s
    · subst hys
      simp only [if_true]
      have hcnt : (p1 ++ [y]).countP f = p1.countP f + 1 := by
        simp [List.countP_append, List.countP_cons, hfy]
      by_cases hk : (p1 ++ [y]).countP f = 1
      · rw [if_pos hk]
        have hz : p1.countP f = 0 := by omega
        rw [List.countP_eq_zero] at hz
        rw [← length_choiceSeqs n, List.countP_eq_length]
        intro c hc
        have hperm := shuffleLoop_perm n c p1 hp (validRand_of_mem_choiceSeqs n c hc)
        have hnone : (shuffleLoop n c p1).find? f = none := by
          rw [List.find?_eq_none]
          intro t ht
          exact hz t (hperm.mem_iff.1 ht)
        simp [hnone]
      · rw [if_neg hk]
        rw [List.countP_eq_zero]
        intro c hc
        have hperm := shuffleLoop_perm n c p1 hp (validRand_of_mem_choiceSeqs n c hc)
        have hpos : 0 < p1.countP f := by omega
        obtain ⟨t, ht, hft⟩ := List.countP_pos_iff.1 hpos
        cases hfind : (shuffleLoop n c p1).find? f with
        | none =>
          rw [List.find?_eq_none] at hfind
          exact absurd hft (hfind t (hperm.mem_iff.2 ht))
        | some t2 =>
          have ht2 : t2 ∈ p1 := hperm.mem_iff.1 (List.mem_of_find?_eq_some hfind)
          have : t2 ≠ y := fun h => hy (h ▸ ht2)
          simp [this]
    · simp only [hys, if_false]
      have hs1 : s ∈ p1 := by
        rcases List.mem_append.1 hs with h | h
        · exact h
        · exact absurd (List.mem_singleton.1 h).symm hys
      have hcnt : (p1 ++ [y]).countP f - 1 = p1.countP f := by
        simp [List.countP_append, List.countP_cons, hfy]
      rw [hcnt, ← IH p1 hp hnd1 s hs1 hfs]
      apply List.countP_congr
      intro c hc
      have hperm := shuffleLoop_perm n c p1 hp (validRand_of_mem_choiceSeqs n c hc)
      cases hfind : (shuffleLoop n c p1).find? f with
      | none =>
        rw [List.find?_eq_none] at hfind
        exact absurd hfs (hfind s (hperm.mem_iff.2 hs1))
      | some t2 => simp
  · have hfy2 : f y = false := by simpa using hfy
    simp only [hfy2, Bool.false_eq_true, if_false, Option.or_none]
    have hs1 : s ∈ p1 := by
      rcases List.mem_append.1 hs with h | h
      · exact h
      · rw [List.mem_singleton.1 h, hfy2] at hfs; cases hfs
    have hcnt : (p1 ++ [y]).countP f = p1.countP f := by
      simp [List.countP_append, List.countP_cons, hfy2]
    rw [hcnt]
    exact IH p1 hp hnd1 s hs1 hfs

/-- The sizes of the three classes of seats: occupied, free and different from `s`,
and `s` itself. -/
theorem class_counts (f : Int → Bool) (s : Int) (l : List Int) (hfs : f s = true) :
    l.countP (fun y => !f y) + l.countP f = l.length ∧
    l.countP (fun y => f y && !decide (y = s)) + l.count s = l.countP f := by
  induction l with
  | nil => simp
  | cons a l ih =>
    simp only [List.countP_cons, List.count_cons, List.length_cons]
    by_cases has : a = s
    · subst has
      simp [hfs]
      omega
    · have : (a == s) = false := by simpa using has
      cases hfa : f a <;> simp [this, has] <;> omega

/-- Summing a value that depends only on the class of each seat. -/
theorem sum_map_classes (f : Int → Bool) (s : Int) (a b c : Nat) (l : List Int)
    (hfs : f s = true) :
    (l.map fun y => if f y = true then (if y = s then c else b) else a).sum =
      l.countP (fun y => !f y) * a + l.countP (fun y => f y && !decide (y = s)) * b +
        l.count s * c := by
  induction l with
  | nil => simp
  | cons x l ih =>
    simp only [List.map_cons, List.sum_cons, List.countP_cons, List.count_cons, ih]
    by_cases hxs : x = s
    · subst hxs
      simp [hfs]
      ring
    · have : (x == s) = false := by simpa using hxs
      cases hfx : f x <;> simp [this, hxs] <;> ring

/-- Mapping over the positions of a list reads off its elements. -/
theorem map_range_getD (G : Int → Nat) (l : List Int) :
    (List.range l.length).map (fun j => G (l.getD j 0)) = l.map G := by
  apply List.ext_getElem
  · simp
  · intro i h1 h2
    simp only [List.getElem_map, List.getElem_range]
    have hi : i < l.length := by simpa using h2
    rw [List.getD_eq_getElem l 0 hi]

/-- The element the first iteration puts last is the element at position `j`. -/
theorem pick_last_eq (n j : Nat) (p : List Int) (x : Int) (hp : p.length = n) (hj : j < n + 1) :
    (if j < n then p.getD j 0 else x) = (p ++ [x]).getD j 0 := by
  by_cases h : j < n
  · rw [if_pos h, List.getD_append p [x] 0 j (by omega)]
  · have : j = p.length := by omega
    rw [if_neg h, List.getD_append_right p [x] 0 j (by omega), this]
    simp

/-- Uniformity of the shuffle-and-pick: over all choice sequences for a slice of
`n` distinct ids, the number of sequences whose shuffled slice has the free id `s`
as its first free id depends only on `n` and on the number of free ids. -/
theorem countP_select (f : Int → Bool) (n : Nat) :
    ∀ p : List Int, p.length = n → p.Nodup → ∀ s ∈ p, f s = true →
      (choiceSeqs n).countP (fun c => (shuffleLoop n c p).find? f == some s) =
        pickCount n (p.countP f) := by
  induction n with
  | zero =>
    intro p hp _ s hs _
    have : p = [] := List.length_eq_zero.1 hp
    rw [this] at hs
    cases hs
  | succ n ih =>
    intro p hp hnd s hs hfs
    obtain ⟨p1, x, rfl, hp1⟩ := exists_snoc p n hp
    rw [countP_choiceSeqs_succ]
    have hterm : ∀ j ∈ List.range (n + 1),
        ((choiceSeqs n).countP fun c =>
          (shuffleLoop (n + 1) (j :: c) (p1 ++ [x])).find? f == some s) =
        (fun y => if f y = true then
            (if y = s then (if (p1 ++ [x]).countP f = 1 then n.factorial else 0)
              else pickCount n ((p1 ++ [x]).countP f - 1))
          else pickCount n ((p1 ++ [x]).countP f)) ((p1 ++ [x]).getD j 0) := by
      intro j hj
      rw [List.mem_range] at hj
      have hperm := pick_perm n j p1 x hp1
      have hlen : (if j < n then p1.set j x else p1).length = n := by
        split <;> simp [hp1]
      have hcongr : ((choiceSeqs n).countP fun c =>
          (shuffleLoop (n + 1) (j :: c) (p1 ++ [x])).find? f == some s) =
          (choiceSeqs n).countP fun c =>
            (((shuffleLoop n c (if j < n then p1.set j x else p1)).find? f).or
              (if f (if j < n then p1.getD j 0 else x) = true
                then some (if j < n then p1.getD j 0 else x) else none)) == some s := by
        apply List.countP_congr
        intro c hc
        rw [find_shuffle_snoc f n j c p1 x hp1 hj (validRand_of_mem_choiceSeqs n c hc)]
      rw [hcongr, countP_pick_last f n _ _ s ih hlen (hperm.nodup_iff.2 hnd)
        (hperm.mem_iff.2 hs) hfs, hperm.countP_eq, pick_last_eq n j p1 x hp1 hj]
    rw [List.map_congr_left hterm]
    have hlen2 : (p1 ++ [x]).length = n + 1 := by simp [hp1]
    have hmap := map_range_getD (fun y => if f y = true then
        (if y = s then (if (p1 ++ [x]).countP f = 1 then n.factorial else 0)
          else pickCount n ((p1 ++ [x]).countP f - 1))
      else pickCount n ((p1 ++ [x]).countP f)) (p1 ++ [x])
    rw [hlen2] at hmap
    rw [hmap, sum_map_classes f s _ _ _ _ hfs]
    obtain ⟨hc1, hc2⟩ := class_counts f s (p1 ++ [x]) hfs
    have hone : (p1 ++ [x]).count s = 1 := List.count_eq_one_of_mem hnd hs
    have e1 : (p1 ++ [x]).countP (fun y => !f y) = n + 1 - (p1 ++ [x]).countP f := by omega
    have e2 : (p1 ++ [x]).countP (fun y => f y && !decide (y = s)) =
        (p1 ++ [x]).countP f - 1 := by omega
    rw [e1, e2, hone]
    simp only [pickCount, Nat.one_mul]

/-- With at least one and at most `n` free seats the count is positive. -/
theorem pickCount_pos (n k : Nat) (h1 : 1 ≤ k) (h2 : k ≤ n) : 0 < pickCount n k := by
  induction n generalizing k with
  | zero => omega
  | succ n ih =>
    unfold pickCount
    by_cases hk : k = 1
    · rw [if_pos hk]
      have := Nat.factorial_pos n
      omega
    · have := ih (k - 1) (by omega) (by omega)
      have h3 : 0 < (k - 1) * pickCount n (k - 1) := Nat.mul_pos (by omega) this
      omega

/-- Each free seat gets its share: `k` times the count is `n!`. -/
theorem pickCount_mul (n k : Nat) (h1 : 1 ≤ k) (h2 : k ≤ n) :
    k * pickCount n k = n.factorial := by
  induction n generalizing k with
  | zero => omega
  | succ n ih =>
    unfold pickCount
    rw [Nat.factorial_succ]
    by_cases hk : k = 1
    · subst hk
      simp only [if_true, Nat.sub_self, Nat.zero_mul, Nat.add_zero, Nat.one_mul,
        Nat.add_sub_cancel]
      by_cases hn : 1 ≤ n
      · rw [← ih 1 (by omega) hn]; ring
      · have : n = 0 := by omega
        subst this; simp [pickCount]
    · rw [if_neg hk, Nat.add_zero]
      have hb := ih (k - 1) (by omega) (by omega)
      by_cases hkn : k ≤ n
      · have ha := ih k h1 hkn
        have : k * ((n + 1 - k) * pickCount n k + (k - 1) * pickCount n (k - 1)) =
            (n + 1 - k) * (k * pickCount n k) + k * ((k - 1) * pickCount n (k - 1)) := by ring
        rw [this, ha, hb]
        have hk2 : n + 1 - k + k = n + 1 := by omega
        calc (n + 1 - k) * n.factorial + k * n.factorial
            = (n + 1 - k + k) * n.factorial := by ring
          _ = (n + 1) * n.factorial := by rw [hk2]
      · have hkeq : k = n + 1 := by omega
        subst hkeq
        simp only [Nat.sub_self, Nat.zero_mul, Nat.zero_add, Nat.add_sub_cancel] at hb ⊢
        rw [hb]

/-- The number of choice sequences that make the reserve handler select a free seat
of the rank is `pickCount` of the rank's size and its number of free seats. -/
theorem selectCount_eq (S : List Reservation) (e : Int) (rank : String) (s : Int)
    (hv : validateRank rank = true)
    (hs1 : (getSheetRange rank).1 ≤ s) (hs2 : s < (getSheetRange rank).2)
    (hsf : seatFree S e s) :
    selectCount S e rank s =
      pickCount (sheetConfig rank).Count.toNat (freeSeatCount S e rank) ∧
    1 ≤ freeSeatCount S e rank ∧ freeSeatCount S e rank ≤ (sheetConfig rank).Count.toNat := by
  obtain ⟨hb1, hb2, hb3⟩ := validRank_bounds hv
  have hrange : getSheetRange rank =
      ((sheetConfig rank).ID, (sheetConfig rank).ID + (sheetConfig rank).Count) := rfl
  rw [hrange] at hs1 hs2
  simp only [] at hs1 hs2
  have hcnt : ((sheetConfig rank).ID + (sheetConfig rank).Count - (sheetConfig rank).ID).toNat =
      (sheetConfig rank).Count.toNat := by
    congr 1; omega
  have hlen : (initIdxes (sheetConfig rank).ID
      ((sheetConfig rank).ID + (sheetConfig rank).Count)).length =
      (sheetConfig rank).Count.toNat := by
    rw [initIdxes_length, hcnt]
  have hnd := initIdxes_nodup (sheetConfig rank).ID ((sheetConfig rank).ID + (sheetConfig rank).Count)
  have hmem : s ∈ initIdxes (sheetConfig rank).ID
      ((sheetConfig rank).ID + (sheetConfig rank).Count) := (mem_initIdxes _ _ _).2 ⟨hs1, hs2⟩
  -- the table's "free" test agrees with `seatFree` on the ids of the range
  have hfree : ∀ id ∈ initIdxes (sheetConfig rank).ID
      ((sheetConfig rank).ID + (sheetConfig rank).Count),
      (!(markUsed (sheetConfig rank).ID ((sheetConfig rank).ID + (sheetConfig rank).Count)
          (List.replicate ((sheetConfig rank).Count.toNat) false) (activeFor S e)).getD
            (id - (sheetConfig rank).ID).toNat false) = true ↔
        decide (seatFree S e id) = true := by
    intro id hid
    rw [mem_initIdxes] at hid
    have hu := used_iff S e _ _ id hid.1 hid.2
    rw [hcnt] at hu
    rw [decide_eq_true_eq, Bool.not_eq_true', ← Bool.not_eq_true, hu]
    unfold seatFree
    constructor
    · intro h r hr
      by_contra hact
      exact h ⟨r, hr, by simpa using hact⟩
    · rintro h ⟨r, hr, hact⟩
      rw [h r hr] at hact; cases hact
  have hk : freeSeatCount S e rank =
      (initIdxes (sheetConfig rank).ID ((sheetConfig rank).ID + (sheetConfig rank).Count)).countP
        (fun id => !(markUsed (sheetConfig rank).ID
          ((sheetConfig rank).ID + (sheetConfig rank).Count)
          (List.replicate ((sheetConfig rank).Count.toNat) false) (activeFor S e)).getD
            (id - (sheetConfig rank).ID).toNat false) := by
    unfold freeSeatCount
    rw [hrange]
    exact (List.countP_congr hfree).symm
  have hfs := (hfree s hmem).2 (by simpa using hsf)
  refine ⟨?_, ?_, ?_⟩
  · rw [hk, ← countP_select _ _ _ hlen hnd s hmem hfs]
    unfold selectCount
    apply List.countP_congr
    intro c _
    rw [allocate_eq]
    cases hfind : (shuffleLoop ((sheetConfig rank).Count.toNat) c
        (initIdxes (sheetConfig rank).ID ((sheetConfig rank).ID + (sheetConfig rank).Count))).find?
        fun id => !(markUsed (sheetConfig rank).ID
          ((sheetConfig rank).ID + (sheetConfig rank).Count)
          (List.replicate ((sheetConfig rank).Count.toNat) false) (activeFor S e)).getD
            (id - (sheetConfig rank).ID).toNat false with
    | none =>
      have : (-1 : Int) ≠ s := by omega
      simp [this]
    | some t => simp
  · rw [hk]
    exact List.countP_pos_iff.2 ⟨s, hmem, hfs⟩
  · rw [hk, ← hlen]
    exact List.countP_le_length _

/-- C5. Uniform fairness of seat selection: for every ledger, event and valid rank,
counting over all sequences of shuffle choices (`j_i` in `[0, i]` for `i = n - 1`
down to `0`), any two free seats of the rank are selected by the same number of
choice sequences; that number is positive, and the number of free seats times it is
`n!`, the number of all choice sequences. So every free seat is equally likely and
no seat is favoured by its id. -/
theorem uniform_seat_selection (S : List Reservation) (e : Int) (rank : String) (s t : Int)
    (hv : validateRank rank = true)
    (hs1 : (getSheetRange rank).1 ≤ s) (hs2 : s < (getSheetRange rank).2)
    (hsf : seatFree S e s)
    (ht1 : (getSheetRange rank).1 ≤ t) (ht2 : t < (getSheetRange rank).2)
    (htf : seatFree S e t) :
    selectCount S e rank s = selectCount S e rank t ∧
    0 < selectCount S e rank s ∧
    freeSeatCount S e rank * selectCount S e rank s =
      (choiceSeqs (sheetConfig rank).Count.toNat).length := by
  obtain ⟨h1, hk1, hk2⟩ := selectCount_eq S e rank s hv hs1 hs2 hsf
  obtain ⟨h2, _, _⟩ := selectCount_eq S e rank t hv ht1 ht2 htf
  rw [h1, h2, length_choiceSeqs]
  exact ⟨rfl, pickCount_pos _ _ hk1 hk2, pickCount_mul _ _ hk1 hk2⟩

/-- C5 (witness). Rank S of event 1 with seat 3 held: seats 1 and 50 are free. -/
theorem uniform_seat_selection_witness :
    validateRank "S" = true ∧
    ((getSheetRange "S").1 ≤ 1 ∧ (1 : Int) < (getSheetRange "S").2 ∧ seatFree exLedger 1 1) ∧
    ((getSheetRange "S").1 ≤ 50 ∧ (50 : Int) < (getSheetRange "S").2 ∧ seatFree exLedger 1 50) ∧
    selectCount exLedger 1 "S" 1 = selectCount exLedger 1 "S" 50 ∧
    0 < selectCount exLedger 1 "S" 1 ∧
    freeSeatCount exLedger 1 "S" * selectCount exLedger 1 "S" 1 =
      (choiceSeqs (sheetConfig "S").Count.toNat).length :=
  ⟨by decide, ⟨by decide, by decide, by decide⟩, ⟨by decide, by decide, by decide⟩,
    uniform_seat_selection exLedger 1 "S" 1 50 (by decide) (by decide) (by decide) (by decide)
      (by decide) (by decide) (by decide)⟩

/-! ### The seat catalog -/

theorem rankSheets_length (rank : String) :
    (rankSheets rank).length = (sheetConfig rank).Count.toNat := by
  simp [rankSheets]

/-- Seat number `j + 1` of a rank. -/
theorem rankSheets_getElem? (rank : String) (j : Nat)
    (hj : j < (sheetConfig rank).Count.toNat) :
    (rankSheets rank)[j]? =
      some { ID := (sheetConfig rank).ID + ((j : Int) + 1) - 1, Rank := rank,
             Num := (j : Int) + 1, Price := (sheetConfig rank).Price } := by
  unfold rankSheets
  simp only [List.getElem?_map, List.getElem?_range hj, Option.map_some']

theorem sheetConfig_S : sheetConfig "S" = ⟨1, 50, 5000⟩ := by decide
theorem sheetConfig_A : sheetConfig "A" = ⟨51, 150, 3000⟩ := by decide
theorem sheetConfig_B : sheetConfig "B" = ⟨201, 300, 1000⟩ := by decide
theorem sheetConfig_C : sheetConfig "C" = ⟨501, 500, 0⟩ := by decide

/-- The seats of a rank occupy the block of `DefaultSheets` that starts at index
`ID - 1`. -/
theorem DefaultSheets_block (rank : String) (hv : validateRank rank = true) (j : Nat)
    (hj : j < (sheetConfig rank).Count.toNat) :
    DefaultSheets[((sheetConfig rank).ID - 1).toNat + j]? = (rankSheets rank)[j]? := by
  have lS : (rankSheets "S").length = 50 := by rw [rankSheets_length, sheetConfig_S]; rfl
  have lA : (rankSheets "A").length = 150 := by rw [rankSheets_length, sheetConfig_A]; rfl
  have lB : (rankSheets "B").length = 300 := by rw [rankSheets_length, sheetConfig_B]; rfl
  unfold DefaultSheets
  rcases sheetConfig?_eq_some (sheetConfig?_of_valid hv) with
    ⟨hr, hc⟩ | ⟨hr, hc⟩ | ⟨hr, hc⟩ | ⟨hr, hc⟩
  · rw [hc] at hj ⊢
    subst hr
    have hj' : j < 50 := hj
    have e0 : ((1 : Int) - 1).toNat + j = j := by simp
    simp only [e0]
    rw [List.getElem?_append_left (by simp [lS, lA, lB]; omega),
      List.getElem?_append_left (by simp [lS, lA]; omega),
      List.getElem?_append_left (by simp [lS]; omega)]
  · rw [hc] at hj ⊢
    subst hr
    have hj' : j < 150 := hj
    have e0 : ((51 : Int) - 1).toNat + j = 50 + j := by simp
    simp only [e0]
    rw [List.getElem?_append_left (by simp [lS, lA, lB]; omega),
      List.getElem?_append_left (by simp [lS, lA]; omega),
      List.getElem?_append_right (by simp [lS]), lS]
    simp
  · rw [hc] at hj ⊢
    subst hr
    have hj' : j < 300 := hj
    have e0 : ((201 : Int) - 1).toNat + j = 200 + j := by simp
    simp only [e0]
    rw [List.getElem?_append_left (by simp [lS, lA, lB]; omega),
      List.getElem?_append_right (by simp [lS, lA]), List.length_append, lS, lA]
    simp
  · rw [hc] at hj ⊢
    subst hr
    have e0 : ((501 : Int) - 1).toNat + j = 500 + j := by simp
    simp only [e0]
    rw [List.getElem?_append_right (by simp [lS, lA, lB]), List.length_append,
      List.length_append, lS, lA, lB]
    simp

/-- The lookup of a seat id of a rank's range returns the seat with that id, that
rank, its number within the rank and the rank's price. -/
theorem getSheetFromId_of_rank (rank : String) (hv : validateRank rank = true) (id : Int)
    (h1 : (sheetConfig rank).ID ≤ id)
    (h2 : id < (sheetConfig rank).ID + (sheetConfig rank).Count) :
    getSheetFromId id =
      some { ID := id, Rank := rank, Num := id - (sheetConfig rank).ID + 1,
             Price := (sheetConfig rank).Price } := by
  obtain ⟨hb1, hb2, hb3⟩ := validRank_bounds hv
  have hj : (id - (sheetConfig rank).ID).toNat < (sheetConfig rank).Count.toNat := by omega
  have hidx : (id - 1).toNat =
      ((sheetConfig rank).ID - 1).toNat + (id - (sheetConfig rank).ID).toNat := by omega
  unfold getSheetFromId
  rw [if_neg (by omega), hidx, DefaultSheets_block rank hv _ hj, rankSheets_getElem? rank _ hj]
  have e1 : (((id - (sheetConfig rank).ID).toNat : Nat) : Int) = id - (sheetConfig rank).ID := by
    omega
  rw [e1]
  have e2 : (sheetConfig rank).ID + (id - (sheetConfig rank).ID + 1) - 1 = id := by omega
  rw [e2]

/-- A valid rank is one of the four, with its range. -/
theorem validRank_range {rank : String} (hv : validateRank rank = true) :
    (rank = "S" ∧ getSheetRange rank = (1, 51)) ∨ (rank = "A" ∧ getSheetRange rank = (51, 201)) ∨
    (rank = "B" ∧ getSheetRange rank = (201, 501)) ∨
    (rank = "C" ∧ getSheetRange rank = (501, 1001)) := by
  rcases sheetConfig?_eq_some (sheetConfig?_of_valid hv) with
    ⟨hr, _⟩ | ⟨hr, _⟩ | ⟨hr, _⟩ | ⟨hr, _⟩
  · left; subst hr; exact ⟨rfl, by decide⟩
  · right; left; subst hr; exact ⟨rfl, by decide⟩
  · right; right; left; subst hr; exact ⟨rfl, by decide⟩
  · right; right; right; subst hr; exact ⟨rfl, by decide⟩

/-- C13. Seat catalog lookup: the ranges `[ID, ID + Count)` of the four ranks cover
exactly `[1, 1000]` and no id lies in the ranges of two ranks; the seat array built
at boot has 1000 entries; for every id of a rank's range `getSheetFromId(id)` returns
the seat with `ID == id`, that rank, `Num == id - ID(rank) + 1` and the rank's price
delta; and for every id outside `[1, 1000]` the lookup returns no seat (the index
`id - 1` is outside the slice, which stops the Go lookup with an index-out-of-range
panic). -/
theorem seat_catalog_lookup :
    (∀ id : Int, (1 ≤ id ∧ id ≤ 1000) ↔
      ∃ rank, validateRank rank = true ∧
        (getSheetRange rank).1 ≤ id ∧ id < (getSheetRange rank).2) ∧
    (∀ (r1 r2 : String) (id : Int), validateRank r1 = true → validateRank r2 = true →
      (getSheetRange r1).1 ≤ id → id < (getSheetRange r1).2 →
      (getSheetRange r2).1 ≤ id → id < (getSheetRange r2).2 → r1 = r2) ∧
    DefaultSheets.length = 1000 ∧
    (∀ (rank : String) (id : Int), validateRank rank = true →
      (getSheetRange rank).1 ≤ id → id < (getSheetRange rank).2 →
      getSheetFromId id =
        some { ID := id, Rank := rank, Num := id - (sheetConfig rank).ID + 1,
               Price := (sheetConfig rank).Price }) ∧
    (∀ id : Int, id < 1 ∨ 1000 < id → getSheetFromId id = none) := by
  refine ⟨?_, ?_, ?_, ?_, ?_⟩
  · intro id
    constructor
    · intro h
      by_cases h1 : id < 51
      · exact ⟨"S", by decide, by
          have : getSheetRange "S" = (1, 51) := by decide
          rw [this]; exact ⟨h.1, h1⟩⟩
      by_cases h2 : id < 201
      · exact ⟨"A", by decide, by
          have : getSheetRange "A" = (51, 201) := by decide
          rw [this]; exact ⟨by simp only []; omega, h2⟩⟩
      by_cases h3 : id < 501
      · exact ⟨"B", by decide, by
          have : getSheetRange "B" = (201, 501) := by decide
          rw [this]; exact ⟨by simp only []; omega, h3⟩⟩
      · exact ⟨"C", by decide, by
          have : getSheetRange "C" = (501, 1001) := by decide
          rw [this]; exact ⟨by simp only []; omega, by simp only []; omega⟩⟩
    · rintro ⟨rank, hv, h1, h2⟩
      rcases validRank_range hv with ⟨_, hr⟩ | ⟨_, hr⟩ | ⟨_, hr⟩ | ⟨_, hr⟩ <;>
        rw [hr] at h1 h2 <;> simp only [] at h1 h2 <;> omega
  · intro r1 r2 id hv1 hv2 a1 a2 b1 b2
    rcases validRank_range hv1 with ⟨e1, hr1⟩ | ⟨e1, hr1⟩ | ⟨e1, hr1⟩ | ⟨e1, hr1⟩ <;>
      rcases validRank_range hv2 with ⟨e2, hr2⟩ | ⟨e2, hr2⟩ | ⟨e2, hr2⟩ | ⟨e2, hr2⟩ <;>
      rw [hr1] at a1 a2 <;> rw [hr2] at b1 b2 <;> simp only [] at a1 a2 b1 b2 <;>
      first
        | omega
        | (rw [e1, e2])
  · have := congrArg List.length DefaultSheets_ids
    simpa using this
  · intro rank id hv h1 h2
    exact getSheetFromId_of_rank rank hv id h1 h2
  · intro id h
    exact getSheetFromId_none id h

/-- C13 (witness). Seat 51 is seat 1 of rank A; seat 1001 is not in the catalog. -/
theorem seat_catalog_lookup_witness :
    validateRank "A" = true ∧ (getSheetRange "A").1 ≤ 51 ∧ (51 : Int) < (getSheetRange "A").2 ∧
    getSheetFromId 51 =
      some { ID := 51, Rank := "A", Num := 51 - (sheetConfig "A").ID + 1,
             Price := (sheetConfig "A").Price } ∧
    getSheetFromId 1001 = none :=
  ⟨by decide, by decide, by decide,
    seat_catalog_lookup.2.2.2.1 "A" 51 (by decide) (by decide) (by decide),
    seat_catalog_lookup.2.2.2.2 1001 (by decide)⟩

/-- C14. Event lookup: for every event store with dense ids (`store[i].ID == i + 1`),
every ledger, viewer and id, `getEvent(id, viewer)` fails with not-found
(`sql.ErrNoRows`) if and only if `id <= 0` or `id > len(eventStore)`; otherwise it
returns the projection of the event stored at index `id - 1`, whose `ID`, `Title`,
`PublicFg`, `ClosedFg` and `Price` are the stored event's and whose `ID` is `id`. -/
theorem event_lookup (ES : List Event) (S : List Reservation) (id viewer : Int)
    (hd : denseEventIds ES) :
    (getEvent ES S id viewer = none ↔ id ≤ 0 ∨ (ES.length : Int) < id) ∧
    (¬ (id ≤ 0 ∨ (ES.length : Int) < id) →
      ∃ e : Event, ES[(id - 1).toNat]? = some e ∧
        getEvent ES S id viewer = some (fillEventOtherFields S e viewer) ∧
        (fillEventOtherFields S e viewer).ID = e.ID ∧
        (fillEventOtherFields S e viewer).Title = e.Title ∧
        (fillEventOtherFields S e viewer).PublicFg = e.PublicFg ∧
        (fillEventOtherFields S e viewer).ClosedFg = e.ClosedFg ∧
        (fillEventOtherFields S e viewer).Price = e.Price ∧
        (fillEventOtherFields S e viewer).ID = id) := by
  have hfound : ¬ (id ≤ 0 ∨ (ES.length : Int) < id) →
      ∃ e : Event, ES[(id - 1).toNat]? = some e ∧
        getEvent ES S id viewer = some (fillEventOtherFields S e viewer) ∧ e.ID = id := by
    intro h
    have hlt : (id - 1).toNat < ES.length := by omega
    refine ⟨ES[(id - 1).toNat], List.getElem?_eq_getElem hlt, ?_, ?_⟩
    · exact getEvent_of_stored ES S id viewer _ (by omega) (List.getElem?_eq_getElem hlt)
    · rw [hd _ hlt]; omega
  constructor
  · constructor
    · intro hnone
      by_contra h
      obtain ⟨e, _, hg, _⟩ := hfound h
      rw [hg] at hnone
      exact Option.noConfusion hnone
    · intro h
      unfold getEvent
      rw [if_pos (by omega)]
  · intro h
    obtain ⟨e, he, hg, hid⟩ := hfound h
    have hf := fillEventOtherFields_fields S e viewer
    exact ⟨e, he, hg, hf.1, hf.2.1, hf.2.2.1, hf.2.2.2.1, hf.2.2.2.2.1, hf.1.trans hid⟩

/-- C14 (witness). A one-event store: id 1 is found, id 2 is not. -/
theorem event_lookup_witness :
    denseEventIds [exEvent] ∧
    (getEvent [exEvent] exLedger 2 7 = none ↔
      (2 : Int) ≤ 0 ∨ (([exEvent] : List Event).length : Int) < 2) ∧
    ∃ e : Event, [exEvent][((1 : Int) - 1).toNat]? = some e ∧
      getEvent [exEvent] exLedger 1 7 = some (fillEventOtherFields exLedger e 7) ∧
      (fillEventOtherFields exLedger e 7).ID = e.ID ∧
      (fillEventOtherFields exLedger e 7).Title = e.Title ∧
      (fillEventOtherFields exLedger e 7).PublicFg = e.PublicFg ∧
      (fillEventOtherFields exLedger e 7).ClosedFg = e.ClosedFg ∧
      (fillEventOtherFields exLedger e 7).Price = e.Price ∧
      (fillEventOtherFields exLedger e 7).ID = 1 :=
  ⟨by unfold denseEventIds; decide,
    (event_lookup [exEvent] exLedger 2 7 (by unfold denseEventIds; decide)).1,
    (event_lookup [exEvent] exLedger 1 7 (by unfold denseEventIds; decide)).2 (by decide)⟩

/-! ### The projection: the seat lists -/

/-- What the walk appends for a seat is `seatView`, under the seat's rank. -/
theorem fillSheet_rankDetail (m : List (Int × Reservation)) (u : Int) (ev : Event) (s : Sheet)
    (k : String) (hk : (ev.Sheets.lookup k).isSome = true) :
    rankDetail (fillSheet m u ev s) k =
      rankDetail ev k ++ (if s.Rank = k then [seatView m u s] else []) ∧
    rankTotal (fillSheet m u ev s) k = rankTotal ev k := by
  obtain ⟨ss, hss⟩ := Option.isSome_iff_exists.1 hk
  unfold fillSheet rankDetail rankTotal seatView
  cases hl : List.lookup s.ID m with
  | none =>
    simp only [lookup_sheetsModify, hss]
    by_cases h : k = s.Rank
    · simp [h]
    · have h2 : ¬ s.Rank = k := fun h3 => h h3.symm
      simp [h, h2]
  | some r =>
    simp only [lookup_sheetsModify, hss]
    by_cases h : k = s.Rank
    · simp [h]
    · have h2 : ¬ s.Rank = k := fun h3 => h h3.symm
      simp [h, h2]

/-- The walk over a list of seats appends, to a rank's `Detail`, the views of the
seats of that rank in the order of the list, and leaves `Total` alone. -/
theorem foldl_fillSheet_rankDetail (m : List (Int × Reservation)) (u : Int) (l : List Sheet)
    (ev : Event) (k : String) (hk : (ev.Sheets.lookup k).isSome = true) :
    rankDetail (l.foldl (fillSheet m u) ev) k =
      rankDetail ev k ++ (l.filter fun s => decide (s.Rank = k)).map (seatView m u) ∧
    rankTotal (l.foldl (fillSheet m u) ev) k = rankTotal ev k := by
  induction l generalizing ev with
  | nil => simp
  | cons s l ih =>
    obtain ⟨h1, _⟩ := fillSheet_rankRemains m u ev s k hk
    obtain ⟨h2, h3⟩ := fillSheet_rankDetail m u ev s k hk
    obtain ⟨h4, h5⟩ := ih (fillSheet m u ev s) h1
    simp only [List.foldl_cons]
    rw [h4, h5, h2, h3]
    refine ⟨?_, rfl⟩
    by_cases hr : s.Rank = k
    · simp [List.filter_cons, hr]
    · simp [List.filter_cons, hr]

/-- The event as the walk receives it: every rank has an empty `Detail` and its
seat count as `Total`. -/
theorem initRank_start_detail (e : Event) (k : String) (hv : validateRank k = true) :
    rankDetail (SheetConfigs.foldl initRank
        { e with Sheets := [("S", {}), ("A", {}), ("B", {}), ("C", {})],
                 Total := 1000, Remains := 0 }) k = [] ∧
    rankTotal (SheetConfigs.foldl initRank
        { e with Sheets := [("S", {}), ("A", {}), ("B", {}), ("C", {})],
                 Total := 1000, Remains := 0 }) k = (sheetConfig k).Count := by
  rcases sheetConfig?_eq_some (sheetConfig?_of_valid hv) with
    ⟨hr, hc⟩ | ⟨hr, hc⟩ | ⟨hr, hc⟩ | ⟨hr, hc⟩ <;> rw [hc] <;> subst hr <;> exact ⟨rfl, rfl⟩

/-- The seats of the catalog that carry a rank are that rank's block. -/
theorem DefaultSheets_filter_rank (k : String) (hv : validateRank k = true) :
    (DefaultSheets.filter fun s => decide (s.Rank = k)) = rankSheets k := by
  have hself : ∀ r : String, r = k →
      ((rankSheets r).filter fun s => decide (s.Rank = k)) = rankSheets r := by
    intro r hr
    rw [List.filter_eq_self]
    intro s hs
    simp [rankSheets_rank r s hs, hr]
  have hnil : ∀ r : String, r ≠ k →
      ((rankSheets r).filter fun s => decide (s.Rank = k)) = [] := by
    intro r hr
    rw [List.filter_eq_nil_iff]
    intro s hs
    simp [rankSheets_rank r s hs, hr]
  unfold DefaultSheets
  simp only [List.filter_append]
  rcases sheetConfig?_eq_some (sheetConfig?_of_valid hv) with
    ⟨hr, _⟩ | ⟨hr, _⟩ | ⟨hr, _⟩ | ⟨hr, _⟩ <;> subst hr
  · rw [hself "S" rfl, hnil "A" (by decide), hnil "B" (by decide), hnil "C" (by decide)]; simp
  · rw [hnil "S" (by decide), hself "A" rfl, hnil "B" (by decide), hnil "C" (by decide)]; simp
  · rw [hnil "S" (by decide), hnil "A" (by decide), hself "B" rfl, hnil "C" (by decide)]; simp
  · rw [hnil "S" (by decide), hnil "A" (by decide), hnil "B" (by decide), hself "C" rfl]; simp

/-- The `Detail` and `Total` of a rank in the projection. -/
theorem fillEventOtherFields_rank (S : List Reservation) (e : Event) (v : Int) (k : String)
    (hv : validateRank k = true) :
    rankDetail (fillEventOtherFields S e v) k =
      (rankSheets k).map (seatView (buildReservationsMap (activeFor S e.ID)) v) ∧
    rankTotal (fillEventOtherFields S e v) k = (sheetConfig k).Count := by
  have hk4 : k = "S" ∨ k = "A" ∨ k = "B" ∨ k = "C" := by
    rcases sheetConfig?_eq_some (sheetConfig?_of_valid hv) with
      ⟨hr, _⟩ | ⟨hr, _⟩ | ⟨hr, _⟩ | ⟨hr, _⟩ <;> simp [hr]
  have h0 := initRank_start e k hk4
  have h1 := initRank_start_detail e k hv
  unfold fillEventOtherFields
  simp only []
  obtain ⟨h2, h3⟩ := foldl_fillSheet_rankDetail (buildReservationsMap (activeFor S e.ID)) v
    DefaultSheets _ k h0.1
  rw [h2, h3, h1.1, h1.2, DefaultSheets_filter_rank k hv]
  exact ⟨rfl, rfl⟩

/-- An entry of the reservation map is one of the reservations, keyed by its seat. -/
theorem lookup_foldl_some (acts : List Reservation) (m : List (Int × Reservation)) (id : Int)
    (r : Reservation)
    (h : (acts.foldl (fun m r => (r.SheetID, r) :: m) m).lookup id = some r) :
    m.lookup id = some r ∨ (r ∈ acts ∧ r.SheetID = id) := by
  induction acts generalizing m with
  | nil => left; exact h
  | cons a acts ih =>
    simp only [List.foldl_cons] at h
    rcases ih _ h with h1 | ⟨h1, h2⟩
    · rw [List.lookup_cons] at h1
      by_cases hid : a.SheetID = id
      · have : (id == a.SheetID) = true := by simp [hid]
        rw [this] at h1
        right
        have hr : a = r := Option.some.inj h1
        exact ⟨hr ▸ List.mem_cons_self _ _, hr ▸ hid⟩
      · have : (id == a.SheetID) = false := by simpa using fun h2 => hid h2.symm
        rw [this] at h1
        left; exact h1
    · right; exact ⟨List.mem_cons_of_mem _ h1, h2⟩

theorem lookup_buildReservationsMap_some (acts : List Reservation) (id : Int) (r : Reservation)
    (h : (buildReservationsMap acts).lookup id = some r) : r ∈ acts ∧ r.SheetID = id := by
  unfold buildReservationsMap at h
  rcases lookup_foldl_some acts [] id r h with h1 | h1
  · simp at h1
  · exact h1

/-- When at most one element passes a test, two elements that pass are the same. -/
theorem eq_of_countP_le_one {α : Type} (p : α → Bool) (l : List α) (a b : α)
    (hc : l.countP p ≤ 1) (ha : a ∈ l) (hb : b ∈ l) (hpa : p a = true) (hpb : p b = true) :
    a = b := by
  induction l with
  | nil => cases ha
  | cons x l ih =>
    rw [List.countP_cons] at hc
    rcases List.mem_cons.1 ha with rfl | ha2
    · rcases List.mem_cons.1 hb with rfl | hb2
      · rfl
      · have : 0 < l.countP p := List.countP_pos_iff.2 ⟨b, hb2, hpb⟩
        simp only [hpa, if_true] at hc
        omega
    · rcases List.mem_cons.1 hb with rfl | hb2
      · have : 0 < l.countP p := List.countP_pos_iff.2 ⟨a, ha2, hpa⟩
        simp only [hpb, if_true] at hc
        omega
      · exact ih (by omega) ha2 hb2

/-- The flags of a seat view, read against the ledger: `Reserved` says an active
reservation of the event holds the seat; `Mine` says the reservation the map holds
for the seat belongs to the viewer. -/
theorem seatView_flags (S : List Reservation) (e v : Int) (s : Sheet) :
    (seatView (buildReservationsMap (activeFor S e)) v s).ID = s.ID ∧
    (seatView (buildReservationsMap (activeFor S e)) v s).Rank = s.Rank ∧
    (seatView (buildReservationsMap (activeFor S e)) v s).Num = s.Num ∧
    (seatView (buildReservationsMap (activeFor S e)) v s).Price = s.Price ∧
    ((seatView (buildReservationsMap (activeFor S e)) v s).Reserved = true ↔
      ∃ r ∈ S, activeOn e s.ID r = true) ∧
    ((seatView (buildReservationsMap (activeFor S e)) v s).Mine = true →
      ∃ r ∈ S, activeOn e s.ID r = true ∧ r.UserID = v) ∧
    (seatOccupancyInv S → ∀ r ∈ S, activeOn e s.ID r = true → r.UserID = v →
      (seatView (buildReservationsMap (activeFor S e)) v s).Mine = true) := by
  have hact : ∀ r, (r ∈ activeFor S e ∧ r.SheetID = s.ID) ↔ (r ∈ S ∧ activeOn e s.ID r = true) := by
    intro r
    rw [mem_activeFor]
    simp only [activeOn, Bool.and_eq_true, decide_eq_true_eq, Option.isNone_iff_eq_none]
    constructor
    · rintro ⟨⟨h1, h2, h3⟩, h4⟩; exact ⟨h1, ⟨h2, h4⟩, h3⟩
    · rintro ⟨h1, ⟨h2, h4⟩, h3⟩; exact ⟨⟨h1, h2, h3⟩, h4⟩
  unfold seatView
  cases hl : List.lookup s.ID (buildReservationsMap (activeFor S e)) with
  | none =>
    refine ⟨rfl, rfl, rfl, rfl, ?_, ?_, ?_⟩
    · simp only [Bool.false_eq_true, false_iff]
      rintro ⟨r, hr, hr2⟩
      exact (lookup_buildReservationsMap_none _ _).1 hl r ((hact r).2 ⟨hr, hr2⟩).1
        ((hact r).2 ⟨hr, hr2⟩).2
    · intro h; cases h
    · intro _ r hr hr2 _
      exact absurd ((hact r).2 ⟨hr, hr2⟩).2
        ((lookup_buildReservationsMap_none _ _).1 hl r ((hact r).2 ⟨hr, hr2⟩).1)
  | some r0 =>
    have h0 := (hact r0).1 (lookup_buildReservationsMap_some _ _ _ hl)
    refine ⟨rfl, rfl, rfl, rfl, ?_, ?_, ?_⟩
    · simp only [true_iff]
      exact ⟨r0, h0.1, h0.2⟩
    · intro hm
      exact ⟨r0, h0.1, h0.2, by simpa using hm⟩
    · intro hinv r hr hr2 hu
      have : r0 = r := eq_of_countP_le_one (activeOn e s.ID) S r0 r (hinv e s.ID) h0.1 hr h0.2 hr2
      simp [this, hu]

/-- The seats of a rank's block: ids of the rank's range, numbered from 1. -/
theorem mem_rankSheets (rank : String) (s : Sheet) (hs : s ∈ rankSheets rank) :
    s.Rank = rank ∧ (sheetConfig rank).ID ≤ s.ID ∧
    s.ID < (sheetConfig rank).ID + (sheetConfig rank).Count ∧
    s.Num = s.ID - (sheetConfig rank).ID + 1 ∧ s.Price = (sheetConfig rank).Price := by
  unfold rankSheets at hs
  simp only [List.mem_map, List.mem_range] at hs
  obtain ⟨k, hk, rfl⟩ := hs
  refine ⟨rfl, ?_, ?_, ?_, rfl⟩
  · show (sheetConfig rank).ID ≤ (sheetConfig rank).ID + ((k : Int) + 1) - 1
    omega
  · show (sheetConfig rank).ID + ((k : Int) + 1) - 1 <
      (sheetConfig rank).ID + (sheetConfig rank).Count
    omega
  · show (k : Int) + 1 = (sheetConfig rank).ID + ((k : Int) + 1) - 1 - (sheetConfig rank).ID + 1
    omega

/-- C11. Projection per-seat flags: for every event, viewer id and ledger that
satisfies the seat-occupancy invariant, the `Detail` lists of the four ranks of
`fillEventOtherFields(e, v)` together hold the seat ids `1 .. 1000`, each exactly
once; every entry stands under its own rank (its id lies in that rank's range and
the catalog seat of that id has the entry's rank, number and price); an entry is
marked `Reserved` if and only if an active reservation for `(e.ID, seat id)` exists,
and `Mine` if and only if such an active reservation has `UserID == v`; with the
no-viewer value `v = -1` and all user ids positive, no entry is marked `Mine`. -/
theorem projection_seat_flags (S : List Reservation) (e : Event) (v : Int)
    (hinv : seatOccupancyInv S) :
    ((rankDetail (fillEventOtherFields S e v) "S" ++ rankDetail (fillEventOtherFields S e v) "A" ++
        rankDetail (fillEventOtherFields S e v) "B" ++
        rankDetail (fillEventOtherFields S e v) "C").map (fun d => d.ID) =
      (List.range 1000).map fun (k : Nat) => (k : Int) + 1) ∧
    (∀ rank : String, validateRank rank = true →
      ∀ d ∈ rankDetail (fillEventOtherFields S e v) rank,
        d.Rank = rank ∧ (getSheetRange rank).1 ≤ d.ID ∧ d.ID < (getSheetRange rank).2 ∧
        getSheetFromId d.ID = some { ID := d.ID, Rank := d.Rank, Num := d.Num, Price := d.Price } ∧
        (d.Reserved = true ↔ ∃ r ∈ S, activeOn e.ID d.ID r = true) ∧
        (d.Mine = true ↔ ∃ r ∈ S, activeOn e.ID d.ID r = true ∧ r.UserID = v)) ∧
    (v = -1 → (∀ r ∈ S, 0 < r.UserID) →
      ∀ rank : String, validateRank rank = true →
        ∀ d ∈ rankDetail (fillEventOtherFields S e v) rank, d.Mine = false) := by
  have hentry : ∀ rank : String, validateRank rank = true →
      ∀ d ∈ rankDetail (fillEventOtherFields S e v) rank,
        d.Rank = rank ∧ (getSheetRange rank).1 ≤ d.ID ∧ d.ID < (getSheetRange rank).2 ∧
        getSheetFromId d.ID = some { ID := d.ID, Rank := d.Rank, Num := d.Num, Price := d.Price } ∧
        (d.Reserved = true ↔ ∃ r ∈ S, activeOn e.ID d.ID r = true) ∧
        (d.Mine = true ↔ ∃ r ∈ S, activeOn e.ID d.ID r = true ∧ r.UserID = v) := by
    intro rank hv d hd
    rw [(fillEventOtherFields_rank S e v rank hv).1, List.mem_map] at hd
    obtain ⟨s, hs, rfl⟩ := hd
    obtain ⟨f1, f2, f3, f4, f5, f6, f7⟩ := seatView_flags S e.ID v s
    obtain ⟨m1, m2, m3, m4, m5⟩ := mem_rankSheets rank s hs
    have hrange : getSheetRange rank =
        ((sheetConfig rank).ID, (sheetConfig rank).ID + (sheetConfig rank).Count) := rfl
    rw [f1, f2, f3, f4, hrange]
    refine ⟨m1, m2, m3, ?_, f5, ⟨f6, ?_⟩⟩
    · rw [getSheetFromId_of_rank rank hv s.ID m2 m3, m1, m4, m5]
    · rintro ⟨r, hr, hr2, hr3⟩
      exact f7 hinv r hr hr2 hr3
  refine ⟨?_, hentry, ?_⟩
  · rw [(fillEventOtherFields_rank S e v "S" (by decide)).1,
      (fillEventOtherFields_rank S e v "A" (by decide)).1,
      (fillEventOtherFields_rank S e v "B" (by decide)).1,
      (fillEventOtherFields_rank S e v "C" (by decide)).1, ← DefaultSheets_ids]
    unfold DefaultSheets
    simp only [List.map_append, List.map_map]
    have hid : ((fun d : Sheet => d.ID) ∘
        seatView (buildReservationsMap (activeFor S e.ID)) v) = fun d => d.ID := by
      funext s
      exact (seatView_flags S e.ID v s).1
    rw [hid]
  · intro hv1 hpos rank hv d hd
    obtain ⟨_, _, _, _, _, hm⟩ := hentry rank hv d hd
    cases hmine : d.Mine with
    | false => rfl
    | true =>
      obtain ⟨r, hr, _, hu⟩ := hm.1 hmine
      have := hpos r hr
      omega

/-- C11 (witness). User 7 looks at event 1, of which they hold seat 3. -/
theorem projection_seat_flags_witness :
    seatOccupancyInv exLedger ∧
    ((rankDetail (fillEventOtherFields exLedger exEvent 7) "S" ++
        rankDetail (fillEventOtherFields exLedger exEvent 7) "A" ++
        rankDetail (fillEventOtherFields exLedger exEvent 7) "B" ++
        rankDetail (fillEventOtherFields exLedger exEvent 7) "C").map (fun d => d.ID) =
      (List.range 1000).map fun (k : Nat) => (k : Int) + 1) :=
  ⟨seatOccupancyInv_of_noDoubleBooking exLedger (by decide),
    (projection_seat_flags exLedger exEvent 7
      (seatOccupancyInv_of_noDoubleBooking exLedger (by decide))).1⟩

/-- The projection of an event that no reservation refers to: every rank has all
its seats remaining and no seat is flagged. -/
theorem fillEventOtherFields_no_reservation (S : List Reservation) (ev : Event) (v : Int)
    (hnone : activeFor S ev.ID = []) :
    (∀ rank : String, validateRank rank = true →
      rankRemains (fillEventOtherFields S ev v) rank = rankTotal (fillEventOtherFields S ev v) rank ∧
      rankTotal (fillEventOtherFields S ev v) rank = (sheetConfig rank).Count ∧
      ∀ d ∈ rankDetail (fillEventOtherFields S ev v) rank, d.Reserved = false ∧ d.Mine = false) ∧
    (fillEventOtherFields S ev v).Remains = 1000 ∧
    (fillEventOtherFields S ev v).Total = 1000 := by
  have hlen : DefaultSheets.length = 1000 := by
    have := congrArg List.length DefaultSheets_ids
    simpa using this
  refine ⟨?_, ?_, (fillEventOtherFields_fields S ev v).2.2.2.2.2⟩
  · intro rank hv
    obtain ⟨hb1, hb2, hb3⟩ := validRank_bounds hv
    have hk4 : rank = "S" ∨ rank = "A" ∨ rank = "B" ∨ rank = "C" := by
      rcases sheetConfig?_eq_some (sheetConfig?_of_valid hv) with
        ⟨hr, _⟩ | ⟨hr, _⟩ | ⟨hr, _⟩ | ⟨hr, _⟩ <;> simp [hr]
    obtain ⟨hd, ht⟩ := fillEventOtherFields_rank S ev v rank hv
    refine ⟨?_, ht, ?_⟩
    · rw [ht]
      have h0 := initRank_start ev rank hk4
      unfold fillEventOtherFields
      simp only []
      rw [foldl_fillSheet_rankRemains _ _ _ _ rank h0.1, h0.2.1, hnone]
      have hcount : (DefaultSheets.countP fun s =>
          decide (s.Rank = rank) && (List.lookup s.ID (buildReservationsMap [])).isNone) =
          (sheetConfig rank).Count.toNat := by
        rw [← rankSheets_length, ← DefaultSheets_filter_rank rank hv, List.countP_eq_length_filter]
        congr 1
        apply List.filter_congr
        intro s _
        simp [buildReservationsMap]
      rw [hcount]
      omega
    · intro d hd2
      rw [hd, hnone, List.mem_map] at hd2
      obtain ⟨s, _, rfl⟩ := hd2
      exact ⟨rfl, rfl⟩
  · unfold fillEventOtherFields
    simp only []
    rw [foldl_fillSheet_Remains, (initRank_start ev "S" (by simp)).2.2, hnone]
    have hcount : (DefaultSheets.countP fun s =>
        (List.lookup s.ID (buildReservationsMap [])).isNone) = 1000 := by
      rw [← hlen, List.countP_eq_length]
      intro s _
      simp [buildReservationsMap]
    rw [hcount]
    rfl

/-- C12. Fresh event is empty: for every event store and every ledger whose
reservations all carry an event id of at most the number of stored events, creating
an event appends it with id `len(eventStore) + 1` and answers with its projection,
and projecting the new event for any viewer reports `Remains == Total` (the rank's
seat count) for each of the four ranks, event `Remains == 1000`, and no seat marked
`Reserved` or `Mine`. -/
theorem fresh_event_is_empty (ES : List Event) (S : List Reservation) (title : String)
    (publicFg : Bool) (price viewer : Int)
    (hS : ∀ r ∈ S, r.EventID ≤ (ES.length : Int)) :
    ∃ ev : Event,
      createEventHandler ES S true title publicFg price =
        (.event (fillEventOtherFields S ev (-1)), ES ++ [ev]) ∧
      ev.ID = (ES.length : Int) + 1 ∧
      (∀ rank : String, validateRank rank = true →
        rankRemains (fillEventOtherFields S ev viewer) rank =
          rankTotal (fillEventOtherFields S ev viewer) rank ∧
        rankTotal (fillEventOtherFields S ev viewer) rank = (sheetConfig rank).Count ∧
        ∀ d ∈ rankDetail (fillEventOtherFields S ev viewer) rank,
          d.Reserved = false ∧ d.Mine = false) ∧
      (fillEventOtherFields S ev viewer).Remains = 1000 ∧
      (fillEventOtherFields S ev viewer).Total = 1000 := by
  refine ⟨⟨(ES.length : Int) + 1, title, publicFg, false, price, 0, 0, []⟩, ?_, rfl, ?_⟩
  · simp [createEventHandler]
  · apply fillEventOtherFields_no_reservation
    show activeFor S ((ES.length : Int) + 1) = []
    unfold activeFor
    rw [List.filter_eq_nil_iff]
    intro r hr
    have := hS r hr
    have hne : r.EventID ≠ (ES.length : Int) + 1 := by omega
    simp [hne]

/-- C12 (witness). One stored event and the one-record ledger of event 1; the new
event gets id 2. -/
theorem fresh_event_is_empty_witness :
    (∀ r ∈ exLedger, r.EventID ≤ (([exEvent] : List Event).length : Int)) ∧
    ∃ ev : Event,
      createEventHandler [exEvent] exLedger true "gala" true 2000 =
        (.event (fillEventOtherFields exLedger ev (-1)), [exEvent] ++ [ev]) ∧
      ev.ID = (([exEvent] : List Event).length : Int) + 1 ∧
      (∀ rank : String, validateRank rank = true →
        rankRemains (fillEventOtherFields exLedger ev 7) rank =
          rankTotal (fillEventOtherFields exLedger ev 7) rank ∧
        rankTotal (fillEventOtherFields exLedger ev 7) rank = (sheetConfig rank).Count ∧
        ∀ d ∈ rankDetail (fillEventOtherFields exLedger ev 7) rank,
          d.Reserved = false ∧ d.Mine = false) ∧
      (fillEventOtherFields exLedger ev 7).Remains = 1000 ∧
      (fillEventOtherFields exLedger ev 7).Total = 1000 :=
  ⟨by decide, fresh_event_is_empty [exEvent] exLedger "gala" true 2000 7 (by decide)⟩

/-- For a number from 1 to the rank's seat count, the seat id the cancel handler
computes lies in the rank's range. -/
theorem cancel_sheetId_in_range (rank : String) (intNum : Int) (h1 : 1 ≤ intNum)
    (h2 : ¬ (sheetConfig rank).Count < intNum) :
    (getSheetRange rank).1 ≤ (sheetConfig rank).ID + intNum - 1 ∧
    (sheetConfig rank).ID + intNum - 1 < (getSheetRange rank).2 := by
  have hrange : getSheetRange rank =
      ((sheetConfig rank).ID, (sheetConfig rank).ID + (sheetConfig rank).Count) := rfl
  rw [hrange]
  constructor
  · show (sheetConfig rank).ID ≤ (sheetConfig rank).ID + intNum - 1
    omega
  · show (sheetConfig rank).ID + intNum - 1 < (sheetConfig rank).ID + (sheetConfig rank).Count
    omega

/-- C16 (the code at num = 0). The cancel request for rank A, num 0 is not
rejected as `invalid_sheet`: `Count < num` is the only check and `150 < 0` is false.
The seat id it computes is `51 + 0 - 1 = 50`, which is outside the range `[51, 201)`
of rank A and is seat 50 of rank S; the request cancels the reservation user 7 holds
on that seat of rank S. -/
theorem cancel_num_zero_leaves_rank :
    validateRank "A" = true ∧
    sheetConfig? "A" = some ⟨51, 150, 3000⟩ ∧
    ¬ ((getSheetRange "A").1 ≤ (51 : Int) + 0 - 1 ∧ (51 : Int) + 0 - 1 < (getSheetRange "A").2) ∧
    getSheetFromId ((51 : Int) + 0 - 1) = some { ID := 50, Rank := "S", Num := 50, Price := 5000 } ∧
    cancelHandler [exEvent] exLedgerS50 (some exUser) (some 1) "A" 0 9 =
      (.noContent, [⟨1, 1, 50, 7, 5, some 9⟩]) := by
  refine ⟨by decide, by decide, by decide, by decide, by decide⟩

/-! ### Concurrent requests -/

/-- The cancel handler is its read-and-decide part followed by its write. -/
theorem cancelHandler_eq_read_write (ES : List Event) (S : List Reservation)
    (sess : Option User) (idParam : Option Int) (rank : String) (intNum : Int) (now : Time) :
    cancelHandler ES S sess idParam rank intNum now =
      match cancelRead ES S sess idParam rank intNum with
      | .error resp => (resp, S)
      | .ok i => (.noContent, cancelWrite S i now) := by
  unfold cancelHandler cancelRead
  cases sess with
  | none => rfl
  | some user =>
    cases idParam with
    | none => rfl
    | some eventID =>
      simp only []
      cases hg : getEvent ES S eventID user.ID with
      | none => rfl
      | some event =>
        simp only []
        by_cases hp : event.PublicFg = true
        · by_cases hv : validateRank rank = true
          · simp only [hp, hv, Bool.not_true, Bool.false_eq_true, if_false]
            cases hsc : sheetConfig? rank with
            | none => rfl
            | some sc =>
              simp only []
              by_cases hcount : sc.Count < intNum
              · simp only [hcount, if_true]
              · simp only [hcount, if_false]
                cases hfi : S.findIdx? (cancelTarget event.ID (sc.ID + intNum - 1)) with
                | none => rfl
                | some i =>
                  simp only []
                  cases hi : S[i]? with
                  | none => rfl
                  | some r =>
                    simp only []
                    by_cases hu : r.UserID = user.ID
                    · simp only [hu, ne_eq, not_true_eq_false, if_false, cancelWrite, hi]
                    · simp only [hu, ne_eq, not_false_eq_true, if_true]
          · have hv2 : validateRank rank = false := by simpa using hv
            simp only [hp, hv2, Bool.not_true, Bool.false_eq_true, if_false, Bool.not_false,
              if_true]
        · have hp2 : event.PublicFg = false := by simpa using hp
          simp only [hp2, Bool.not_false, if_true]

/-- The reserve handler is its guards followed by the critical section: selection,
seat lookup and append. -/
theorem reserveHandler_eq_guard (ES : List Event) (S : List Reservation) (sess : Option User)
    (idParam : Option Int) (rank : String) (rnd : List Nat) (now : Time) :
    reserveHandler ES S sess idParam rank rnd now =
      match reserveGuard ES S sess idParam rank with
      | .error resp => (resp, S)
      | .ok (eventID, userID) =>
        if allocate S eventID rank rnd = -1 then (.resError "sold_out" 409, S)
        else
          match getSheetFromId (allocate S eventID rank rnd) with
          | none => (.panicked, S)
          | some sheet =>
            (.reserved ((S.length : Int) + 1) rank sheet.Num,
              S ++ [⟨(S.length : Int) + 1, eventID, sheet.ID, userID, now, none⟩]) := by
  unfold reserveHandler reserveGuard
  cases sess with
  | none => rfl
  | some user =>
    cases idParam with
    | none => rfl
    | some eventID =>
      simp only []
      cases hg : getEvent ES S eventID user.ID with
      | none => rfl
      | some event =>
        simp only []
        by_cases hp : event.PublicFg = true
        · by_cases hv : validateRank rank = true
          · simp only [hp, hv, Bool.not_true, Bool.false_eq_true, if_false]
          · have hv2 : validateRank rank = false := by simpa using hv
            simp only [hp, hv2, Bool.not_true, Bool.false_eq_true, if_false, Bool.not_false,
              if_true]
        · have hp2 : event.PublicFg = false := by simpa using hp
          simp only [hp2, Bool.not_false, if_true]

/-- A step in a world with a single request. -/
theorem step_single (ES : List Event) (req : Request) (S : List Reservation) (locked : Bool)
    (pc : Pc) :
    step ES [req] { reservationStore := S, mutexLocked := locked, pcs := [pc] } 0 =
      { reservationStore := (stepRequest ES req S locked pc).1
        mutexLocked := (stepRequest ES req S locked pc).2.1
        pcs := [(stepRequest ES req S locked pc).2.2] } := by
  simp [step]

/-- A request that has returned takes no further step. -/
theorem stepRequest_done (ES : List Event) (req : Request) (S : List Reservation)
    (locked : Bool) (resp : Response) :
    stepRequest ES req S locked (.done resp) = (S, locked, .done resp) := by
  cases req <;> rfl

/-- A cancel request that runs alone, from start to return, does what the cancel
handler does. -/
theorem run_cancel_alone (ES : List Event) (S : List Reservation) (sess : Option User)
    (idParam : Option Int) (rank : String) (intNum : Int) (now : Time) :
    run ES [.cancel sess idParam rank intNum now] [0, 0]
        (initWorld S [.cancel sess idParam rank intNum now]) =
      { reservationStore := (cancelHandler ES S sess idParam rank intNum now).2
        mutexLocked := false
        pcs := [.done (cancelHandler ES S sess idParam rank intNum now).1] } := by
  rw [cancelHandler_eq_read_write]
  simp only [run, initWorld, List.foldl_cons, List.foldl_nil, List.map_cons, List.map_nil]
  rw [step_single]
  cases hr : cancelRead ES S sess idParam rank intNum with
  | error resp =>
    have h1 : stepRequest ES (.cancel sess idParam rank intNum now) S false .start =
        (S, false, .done resp) := by
      simp only [stepRequest, hr]
    rw [h1, step_single, stepRequest_done]
  | ok i =>
    have h1 : stepRequest ES (.cancel sess idParam rank intNum now) S false .start =
        (S, false, .target i) := by
      simp only [stepRequest, hr]
    rw [h1, step_single]
    rfl

/-- A reserve request that runs alone, from start to return, does what the reserve
handler does and leaves the mutex unlocked. -/
theorem run_reserve_alone (ES : List Event) (S : List Reservation) (sess : Option User)
    (idParam : Option Int) (rank : String) (rnd : List Nat) (now : Time) :
    run ES [.reserve sess idParam rank rnd now] [0, 0, 0, 0]
        (initWorld S [.reserve sess idParam rank rnd now]) =
      { reservationStore := (reserveHandler ES S sess idParam rank rnd now).2
        mutexLocked := false
        pcs := [.done (reserveHandler ES S sess idParam rank rnd now).1] } := by
  rw [reserveHandler_eq_guard]
  simp only [run, initWorld, List.foldl_cons, List.foldl_nil, List.map_cons, List.map_nil]
  rw [step_single]
  cases hr : reserveGuard ES S sess idParam rank with
  | error resp =>
    have h1 : stepRequest ES (.reserve sess idParam rank rnd now) S false .start =
        (S, false, .done resp) := by
      simp only [stepRequest, hr]
    rw [h1, step_single, stepRequest_done, step_single, stepRequest_done, step_single,
      stepRequest_done]
  | ok p =>
    obtain ⟨eventID, userID⟩ := p
    have h1 : stepRequest ES (.reserve sess idParam rank rnd now) S false .start =
        (S, true, .holding eventID userID) := by
      simp only [stepRequest, hr, Bool.false_eq_true, if_false]
    rw [h1, step_single]
    simp only []
    by_cases ha : allocate S eventID rank rnd = -1
    · have h2 : stepRequest ES (.reserve sess idParam rank rnd now) S true
          (.holding eventID userID) = (S, true, .leaving (.resError "sold_out" 409)) := by
        simp only [stepRequest, ha, if_true]
      have h3 : stepRequest ES (.reserve sess idParam rank rnd now) S true
          (.leaving (.resError "sold_out" 409)) = (S, false, .done (.resError "sold_out" 409)) :=
        rfl
      rw [h2, step_single, h3, step_single, stepRequest_done]
      simp only [ha, if_true]
    · cases hs : getSheetFromId (allocate S eventID rank rnd) with
      | none =>
        have h2 : stepRequest ES (.reserve sess idParam rank rnd now) S true
            (.holding eventID userID) = (S, true, .leaving .panicked) := by
          simp only [stepRequest, ha, if_false, hs]
        have h3 : stepRequest ES (.reserve sess idParam rank rnd now) S true
            (.leaving .panicked) = (S, false, .done .panicked) := rfl
        rw [h2, step_single, h3, step_single, stepRequest_done]
        simp only [ha, if_false]
      | some sheet =>
        have h2 : stepRequest ES (.reserve sess idParam rank rnd now) S true
            (.holding eventID userID) = (S, true, .chosen eventID userID sheet) := by
          simp only [stepRequest, ha, if_false, hs]
        rw [h2, step_single]
        have h3 : stepRequest ES (.reserve sess idParam rank rnd now) S true
            (.chosen eventID userID sheet) =
            (S ++ [⟨(S.length : Int) + 1, eventID, sheet.ID, userID, now, none⟩], true,
              .leaving (.reserved ((S.length : Int) + 1) rank sheet.Num)) := rfl
        rw [h3, step_single]
        simp only [ha, if_false]
        rfl

/-- No step of a cancel request looks at `reservationMutex` or changes it: the
ledger and the position it reaches are the same whether the mutex is locked or
not, and the mutex is left as it was. -/
theorem cancel_ignores_mutex (ES : List Event) (S : List Reservation) (sess : Option User)
    (idParam : Option Int) (rank : String) (intNum : Int) (now : Time) (locked : Bool) (pc : Pc) :
    (stepRequest ES (.cancel sess idParam rank intNum now) S locked pc).2.1 = locked ∧
    (stepRequest ES (.cancel sess idParam rank intNum now) S locked pc).1 =
      (stepRequest ES (.cancel sess idParam rank intNum now) S (!locked) pc).1 ∧
    (stepRequest ES (.cancel sess idParam rank intNum now) S locked pc).2.2 =
      (stepRequest ES (.cancel sess idParam rank intNum now) S (!locked) pc).2.2 := by
  cases pc with
  | start =>
    simp only [stepRequest]
    cases cancelRead ES S sess idParam rank intNum <;> exact ⟨rfl, rfl, rfl⟩
  | waiting _ _ => exact ⟨rfl, rfl, rfl⟩
  | holding _ _ => exact ⟨rfl, rfl, rfl⟩
  | chosen _ _ _ => exact ⟨rfl, rfl, rfl⟩
  | leaving _ => exact ⟨rfl, rfl, rfl⟩
  | target _ => exact ⟨rfl, rfl, rfl⟩
  | done _ => exact ⟨rfl, rfl, rfl⟩

/-- C15 (two concurrent cancels). User 7 holds seat 3 of rank S of event 1 and
sends the cancel request twice, concurrently. The cancel handler takes no lock, so
both requests may read the ledger before either writes: after the two reads both
point at the same active record and the mutex is unlocked; after the two writes both
have answered 204 and the record carries the second timestamp, the first one
overwritten. Run one after the other, the second request is rejected with
`not_reserved`. In the reserve handler the second request waits while the first
holds `reservationMutex`. -/
theorem concurrent_cancels_both_succeed :
    run [exEvent] exTwoCancels [0, 1] (initWorld exLedger exTwoCancels) =
      { reservationStore := exLedger, mutexLocked := false,
        pcs := [.target 0, .target 0] } ∧
    run [exEvent] exTwoCancels [0, 1, 0, 1] (initWorld exLedger exTwoCancels) =
      { reservationStore := [⟨1, 1, 3, 7, 5, some 10⟩], mutexLocked := false,
        pcs := [.done .noContent, .done .noContent] } ∧
    run [exEvent] exTwoCancels [0, 0, 1, 1] (initWorld exLedger exTwoCancels) =
      { reservationStore := [⟨1, 1, 3, 7, 5, some 9⟩], mutexLocked := false,
        pcs := [.done .noContent, .done (.resError "not_reserved" 400)] } ∧
    run [exEvent] exTwoReserves [0, 1, 1] (initWorld exLedger exTwoReserves) =
      { reservationStore := exLedger, mutexLocked := true,
        pcs := [.holding 1 7, .waiting 1 8] } := by
  refine ⟨by decide, by decide, by decide, by decide⟩

/-- For an unknown rank the range is empty and the selection finds nothing. -/
theorem allocate_invalid_rank (S : List Reservation) (e : Int) (rank : String) (rnd : List Nat)
    (hv : validateRank rank = false) : allocate S e rank rnd = -1 := by
  have hsc : sheetConfig rank = ⟨0, 0, 0⟩ := by
    unfold validateRank at hv
    unfold sheetConfig
    cases h : sheetConfig? rank with
    | none => rfl
    | some sc => rw [h] at hv; cases hv
  rw [allocate_eq, hsc]
  rfl

/-- Stamping `CanceledAt` on a record keeps every free seat free. -/
theorem seatFree_cancelWrite (S : List Reservation) (i : Nat) (t : Time) (e s : Int)
    (h : seatFree S e s) : seatFree (cancelWrite S i t) e s := by
  unfold cancelWrite
  cases hi : S[i]? with
  | none => exact h
  | some r =>
    intro x hx
    rcases List.mem_or_eq_of_mem_set hx with hx | hx
    · exact h x hx
    · rw [hx]; exact activeOn_canceled e s r t

theorem seatOccupancyInv_cancelWrite (S : List Reservation) (i : Nat) (t : Time)
    (h : seatOccupancyInv S) : seatOccupancyInv (cancelWrite S i t) := by
  unfold cancelWrite
  cases hi : S[i]? with
  | none => exact h
  | some r => exact seatOccupancyInv_set_canceled S i r t hi h

theorem denseIds_cancelWrite (S : List Reservation) (i : Nat) (t : Time)
    (h : denseIds S) : denseIds (cancelWrite S i t) := by
  unfold cancelWrite
  cases hi : S[i]? with
  | none => exact h
  | some r => exact denseIds_set S i r _ h hi rfl

/-- The shapes a step of a request can take. -/
theorem stepRequest_shape (ES : List Event) (req : Request) (S : List Reservation) (l : Bool)
    (pc : Pc)
    (hv : ∀ sess idParam rank rnd now, req = .reserve sess idParam rank rnd now →
      validRand (sheetConfig rank).Count.toNat rnd = true) :
    ∃ (S2 : List Reservation) (l2 : Bool) (pc2 : Pc),
      stepRequest ES req S l pc = (S2, l2, pc2) ∧
      ((S2 = S ∧ l2 = l ∧ (pc2 = pc ∨ (pc2.critical = false ∧ pc.critical = false))) ∨
       (S2 = S ∧ l = false ∧ l2 = true ∧ pc.critical = false ∧ ∃ e u, pc2 = .holding e u) ∨
       (S2 = S ∧ l2 = l ∧ ∃ e u, pc = .holding e u ∧
          ((∃ resp, pc2 = .leaving resp) ∨
            ∃ sheet, pc2 = .chosen e u sheet ∧ seatFree S e sheet.ID)) ∨
       (l2 = l ∧ ∃ e u sheet now resp, pc = .chosen e u sheet ∧ pc2 = .leaving resp ∧
          S2 = S ++ [⟨(S.length : Int) + 1, e, sheet.ID, u, now, none⟩]) ∨
       (S2 = S ∧ l2 = false ∧ ∃ resp, pc = .leaving resp ∧ pc2 = .done resp) ∨
       (l2 = l ∧ pc.critical = false ∧ pc2.critical = false ∧
          ∃ i now, S2 = cancelWrite S i now)) := by
  cases req with
  | reserve sess idParam rank rnd now =>
    have hr := hv sess idParam rank rnd now rfl
    cases pc with
    | start =>
      simp only [stepRequest]
      cases reserveGuard ES S sess idParam rank with
      | error resp => exact ⟨_, _, _, rfl, Or.inl ⟨rfl, rfl, Or.inr ⟨rfl, rfl⟩⟩⟩
      | ok p =>
        obtain ⟨e, u⟩ := p
        cases l with
        | true => exact ⟨_, _, _, rfl, Or.inl ⟨rfl, rfl, Or.inr ⟨rfl, rfl⟩⟩⟩
        | false => exact ⟨_, _, _, rfl, Or.inr (Or.inl ⟨rfl, rfl, rfl, rfl, e, u, rfl⟩)⟩
    | waiting e u =>
      cases l with
      | true => exact ⟨_, _, _, rfl, Or.inl ⟨rfl, rfl, Or.inl rfl⟩⟩
      | false => exact ⟨_, _, _, rfl, Or.inr (Or.inl ⟨rfl, rfl, rfl, rfl, e, u, rfl⟩)⟩
    | holding e u =>
      simp only [stepRequest]
      by_cases ha : allocate S e rank rnd = -1
      · rw [if_pos ha]
        exact ⟨_, _, _, rfl, Or.inr (Or.inr (Or.inl ⟨rfl, rfl, e, u, rfl, Or.inl ⟨_, rfl⟩⟩))⟩
      · rw [if_neg ha]
        cases hs : getSheetFromId (allocate S e rank rnd) with
        | none =>
          exact ⟨_, _, _, rfl, Or.inr (Or.inr (Or.inl ⟨rfl, rfl, e, u, rfl, Or.inl ⟨_, rfl⟩⟩))⟩
        | some sheet =>
          have hvr : validateRank rank = true := by
            cases hvr : validateRank rank with
            | true => rfl
            | false => exact absurd (allocate_invalid_rank S e rank rnd hvr) ha
          obtain ⟨_, _, _, hfree⟩ := allocated_sheet S e rank rnd sheet hvr hr ha hs
          exact ⟨_, _, _, rfl,
            Or.inr (Or.inr (Or.inl ⟨rfl, rfl, e, u, rfl, Or.inr ⟨sheet, rfl, hfree⟩⟩))⟩
    | chosen e u sheet =>
      exact ⟨_, _, _, rfl,
        Or.inr (Or.inr (Or.inr (Or.inl ⟨rfl, e, u, sheet, now, _, rfl, rfl, rfl⟩)))⟩
    | leaving resp =>
      exact ⟨_, _, _, rfl, Or.inr (Or.inr (Or.inr (Or.inr (Or.inl ⟨rfl, rfl, resp, rfl, rfl⟩))))⟩
    | target i => exact ⟨_, _, _, rfl, Or.inl ⟨rfl, rfl, Or.inl rfl⟩⟩
    | done resp => exact ⟨_, _, _, rfl, Or.inl ⟨rfl, rfl, Or.inl rfl⟩⟩
  | cancel sess idParam rank intNum now =>
    cases pc with
    | start =>
      simp only [stepRequest]
      cases cancelRead ES S sess idParam rank intNum with
      | error resp => exact ⟨_, _, _, rfl, Or.inl ⟨rfl, rfl, Or.inr ⟨rfl, rfl⟩⟩⟩
      | ok i => exact ⟨_, _, _, rfl, Or.inl ⟨rfl, rfl, Or.inr ⟨rfl, rfl⟩⟩⟩
    | target i =>
      exact ⟨_, _, _, rfl,
        Or.inr (Or.inr (Or.inr (Or.inr (Or.inr ⟨rfl, rfl, rfl, i, now, rfl⟩))))⟩
    | waiting e u => exact ⟨_, _, _, rfl, Or.inl ⟨rfl, rfl, Or.inl rfl⟩⟩
    | holding e u => exact ⟨_, _, _, rfl, Or.inl ⟨rfl, rfl, Or.inl rfl⟩⟩
    | chosen e u sheet => exact ⟨_, _, _, rfl, Or.inl ⟨rfl, rfl, Or.inl rfl⟩⟩
    | leaving resp => exact ⟨_, _, _, rfl, Or.inl ⟨rfl, rfl, Or.inl rfl⟩⟩
    | done resp => exact ⟨_, _, _, rfl, Or.inl ⟨rfl, rfl, Or.inl rfl⟩⟩

/-- Replacing the position of request `t` and the shared state keeps the world safe,
given what the step has to guarantee. -/
theorem safe_set (w : World) (t : Nat) (pc pc2 : Pc) (S2 : List Reservation) (l2 : Bool)
    (hs : Safe w) (hpc : w.pcs[t]? = some pc)
    (hinv : seatOccupancyInv S2) (hdense : denseIds S2)
    (hfo : ∀ (u : Nat) (e uu : Int) (sheet : Sheet), u ≠ t →
      w.pcs[u]? = some (.chosen e uu sheet) → seatFree S2 e sheet.ID)
    (hfs : ∀ (e uu : Int) (sheet : Sheet), pc2 = .chosen e uu sheet → seatFree S2 e sheet.ID)
    (hcrit : pc2.critical = true → l2 = true ∧ (pc.critical = true ∨ w.mutexLocked = false))
    (hlock : ∀ (u : Nat) (pu : Pc), u ≠ t → w.pcs[u]? = some pu → pu.critical = true →
      l2 = true) :
    Safe { reservationStore := S2, mutexLocked := l2, pcs := w.pcs.set t pc2 } := by
  have hlt : t < w.pcs.length := by
    rcases Nat.lt_or_ge t w.pcs.length with h | h
    · exact h
    · rw [List.getElem?_eq_none h] at hpc; cases hpc
  have hself : (w.pcs.set t pc2)[t]? = some pc2 := List.getElem?_set_self hlt
  have hother : ∀ u, u ≠ t → (w.pcs.set t pc2)[u]? = w.pcs[u]? := fun u hu =>
    List.getElem?_set_ne (Ne.symm hu)
  refine ⟨hinv, hdense, ?_, ?_, ?_⟩
  · intro a b pa pb ha hb hca hcb
    simp only [] at ha hb
    by_cases hat : a = t
    · by_cases hbt : b = t
      · rw [hat, hbt]
      · exfalso
        rw [hat, hself] at ha
        rw [hother b hbt] at hb
        have hpa : pc2 = pa := Option.some.inj ha
        rw [← hpa] at hca
        rcases (hcrit hca).2 with h | h
        · exact hbt (hs.excl t b pc pb hpc hb h hcb).symm
        · have := hs.held b pb hb hcb
          rw [h] at this; cases this
    · by_cases hbt : b = t
      · exfalso
        rw [hbt, hself] at hb
        rw [hother a hat] at ha
        have hpb : pc2 = pb := Option.some.inj hb
        rw [← hpb] at hcb
        rcases (hcrit hcb).2 with h | h
        · exact hat (hs.excl t a pc pa hpc ha h hca).symm
        · have := hs.held a pa ha hca
          rw [h] at this; cases this
      · rw [hother a hat] at ha
        rw [hother b hbt] at hb
        exact hs.excl a b pa pb ha hb hca hcb
  · intro a pa ha hca
    simp only [] at ha ⊢
    by_cases hat : a = t
    · rw [hat, hself] at ha
      have hpa : pc2 = pa := Option.some.inj ha
      rw [← hpa] at hca
      exact (hcrit hca).1
    · rw [hother a hat] at ha
      exact hlock a pa hat ha hca
  · intro a e uu sheet ha
    simp only [] at ha ⊢
    by_cases hat : a = t
    · rw [hat, hself] at ha
      exact hfs e uu sheet (Option.some.inj ha)
    · rw [hother a hat] at ha
      exact hfo a e uu sheet hat ha

/-- One step of any request keeps the world safe. -/
theorem step_safe (ES : List Event) (reqs : List Request) (w : World) (t : Nat)
    (hreq : validRequests reqs) (hs : Safe w) : Safe (step ES reqs w t) := by
  unfold step
  cases hrq : reqs[t]? with
  | none => exact hs
  | some req =>
    cases hpc : w.pcs[t]? with
    | none => exact hs
    | some pc =>
      simp only []
      have hv : ∀ sess idParam rank rnd now, req = .reserve sess idParam rank rnd now →
          validRand (sheetConfig rank).Count.toNat rnd = true := by
        intro sess idParam rank rnd now h
        apply hreq sess idParam rank rnd now
        rw [← h]
        exact List.getElem?_mem hrq
      obtain ⟨S2, l2, pc2, heq, hshape⟩ :=
        stepRequest_shape ES req w.reservationStore w.mutexLocked pc hv
      rw [heq]
      simp only []
      have hlockSame : ∀ (u : Nat) (pu : Pc), u ≠ t → w.pcs[u]? = some pu →
          pu.critical = true → w.mutexLocked = true := fun u pu _ hu hc => hs.held u pu hu hc
      rcases hshape with ⟨h1, h2, h3⟩ | ⟨h1, h2, h3, h4, e, u, h5⟩ |
        ⟨h1, h2, e, u, h3, h4⟩ | ⟨h2, e, u, sheet, now, resp, h3, h4, h1⟩ |
        ⟨h1, h2, resp, h3, h4⟩ | ⟨h2, h3, h4, i, now, h1⟩
      · -- a move outside the critical section, or no move
        subst h1; subst h2
        apply safe_set w t pc pc2 _ _ hs hpc hs.inv hs.dense
        · intro a e uu sheet _ ha; exact hs.free a e uu sheet ha
        · intro e uu sheet hc
          rcases h3 with h3 | ⟨h3, _⟩
          · rw [h3] at hc; rw [hc] at hpc; exact hs.free t e uu sheet hpc
          · rw [hc] at h3; cases h3
        · intro hc
          rcases h3 with h3 | ⟨h3, _⟩
          · rw [h3] at hc
            exact ⟨hs.held t pc hpc hc, Or.inl hc⟩
          · rw [h3] at hc; cases hc
        · exact hlockSame
      · -- Lock()
        subst h1; subst h3
        apply safe_set w t pc pc2 _ _ hs hpc hs.inv hs.dense
        · intro a e2 uu sheet _ ha; exact hs.free a e2 uu sheet ha
        · intro e2 uu sheet hc; rw [h5] at hc; cases hc
        · intro _; exact ⟨rfl, Or.inr h2⟩
        · intro _ _ _ _ _; rfl
      · -- the selection
        subst h1; subst h2
        have hcpc : pc.critical = true := by rw [h3]; rfl
        apply safe_set w t pc pc2 _ _ hs hpc hs.inv hs.dense
        · intro a e2 uu sheet _ ha; exact hs.free a e2 uu sheet ha
        · intro e2 uu sheet hc
          rcases h4 with ⟨resp, h4⟩ | ⟨sh, h4, hfree⟩
          · rw [h4] at hc; cases hc
          · rw [h4] at hc
            simp only [Pc.chosen.injEq] at hc
            rw [← hc.1, ← hc.2.2]; exact hfree
        · intro _; exact ⟨hs.held t pc hpc hcpc, Or.inl hcpc⟩
        · exact hlockSame
      · -- the append
        subst h1; subst h2
        have hcpc : pc.critical = true := by rw [h3]; rfl
        have hfree : seatFree w.reservationStore e sheet.ID := by
          rw [h3] at hpc; exact hs.free t e u sheet hpc
        apply safe_set w t pc pc2 _ _ hs hpc
        · exact seatOccupancyInv_append _ _ hs.inv hfree
        · exact denseIds_append _ _ hs.dense rfl
        · intro a e2 uu sh hat ha
          exact absurd (hs.excl a t _ pc ha hpc rfl hcpc) hat
        · intro e2 uu sh hc; rw [h4] at hc; cases hc
        · intro _; exact ⟨hs.held t pc hpc hcpc, Or.inl hcpc⟩
        · exact hlockSame
      · -- the deferred Unlock()
        subst h1; subst h2
        have hcpc : pc.critical = true := by rw [h3]; rfl
        apply safe_set w t pc pc2 _ _ hs hpc hs.inv hs.dense
        · intro a e2 uu sh _ ha; exact hs.free a e2 uu sh ha
        · intro e2 uu sh hc; rw [h4] at hc; cases hc
        · intro hc; rw [h4] at hc; cases hc
        · intro a pa hat ha hca
          exact absurd (hs.excl a t pa pc ha hpc hca hcpc) hat
      · -- the write of a cancel request
        subst h1; subst h2
        apply safe_set w t pc pc2 _ _ hs hpc (seatOccupancyInv_cancelWrite _ _ _ hs.inv)
          (denseIds_cancelWrite _ _ _ hs.dense)
        · intro a e2 uu sh _ ha
          exact seatFree_cancelWrite _ _ _ _ _ (hs.free a e2 uu sh ha)
        · intro e2 uu sh hc; rw [hc] at h4; cases h4
        · intro hc; rw [h4] at hc; cases hc
        · exact hlockSame

/-- Every interleaving keeps the world safe. -/
theorem run_safe (ES : List Event) (reqs : List Request) (schedule : List Nat) (w : World)
    (hreq : validRequests reqs) (hs : Safe w) : Safe (run ES reqs schedule w) := by
  induction schedule generalizing w with
  | nil => exact hs
  | cons t schedule ih =>
    unfold run
    simp only [List.foldl_cons]
    exact ih _ (step_safe ES reqs w t hreq hs)

/-- Under every interleaving of reserve and cancel requests, started on a ledger
with the seat-occupancy invariant and dense ids, the ledger keeps both: the cancel
handler's missing lock lets two cancels stamp the same record, but a stamp never
occupies a seat or changes an id. -/
theorem run_preserves_invariants (ES : List Event) (reqs : List Request) (schedule : List Nat)
    (S : List Reservation) (hreq : validRequests reqs) (hinv : seatOccupancyInv S)
    (hd : denseIds S) :
    seatOccupancyInv (run ES reqs schedule (initWorld S reqs)).reservationStore ∧
    denseIds (run ES reqs schedule (initWorld S reqs)).reservationStore := by
  have h0 : Safe (initWorld S reqs) := by
    refine ⟨hinv, hd, ?_, ?_, ?_⟩
    · intro t u pt pu ht _ hc _
      simp only [initWorld, List.getElem?_map] at ht
      cases hr : reqs[t]? with
      | none => rw [hr] at ht; cases ht
      | some r =>
        rw [hr] at ht
        have : Pc.start = pt := Option.some.inj ht
        rw [← this] at hc; cases hc
    · intro t pt ht hc
      simp only [initWorld, List.getElem?_map] at ht
      cases hr : reqs[t]? with
      | none => rw [hr] at ht; cases ht
      | some r =>
        rw [hr] at ht
        have : Pc.start = pt := Option.some.inj ht
        rw [← this] at hc; cases hc
    · intro t e u sheet ht
      simp only [initWorld, List.getElem?_map] at ht
      cases hr : reqs[t]? with
      | none => rw [hr] at ht; cases ht
      | some r => rw [hr] at ht; cases ht
  have h := run_safe ES reqs schedule _ hreq h0
  exact ⟨h.inv, h.dense⟩

end Torb
